import Mathlib

/-!
Verification development for the thought-of-the-day image-generation core.

The repository renders quote images (QuoteImageService.generateQuoteImage)
and vocabulary-word images (WordImageService.generateWordImage) onto a
node-canvas surface and stores the PNG through ImageStorage.saveImage.
This file gives a shallow embedding of that rendering core:

  * the mutable canvas 2d context becomes an explicit state record (Gfx
    for the savable style attributes, St for the full state including the
    save stack, the pseudo-random stream and the trace of paint events);
  * every primitive paint call (fillRect, fill, stroke, fillText, gradient
    fill, toBuffer) appends one event to the trace, recording the style
    state in force at the moment of painting; path geometry (moveTo,
    bezierCurveTo, arc control points) is not tracked because no verified
    property depends on it, but the loops driving those calls, the order
    of the primitive calls and every consumption of Math.random are
    mirrored one-for-one from the source;
  * text measurement (ctx.measureText) is an abstract parameter
    m : String -> String -> Rat taking the current font string and the
    text, as in the source where the width depends on the font in force;
  * Math.random becomes an explicit stream of rationals threaded through
    the state;
  * the JavaScript try/catch boundary becomes an Except value: internal
    stage failures are injected through a stage-indexed boolean, and the
    public operations are total functions returning the placeholder path
    on any failure, exactly as the catch blocks in the source do.

Numeric values are exact rationals, so 58 * 1.2 and friends are computed
without floating error; all the constants involved are exactly
representable in binary64, hence the rational arithmetic agrees with the
JavaScript semantics on every expression appearing here.
-/

/-! ## Canvas context state and paint-event traces -/

/-- Gfx is the savable part of the canvas 2d context state: the style
attributes that ctx.save pushes and ctx.restore pops. Defaults follow the
canvas specification (alpha 1, no shadow, black fill). -/
structure Gfx where
  globalAlpha : ℚ
  shadowColor : String
  shadowBlur : ℚ
  shadowOffsetX : ℚ
  shadowOffsetY : ℚ
  fillStyle : String
  strokeStyle : String
  lineWidth : ℚ
  font : String
deriving DecidableEq

/-- Gfx.init is the context state of a freshly created canvas. -/
def Gfx.init : Gfx :=
  ⟨1, "transparent", 0, 0, 0, "#000000", "#000000", 1, "10px sans-serif"⟩

/-- Ev is one observable paint action. Each event records the tag of the
source routine that painted it together with the full style state in
force at paint time. The buffer event models canvas.toBuffer, the
serialization of the finished canvas. -/
inductive Ev where
  | rect (tag : String) (x y w h : ℚ) (g : Gfx)
  | grad (tag : String) (stops : List (ℚ × String)) (g : Gfx)
  | path (tag : String) (g : Gfx)
  | stroke (tag : String) (g : Gfx)
  | text (tag : String) (s : String) (x y : ℚ) (g : Gfx)
  | buffer
deriving DecidableEq

/-- Rng models the Math.random stream: an infinite sequence of rationals
together with a cursor. -/
structure Rng where
  seq : ℕ → ℚ
  idx : ℕ

/-- Rng.next draws the next pseudo-random value and advances the cursor. -/
def Rng.next (r : Rng) : ℚ × Rng :=
  (r.seq r.idx, ⟨r.seq, r.idx + 1⟩)

/-- St is the full mutable state of one render call: current context
style, the ctx.save stack, the random stream and the paint-event trace. -/
structure St where
  gfx : Gfx
  stack : List Gfx
  rng : Rng
  events : List Ev

/-- St.init is the state at the start of a render call: fresh canvas,
empty stack, empty trace. -/
def St.init (r : Rng) : St := ⟨Gfx.init, [], r, []⟩

namespace St

/-- save models ctx.save: push the current style state. -/
def save (st : St) : St := { st with stack := st.gfx :: st.stack }

/-- restore models ctx.restore: pop the style state, a no-op on an empty
stack as in the canvas specification. -/
def restore (st : St) : St :=
  match st.stack with
  | [] => st
  | g :: rest => { st with gfx := g, stack := rest }

/-- emit appends one paint event to the trace. -/
def emit (e : Ev) (st : St) : St := { st with events := st.events ++ [e] }

/-- rand models one call of Math.random. -/
def rand (st : St) : ℚ × St :=
  let (x, r) := st.rng.next
  (x, { st with rng := r })

/-- setAlpha models an assignment to ctx.globalAlpha. -/
def setAlpha (a : ℚ) (st : St) : St := { st with gfx := { st.gfx with globalAlpha := a } }

/-- setShadowColor models an assignment to ctx.shadowColor. -/
def setShadowColor (c : String) (st : St) : St := { st with gfx := { st.gfx with shadowColor := c } }

/-- setShadowBlur models an assignment to ctx.shadowBlur. -/
def setShadowBlur (b : ℚ) (st : St) : St := { st with gfx := { st.gfx with shadowBlur := b } }

/-- setShadowOffsetX models an assignment to ctx.shadowOffsetX. -/
def setShadowOffsetX (v : ℚ) (st : St) : St := { st with gfx := { st.gfx with shadowOffsetX := v } }

/-- setShadowOffsetY models an assignment to ctx.shadowOffsetY. -/
def setShadowOffsetY (v : ℚ) (st : St) : St := { st with gfx := { st.gfx with shadowOffsetY := v } }

/-- setFillStyle models an assignment to ctx.fillStyle. -/
def setFillStyle (c : String) (st : St) : St := { st with gfx := { st.gfx with fillStyle := c } }

/-- setStrokeStyle models an assignment to ctx.strokeStyle. -/
def setStrokeStyle (c : String) (st : St) : St := { st with gfx := { st.gfx with strokeStyle := c } }

/-- setLineWidth models an assignment to ctx.lineWidth. -/
def setLineWidth (v : ℚ) (st : St) : St := { st with gfx := { st.gfx with lineWidth := v } }

/-- setFont models an assignment to ctx.font. -/
def setFont (f : String) (st : St) : St := { st with gfx := { st.gfx with font := f } }

/-- fillRect models ctx.fillRect. -/
def fillRect (tag : String) (x y w h : ℚ) (st : St) : St :=
  st.emit (Ev.rect tag x y w h st.gfx)

/-- fillPath models a ctx.fill of the path constructed just before it. -/
def fillPath (tag : String) (st : St) : St :=
  st.emit (Ev.path tag st.gfx)

/-- strokePath models a ctx.stroke of the path constructed just before it. -/
def strokePath (tag : String) (st : St) : St :=
  st.emit (Ev.stroke tag st.gfx)

/-- fillText models ctx.fillText. -/
def fillText (tag s : String) (x y : ℚ) (st : St) : St :=
  st.emit (Ev.text tag s x y st.gfx)

/-- fillGrad models setting ctx.fillStyle to a linear gradient with the
given color stops and then filling; the stop list is recorded on the
event. -/
def fillGrad (tag : String) (stops : List (ℚ × String)) (st : St) : St :=
  st.emit (Ev.grad tag stops st.gfx)

end St

deriving instance DecidableEq for Except

/-- Meas is the abstract text-measurement primitive: current font string
and text to pixel width, mirroring ctx.measureText under the font in
force. -/
abbrev Meas := String → String → ℚ

/-- upRangeN enumerates the ascending JavaScript loop
for (let i = start; i < lt; i += step). step must be positive for the
enumeration to be faithful; all call sites pass positive literals. -/
def upRangeN (start lt step : ℕ) : List ℕ :=
  (List.range ((lt - start + step - 1) / step)).map (fun k => start + k * step)

/-- downRangeZ enumerates the descending JavaScript loop
for (let i = start; i > gt; i -= step) over integers. -/
def downRangeZ (start gt step : ℤ) : List ℤ :=
  if start ≤ gt then []
  else (List.range ((start - gt - 1) / step + 1).toNat).map (fun k => start - k * step)

/-- leadMatch tests whether the pattern is a leading segment of the
text. -/
def leadMatch : List Char → List Char → Bool
  | [], _ => true
  | _ :: _, [] => false
  | p :: ps, c :: cs => (p == c) && leadMatch ps cs

/-- hasSubAux tests whether the pattern occurs at some position of the
text. -/
def hasSubAux (pat : List Char) : List Char → Bool
  | [] => leadMatch pat []
  | c :: cs => leadMatch pat (c :: cs) || hasSubAux pat cs

/-- includesTok models the JavaScript String.prototype.includes
substring test. -/
def includesTok (s pat : String) : Bool := hasSubAux pat.data s.data

/-! ## Timestamps and the image storage model (image-storage.ts) -/

/-- Timestamp is the wall-clock instant captured by moment() inside
ImageStorage.saveImage. -/
structure Timestamp where
  year : ℕ
  month : ℕ
  day : ℕ
  hour : ℕ
  minute : ℕ
  second : ℕ
  millis : ℕ
deriving DecidableEq

/-- padNat left-pads the decimal rendering of a natural number with
zeros to the given width, as the moment format tokens do. -/
def padNat (width n : ℕ) : String :=
  let s := toString n
  String.mk (List.replicate (width - s.length) '0') ++ s

/-- fmtSec renders a timestamp with the moment format
YYYY-MM-DD-HH-mm-ss used by the synchronous ImageStorage.saveImage. -/
def fmtSec (t : Timestamp) : String :=
  padNat 4 t.year ++ ("-" ++ (padNat 2 t.month ++ ("-" ++ (padNat 2 t.day ++
    ("-" ++ (padNat 2 t.hour ++ ("-" ++ (padNat 2 t.minute ++ ("-" ++ padNat 2 t.second)))))))))

/-- fmtMs renders a timestamp with the moment format
YYYY-MM-DD_HH-mm-ss-SSS used by the asynchronous ImageStorage.saveImage
variant. -/
def fmtMs (t : Timestamp) : String :=
  padNat 4 t.year ++ ("-" ++ (padNat 2 t.month ++ ("-" ++ (padNat 2 t.day ++
    ("_" ++ (padNat 2 t.hour ++ ("-" ++ (padNat 2 t.minute ++ ("-" ++ (padNat 2 t.second ++
      ("-" ++ padNat 3 t.millis)))))))))))

/-- saveFilenameV2 is the output filename generated by the synchronous
ImageStorage.saveImage: category-of-the-day-timestamp.png. The filename
is a function of the category and the timestamp alone; no random
component enters it. -/
def saveFilenameV2 (category : String) (t : Timestamp) : String :=
  category ++ ("-of-the-day-" ++ (fmtSec t ++ ".png"))

/-- saveFilenameV1 is the output filename generated by the asynchronous
ImageStorage.saveImage variant when no explicit filename is passed:
timestamp.png, again a function of the timestamp alone. -/
def saveFilenameV1 (t : Timestamp) : String :=
  fmtMs t ++ ".png"

/-- saveSubdirOf maps the category argument of saveImage to its
subdirectory: word goes to words, anything else to thoughts. -/
def saveSubdirOf (category : String) : String :=
  if category = "word" then "words" else "thoughts"

/-- saveImageUrl is the url path returned by the synchronous
ImageStorage.saveImage on success. -/
def saveImageUrl (category : String) (t : Timestamp) : String :=
  "generated-images/" ++ (saveSubdirOf category ++ ("/" ++ saveFilenameV2 category t))

/-- thoughtUrl is the successful return value of
QuoteImageService.generateQuoteImage. -/
def thoughtUrl (t : Timestamp) : String := saveImageUrl "thought" t

/-- wordUrl is the successful return value of
WordImageService.generateWordImage. -/
def wordUrl (t : Timestamp) : String := saveImageUrl "word" t

/-- placeholderThought is the fixed sentinel returned by
generateQuoteImage whenever any internal stage fails. -/
def placeholderThought : String := "generated-images/thoughts/placeholder.png"

/-- placeholderWord is the fixed sentinel returned by generateWordImage
whenever any internal stage fails. -/
def placeholderWord : String := "generated-images/words/placeholder.png"

/-- SaveCall identifies one invocation of ImageStorage.saveImage: a call
identity (distinguishing two concurrent calls) and the timestamp moment()
observes inside that call. -/
structure SaveCall where
  callId : ℕ
  time : Timestamp
deriving DecidableEq

/-- saveFilenameOfCall is the filename the synchronous saveImage
generates for a given call: it depends only on the timestamp, never on
the call identity, because the source derives the name from
moment().format alone. -/
def saveFilenameOfCall (category : String) (c : SaveCall) : String :=
  saveFilenameV2 category c.time

/-! ## Text wrapper (TextUtilsService.wrapText)

The implementation file of TextUtilsService is not present under src;
only its call sites in QuoteImageService and WordImageService are. The
wrapper below is therefore modelled from the specification, section 4.2:
split on whitespace, greedy accumulation while the measured width of the
line extended by a space and the next token stays within the maximum,
hyphenation of a token too wide for a line on its own (longest prefix
plus a trailing hyphen that fits, repeated on the remainder), an error
when even a single character exceeds the maximum width, and an optional
font-size shrink loop bounded below by the minimum font size. -/

/-- splitOnSpace models the split of the input text at every space
character, exactly like the JavaScript split with a single-space
separator: adjacent spaces produce empty tokens and the empty text
produces one empty token. -/
def splitOnSpace : List Char → List (List Char)
  | [] => [[]]
  | c :: rest =>
    let r := splitOnSpace rest
    if c = ' ' then [] :: r
    else
      match r with
      | [] => [[c]]
      | t :: ts => (c :: t) :: ts

/-- hyphenCut finds the largest k between 1 and the token length such
that the first k characters followed by a hyphen still fit the maximum
width, the longest-prefix search of the hyphenation step. -/
def hyphenCut (meas : List Char → ℚ) (maxW : ℚ) (cs : List Char) : Option ℕ :=
  ((List.range cs.length).reverse.map (· + 1)).find?
    (fun k => decide (meas (cs.take k ++ ['-']) ≤ maxW))

/-- hyphLoop is the hyphenation pass, modelled from the spec: while the
remaining token is too wide, emit the longest fitting prefix with a
trailing hyphen; when not even one character plus a hyphen fits, emit the
first character alone if it fits by itself, and fail with the fatal
layout error of the spec when a single character already exceeds the
maximum width. Fuel bounds the recursion; every call site passes fuel
larger than the token length, which the loop can never exhaust since it
consumes at least one character per step. -/
def hyphLoop (meas : List Char → ℚ) (maxW : ℚ) :
    ℕ → List Char → Except Unit (List (List Char) × List Char)
  | _, [] => .ok ([], [])
  | 0, _ :: _ => .error ()
  | fuel + 1, c :: rest =>
    if meas (c :: rest) ≤ maxW then .ok ([], c :: rest)
    else
      match hyphenCut meas maxW (c :: rest) with
      | some k =>
        match hyphLoop meas maxW fuel ((c :: rest).drop k) with
        | .error e => .error e
        | .ok (ls, cur) => .ok (((c :: rest).take k ++ ['-']) :: ls, cur)
      | none =>
        if meas [c] ≤ maxW then
          match hyphLoop meas maxW fuel rest with
          | .error e => .error e
          | .ok (ls, cur) => .ok ([c] :: ls, cur)
        else .error ()

/-- startTok opens a new line with a token: an empty token opens an empty
line, a fitting token opens the line directly, and an oversized token
goes through the hyphenation pass, returning the fully emitted lines and
the remaining open line. -/
def startTok (meas : List Char → ℚ) (maxW : ℚ) (t : List Char) :
    Except Unit (List (List Char) × List Char) :=
  if t = [] then .ok ([], [])
  else if meas t ≤ maxW then .ok ([], t)
  else hyphLoop meas maxW (t.length + 1) t

/-- wrapTokens is the greedy accumulation loop of the spec: extend the
open line by a space and the next token while the measured width allows,
otherwise close the line and open a new one with the token. -/
def wrapTokens (meas : List Char → ℚ) (maxW : ℚ) :
    List (List Char) → Option (List Char) → List (List Char) → Except Unit (List (List Char))
  | [], cur, acc => .ok (acc ++ [cur.getD []])
  | t :: ts, none, acc =>
    match startTok meas maxW t with
    | .error e => .error e
    | .ok (ls, cur) => wrapTokens meas maxW ts (some cur) (acc ++ ls)
  | t :: ts, some cur, acc =>
    if meas (cur ++ ' ' :: t) ≤ maxW then
      wrapTokens meas maxW ts (some (cur ++ ' ' :: t)) acc
    else
      match startTok meas maxW t with
      | .error e => .error e
      | .ok (ls, cur2) => wrapTokens meas maxW ts (some cur2) ((acc ++ [cur]) ++ ls)

/-- wrapAt wraps a text at one fixed font size, returning the line list. -/
def wrapAt (meas : List Char → ℚ) (maxW : ℚ) (text : List Char) :
    Except Unit (List (List Char)) :=
  wrapTokens meas maxW (splitOnSpace text) none []

/-- WrappedBlock is the result of the wrapper: the line sequence and the
font size it settled on. -/
structure WrappedBlock where
  lines : List String
  fontSizeUsed : ℕ
deriving DecidableEq

/-- shrinkLoop is the font-size shrink loop of the spec: wrap at the
current size, accept when no maximum block height was supplied, when the
block fits it, or at the minimum-size floor, and otherwise retry at a
smaller size. Fuel makes the recursion structural; wrapText supplies
enough for every positive step. -/
def shrinkLoop (measAt : ℕ → List Char → ℚ) (text : List Char) (maxW : ℚ)
    (minFS step : ℕ) (maxBlockH : Option ℚ) (lineH : ℕ → ℚ) :
    ℕ → ℕ → Except Unit WrappedBlock
  | 0, fs =>
    match wrapAt (measAt fs) maxW text with
    | .error e => .error e
    | .ok ls => .ok ⟨ls.map String.mk, fs⟩
  | fuel + 1, fs =>
    match wrapAt (measAt fs) maxW text with
    | .error e => .error e
    | .ok ls =>
      match maxBlockH with
      | none => .ok ⟨ls.map String.mk, fs⟩
      | some mh =>
        if (ls.length : ℚ) * lineH fs ≤ mh ∨ fs ≤ minFS then .ok ⟨ls.map String.mk, fs⟩
        else shrinkLoop measAt text maxW minFS step maxBlockH lineH fuel (fs - step)

/-- Modelled from the spec: wrapText is the operation of
TextUtilsService, whose implementation file is missing from src (the
repository only contains its call sites); the behaviour follows
specification section 4.2 word by word. It wraps the text within the
maximum width starting at the given font size, shrinking down to the
minimum when a maximum block height is supplied. -/
def wrapText (measAt : ℕ → List Char → ℚ) (text : String) (maxW : ℚ)
    (startFS minFS step : ℕ) (maxBlockH : Option ℚ) (lineH : ℕ → ℚ) :
    Except Unit WrappedBlock :=
  shrinkLoop measAt text.data maxW minFS step maxBlockH lineH (startFS + 1) startFS

/-! ## Width invariant of the wrapper -/

/-- splitOnSpace_ne_nil shows the token list is never empty. -/
theorem splitOnSpace_ne_nil (cs : List Char) : splitOnSpace cs ≠ [] := by
  cases cs with
  | nil => simp [splitOnSpace]
  | cons c rest =>
    simp only [splitOnSpace]
    by_cases h : c = ' '
    · simp [h]
    · simp only [h, if_false]
      cases splitOnSpace rest with
      | nil => simp
      | cons t ts => simp

/-- splitOnSpace_subset shows every character of every token occurs in
the original text. -/
theorem splitOnSpace_subset :
    ∀ (cs : List Char), ∀ t ∈ splitOnSpace cs, ∀ c ∈ t, c ∈ cs := by
  intro cs
  induction cs with
  | nil => simp [splitOnSpace]
  | cons c rest ih =>
    intro t ht d hd
    simp only [splitOnSpace] at ht
    by_cases hsp : c = ' '
    · rw [if_pos hsp] at ht
      rcases List.mem_cons.mp ht with h1 | h1
      · subst h1; exact absurd hd (List.not_mem_nil d)
      · exact List.mem_cons_of_mem c (ih t h1 d hd)
    · rw [if_neg hsp] at ht
      cases hrest : splitOnSpace rest with
      | nil => exact absurd hrest (splitOnSpace_ne_nil rest)
      | cons t0 ts =>
        rw [hrest] at ht
        rcases List.mem_cons.mp ht with h1 | h1
        · subst h1
          rcases List.mem_cons.mp hd with h2 | h2
          · subst h2; exact List.mem_cons_self d rest
          · have : t0 ∈ splitOnSpace rest := by rw [hrest]; exact List.mem_cons_self t0 ts
            exact List.mem_cons_of_mem c (ih t0 this d h2)
        · have : t ∈ splitOnSpace rest := by rw [hrest]; exact List.mem_cons_of_mem t0 h1
          exact List.mem_cons_of_mem c (ih t this d hd)

/-- hyphenCut_fits shows the returned cut point produces a fragment that
fits the maximum width. -/
theorem hyphenCut_fits (meas : List Char → ℚ) (maxW : ℚ) (cs : List Char) (k : ℕ)
    (h : hyphenCut meas maxW cs = some k) : meas (cs.take k ++ ['-']) ≤ maxW := by
  have := List.find?_some h
  simpa using this

/-- wrap_invariant_hyph is the hyphenation-pass invariant: when every
single character of the token fits the maximum width, every emitted line
and the remaining open line fit too. -/
theorem wrap_invariant_hyph (meas : List Char → ℚ) (maxW : ℚ)
    (h0 : meas [] ≤ maxW) :
    ∀ (fuel : ℕ) (cs : List Char), (∀ c ∈ cs, meas [c] ≤ maxW) →
      ∀ ls cur, hyphLoop meas maxW fuel cs = .ok (ls, cur) →
        (∀ l ∈ ls, meas l ≤ maxW) ∧ meas cur ≤ maxW := by
  intro fuel
  induction fuel with
  | zero =>
    intro cs hc ls cur h
    cases cs with
    | nil =>
      simp only [hyphLoop] at h
      injection h with h
      injection h with h1 h2
      subst h1; subst h2
      exact ⟨fun l hl => absurd hl (List.not_mem_nil l), h0⟩
    | cons c rest => simp [hyphLoop] at h
  | succ fuel ih =>
    intro cs hc ls cur h
    cases cs with
    | nil =>
      simp only [hyphLoop] at h
      injection h with h
      injection h with h1 h2
      subst h1; subst h2
      exact ⟨fun l hl => absurd hl (List.not_mem_nil l), h0⟩
    | cons c rest =>
      simp only [hyphLoop] at h
      split at h
      case isTrue hfit =>
        injection h with h
        injection h with h1 h2
        subst h1; subst h2
        exact ⟨fun l hl => absurd hl (List.not_mem_nil l), hfit⟩
      case isFalse hfit =>
        split at h
        case h_1 k hcut =>
          split at h
          case h_1 e hrec => exact absurd h (by simp)
          case h_2 ls2 cur2 hrec =>
            injection h with h
            injection h with h1 h2
            subst h1; subst h2
            have hsub : ∀ d ∈ (c :: rest).drop k, meas [d] ≤ maxW :=
              fun d hd => hc d (List.drop_subset k (c :: rest) hd)
            obtain ⟨hall, hcur⟩ := ih ((c :: rest).drop k) hsub ls2 cur2 hrec
            refine ⟨fun l hl => ?_, hcur⟩
            rcases List.mem_cons.mp hl with h3 | h3
            · subst h3; exact hyphenCut_fits meas maxW (c :: rest) k hcut
            · exact hall l h3
        case h_2 hcut =>
          split at h
          case isTrue hone =>
            split at h
            case h_1 e hrec => exact absurd h (by simp)
            case h_2 ls2 cur2 hrec =>
              injection h with h
              injection h with h1 h2
              subst h1; subst h2
              have hsub : ∀ d ∈ rest, meas [d] ≤ maxW :=
                fun d hd => hc d (List.mem_cons_of_mem c hd)
              obtain ⟨hall, hcur⟩ := ih rest hsub ls2 cur2 hrec
              refine ⟨fun l hl => ?_, hcur⟩
              rcases List.mem_cons.mp hl with h3 | h3
              · subst h3; exact hone
              · exact hall l h3
          case isFalse hone => exact absurd h (by simp)

/-- wrap_invariant_start lifts the invariant to startTok. -/
theorem wrap_invariant_start (meas : List Char → ℚ) (maxW : ℚ)
    (h0 : meas [] ≤ maxW) (t : List Char) (hc : ∀ c ∈ t, meas [c] ≤ maxW)
    (ls : List (List Char)) (cur : List Char)
    (h : startTok meas maxW t = .ok (ls, cur)) :
    (∀ l ∈ ls, meas l ≤ maxW) ∧ meas cur ≤ maxW := by
  rw [startTok] at h
  split at h
  case isTrue he =>
    injection h with h
    injection h with h1 h2
    subst h1; subst h2
    exact ⟨fun l hl => absurd hl (List.not_mem_nil l), h0⟩
  case isFalse he =>
    split at h
    case isTrue hfit =>
      injection h with h
      injection h with h1 h2
      subst h1; subst h2
      exact ⟨fun l hl => absurd hl (List.not_mem_nil l), hfit⟩
    case isFalse hfit =>
      exact wrap_invariant_hyph meas maxW h0 (t.length + 1) t hc ls cur h

/-- wrap_invariant_tokens is the invariant of the greedy accumulation
loop: assuming the already-closed lines and the open line fit, every line
of the final result fits. -/
theorem wrap_invariant_tokens (meas : List Char → ℚ) (maxW : ℚ)
    (h0 : meas [] ≤ maxW) :
    ∀ (toks : List (List Char)), (∀ t ∈ toks, ∀ c ∈ t, meas [c] ≤ maxW) →
      ∀ (cur : Option (List Char)) (acc : List (List Char)),
        (∀ l, cur = some l → meas l ≤ maxW) → (∀ l ∈ acc, meas l ≤ maxW) →
        ∀ ls, wrapTokens meas maxW toks cur acc = .ok ls →
          ∀ l ∈ ls, meas l ≤ maxW := by
  intro toks
  induction toks with
  | nil =>
    intro _ cur acc hcur hacc ls h l hl
    simp only [wrapTokens] at h
    injection h with h
    subst h
    rcases List.mem_append.mp hl with h1 | h1
    · exact hacc l h1
    · rcases List.mem_singleton.mp h1 with rfl
      cases cur with
      | none => exact h0
      | some c => exact hcur c rfl
  | cons t ts ih =>
    intro htoks cur acc hcur hacc ls h l hl
    have htoks2 : ∀ t2 ∈ ts, ∀ c ∈ t2, meas [c] ≤ maxW :=
      fun t2 h2 => htoks t2 (List.mem_cons_of_mem t h2)
    have htokt : ∀ c ∈ t, meas [c] ≤ maxW := htoks t (List.mem_cons_self t ts)
    cases cur with
    | none =>
      simp only [wrapTokens] at h
      split at h
      case h_1 e hst => exact absurd h (by simp)
      case h_2 ls2 cur2 hst =>
        obtain ⟨hall, hcur2⟩ := wrap_invariant_start meas maxW h0 t htokt ls2 cur2 hst
        refine ih htoks2 (some cur2) (acc ++ ls2) ?_ ?_ ls h l hl
        · intro l2 hl2
          injection hl2 with h3
          subst h3; exact hcur2
        · intro l2 hl2
          rcases List.mem_append.mp hl2 with h1 | h1
          · exact hacc l2 h1
          · exact hall l2 h1
    | some c =>
      simp only [wrapTokens] at h
      split at h
      case isTrue hext =>
        refine ih htoks2 (some (c ++ ' ' :: t)) acc ?_ hacc ls h l hl
        intro l2 hl2
        injection hl2 with h3
        subst h3; exact hext
      case isFalse hext =>
        split at h
        case h_1 e hst => exact absurd h (by simp)
        case h_2 ls2 cur2 hst =>
          obtain ⟨hall, hcur2⟩ := wrap_invariant_start meas maxW h0 t htokt ls2 cur2 hst
          refine ih htoks2 (some cur2) ((acc ++ [c]) ++ ls2) ?_ ?_ ls h l hl
          · intro l2 hl2
            injection hl2 with h3
            subst h3; exact hcur2
          · intro l2 hl2
            rcases List.mem_append.mp hl2 with h1 | h1
            · rcases List.mem_append.mp h1 with h2 | h2
              · exact hacc l2 h2
              · rcases List.mem_singleton.mp h2 with rfl
                exact hcur l2 rfl
            · exact hall l2 h1

/-- wrap_invariant_at is the one-size width invariant: every line of a
successful wrapAt fits the maximum width whenever the empty line and
every single character of the text do. -/
theorem wrap_invariant_at (meas : List Char → ℚ) (maxW : ℚ) (text : List Char)
    (h0 : meas [] ≤ maxW) (hc : ∀ c ∈ text, meas [c] ≤ maxW)
    (ls : List (List Char)) (h : wrapAt meas maxW text = .ok ls) :
    ∀ l ∈ ls, meas l ≤ maxW := by
  refine wrap_invariant_tokens meas maxW h0 (splitOnSpace text) ?_ none [] ?_ ?_ ls h
  · intro t ht c hct
    exact hc c (splitOnSpace_subset text t ht c hct)
  · intro l hl; exact absurd hl (by simp)
  · intro l hl; exact absurd hl (List.not_mem_nil l)

/-- wrap_invariant_size transports the width invariant through the
String packaging of a one-size wrap result. -/
theorem wrap_invariant_size (measAt : ℕ → List Char → ℚ) (text : List Char) (maxW : ℚ)
    (h0 : ∀ fs, measAt fs [] ≤ maxW) (hc : ∀ fs, ∀ c ∈ text, measAt fs [c] ≤ maxW)
    (fs : ℕ) (ls : List (List Char)) (hok : wrapAt (measAt fs) maxW text = .ok ls) :
    ∀ l ∈ ls.map String.mk, measAt fs l.data ≤ maxW := by
  intro l hl
  rcases List.mem_map.mp hl with ⟨cs, hcs, rfl⟩
  exact wrap_invariant_at (measAt fs) maxW text (h0 fs) (hc fs) ls hok cs hcs

/-- wrap_invariant_shrink carries the width invariant through the
font-size shrink loop: whatever size the loop settles on, the lines it
returns were produced by a successful one-size wrap at that size. -/
theorem wrap_invariant_shrink (measAt : ℕ → List Char → ℚ) (text : List Char) (maxW : ℚ)
    (minFS step : ℕ) (maxBlockH : Option ℚ) (lineH : ℕ → ℚ)
    (h0 : ∀ fs, measAt fs [] ≤ maxW) (hc : ∀ fs, ∀ c ∈ text, measAt fs [c] ≤ maxW) :
    ∀ (fuel fs : ℕ) (wb : WrappedBlock),
      shrinkLoop measAt text maxW minFS step maxBlockH lineH fuel fs = .ok wb →
      ∀ l ∈ wb.lines, measAt wb.fontSizeUsed l.data ≤ maxW := by
  intro fuel
  induction fuel with
  | zero =>
    intro fs wb h
    simp only [shrinkLoop] at h
    split at h
    case h_1 e hok => exact absurd h (by simp)
    case h_2 ls hok =>
      injection h with h
      subst h
      exact wrap_invariant_size measAt text maxW h0 hc fs ls hok
  | succ fuel ih =>
    intro fs wb h
    simp only [shrinkLoop] at h
    split at h
    case h_1 e hok => exact absurd h (by simp)
    case h_2 ls hok =>
      split at h
      case h_1 =>
        injection h with h
        subst h
        exact wrap_invariant_size measAt text maxW h0 hc fs ls hok
      case h_2 mh =>
        split at h
        case isTrue =>
          injection h with h
          subst h
          exact wrap_invariant_size measAt text maxW h0 hc fs ls hok
        case isFalse =>
          exact ih (fs - step) wb h

/-- C2: for every text, maximum width and font size such that the
maximum width is at least the measured width of the widest single
character (at every candidate size, the empty text measuring within the
maximum as well), every line of the block the Text Wrapper returns has
measured width at most the maximum width at the font size the wrapper
settled on. -/
theorem c2_wrap_width_invariant (measAt : ℕ → List Char → ℚ) (text : String) (maxW : ℚ)
    (startFS minFS step : ℕ) (maxBlockH : Option ℚ) (lineH : ℕ → ℚ)
    (h0 : ∀ fs, measAt fs [] ≤ maxW)
    (hc : ∀ fs, ∀ c ∈ text.data, measAt fs [c] ≤ maxW)
    (wb : WrappedBlock)
    (h : wrapText measAt text maxW startFS minFS step maxBlockH lineH = .ok wb) :
    ∀ l ∈ wb.lines, measAt wb.fontSizeUsed l.data ≤ maxW :=
  wrap_invariant_shrink measAt text.data maxW minFS step maxBlockH lineH h0 hc
    (startFS + 1) startFS wb h

/-- measTen is a concrete measurement primitive for witnesses: ten
pixels per character at every font size. -/
def measTen : ℕ → List Char → ℚ := fun _ cs => ((cs.length * 10 : ℕ) : ℚ)

/-- Witness for C2 at a concrete input: wrapping the eleven-character
text at width 100 yields the two lines hello and world, and the theorem
applies with every hypothesis discharged. -/
theorem c2_wrap_width_invariant_witness :
    wrapText measTen "hello world" 100 58 28 2 none (fun fs => (fs : ℚ) * 1.2)
        = .ok (WrappedBlock.mk ["hello", "world"] 58) ∧
    ∀ l ∈ (WrappedBlock.mk ["hello", "world"] 58).lines,
      measTen (WrappedBlock.mk ["hello", "world"] 58).fontSizeUsed l.data ≤ 100 :=
  ⟨by decide,
   c2_wrap_width_invariant measTen "hello world" 100 58 28 2 none (fun fs => (fs : ℚ) * 1.2)
     (fun _ => by norm_num [measTen])
     (fun _ => by intro c _; norm_num [measTen])
     (WrappedBlock.mk ["hello", "world"] 58) (by decide)⟩

/-! ## Filename generation (C8) -/

/-- fmt_ne_filename_ne shows the synchronous saveImage filename is
injective in the formatted timestamp: same category, different formatted
timestamps, different filenames. -/
theorem fmt_ne_filename_ne (category f1 f2 : String) (h : f1 ≠ f2) :
    category ++ ("-of-the-day-" ++ (f1 ++ ".png"))
      ≠ category ++ ("-of-the-day-" ++ (f2 ++ ".png")) := by
  intro he
  apply h
  have hd := congrArg String.data he
  simp only [String.data_append] at hd
  have h1 := List.append_cancel_left hd
  have h2 := List.append_cancel_left h1
  have h3 := List.append_cancel_right h2
  exact String.ext h3

/-- C8 amended: the output filename of ImageStorage.saveImage is a
function of the category and the formatted timestamp alone, with no
random component: two calls whose timestamps format differently receive
distinct filenames, and two calls whose timestamps format identically
receive the same filename, so two concurrent calls within the same
second can collide. -/
theorem c8_filename_timestamp_determined (category : String) (c1 c2 : SaveCall) :
    (fmtSec c1.time ≠ fmtSec c2.time →
      saveFilenameOfCall category c1 ≠ saveFilenameOfCall category c2) ∧
    (fmtSec c1.time = fmtSec c2.time →
      saveFilenameOfCall category c1 = saveFilenameOfCall category c2) := by
  constructor
  · intro h
    exact fmt_ne_filename_ne category (fmtSec c1.time) (fmtSec c2.time) h
  · intro h
    simp only [saveFilenameOfCall, saveFilenameV2, h]

/-- Counterexample to C8 as stated: two distinct saveImage calls (made
concurrently, hence sharing the same second-resolution timestamp)
receive byte-identical filenames, because the filename contains no
randomness; so the claimed guaranteed distinctness is false. -/
theorem c8_counterexample :
    SaveCall.mk 0 (Timestamp.mk 2025 4 22 11 33 28 0)
        ≠ SaveCall.mk 1 (Timestamp.mk 2025 4 22 11 33 28 0) ∧
    saveFilenameOfCall "thought" (SaveCall.mk 0 (Timestamp.mk 2025 4 22 11 33 28 0))
      = saveFilenameOfCall "thought" (SaveCall.mk 1 (Timestamp.mk 2025 4 22 11 33 28 0)) :=
  ⟨by decide, rfl⟩

/-- Witness for the amended C8: two calls one second apart receive
distinct filenames. -/
theorem c8_filename_timestamp_determined_witness :
    saveFilenameOfCall "thought" (SaveCall.mk 0 (Timestamp.mk 2025 4 22 11 33 28 0))
      ≠ saveFilenameOfCall "thought" (SaveCall.mk 1 (Timestamp.mk 2025 4 22 11 33 29 0)) :=
  (c8_filename_timestamp_determined "thought"
    (SaveCall.mk 0 (Timestamp.mk 2025 4 22 11 33 28 0))
    (SaveCall.mk 1 (Timestamp.mk 2025 4 22 11 33 29 0))).1 (by decide)

/-! ## Design configuration data model -/

/-- BackgroundCfg mirrors design.background: a type tag (solid or
gradient) and a color value (a css color, or a JSON-encoded array of
gradient colors). -/
structure BackgroundCfg where
  btype : String
  color : String
deriving DecidableEq

/-- TypoRole mirrors one typography role of the DesignConfig; absent
fields are none and the renderer substitutes its fixed defaults. -/
structure TypoRole where
  fontFamily : Option String
  color : Option String
  weight : Option String
deriving DecidableEq

/-- Typography mirrors design.typography with its three roles. -/
structure Typography where
  title : TypoRole
  quote : TypoRole
  author : TypoRole
deriving DecidableEq

/-- DesignConfig mirrors the design value object consumed by both image
services. -/
structure DesignConfig where
  designId : String
  background : BackgroundCfg
  typography : Typography
deriving DecidableEq

/-- QuoteOptions mirrors ImageGenerationOptions as destructured by
generateQuoteImage. -/
structure QuoteOptions where
  quote : String
  author : String
  design : DesignConfig

/-- WordOptions mirrors WordImageGenerationOptions as destructured by
generateWordImage; example and partOfSpeech are skipped when falsy, so
they are options here. -/
structure WordOptions where
  word : String
  definition : String
  «example» : Option String
  partOfSpeech : Option String
  design : DesignConfig

/-- truthy models the JavaScript truthiness test on an optional string:
absent and empty strings are falsy. -/
def truthy (o : Option String) : Bool := o.getD "" ≠ ""

/-! ## Quote image layout constants (generateQuoteImage lines 22 to 79)

These definitions mirror, name for name, the constants and derived
quantities computed at the top of QuoteImageService.generateQuoteImage:
canvas 1080 by 1080 from IMAGE_CONFIG, horizontal margins 100 from
IMAGE_CONFIG.MARGINS, and the card geometry derived from them. -/

/-- canvasW is IMAGE_CONFIG.WIDTH, the fixed square canvas width. -/
def canvasW : ℚ := 1080

/-- canvasH is IMAGE_CONFIG.HEIGHT. -/
def canvasH : ℚ := 1080

/-- marginsHorizontal is IMAGE_CONFIG.MARGINS.HORIZONTAL. -/
def marginsHorizontal : ℚ := 100

/-- titleFontSize is the fixed 60 pixel title size. -/
def titleFontSize : ℕ := 60

/-- quoteFontSize is the fixed 58 pixel quote size. -/
def quoteFontSize : ℕ := 58

/-- authorFontSize is the fixed 38 pixel author size. -/
def authorFontSize : ℕ := 38

/-- titleText is the fixed heading painted above the card. -/
def titleText : String := "Thought for the Day"

/-- maxTextWidth is the width budget for wrapped quote lines:
canvas width minus twice the horizontal margin minus 180. -/
def maxTextWidth : ℚ := canvasW - marginsHorizontal * 2 - 180

/-- quoteLineHeight is the quote line advance, 1.2 times the font size. -/
def quoteLineHeight : ℚ := (quoteFontSize : ℚ) * 1.2

/-- authorHeight is the fixed 40 pixel author allowance inside the card. -/
def authorHeight : ℚ := 40

/-- titleToQuoteGap is the fixed 60 pixel gap between title and card. -/
def titleToQuoteGap : ℚ := 60

/-- quoteToAuthorGap is the fixed 50 pixel gap between the last quote
line and the author line. -/
def quoteToAuthorGap : ℚ := 50

/-- cardPaddingVertical is the vertical card padding, 60 pixels. -/
def cardPaddingVertical : ℚ := 60

/-- cardPaddingHorizontal is the horizontal card padding, 50 pixels. -/
def cardPaddingHorizontal : ℚ := 50

/-- quoteTextHeight is the wrapped quote block height: line count times
line height. -/
def quoteTextHeight (n : ℕ) : ℚ := (n : ℚ) * quoteLineHeight

/-- cardWidth is maxTextWidth plus twice the horizontal card padding. -/
def cardWidth : ℚ := maxTextWidth + cardPaddingHorizontal * 2

/-- cardHeight is the card height computed by the source: quote block
height plus author allowance plus the quote-to-author gap plus twice the
vertical padding. -/
def cardHeight (n : ℕ) : ℚ :=
  quoteTextHeight n + authorHeight + quoteToAuthorGap + cardPaddingVertical * 2

/-- cardY is the card top: vertically centered and then moved 20 pixels
lower. -/
def cardY (n : ℕ) : ℚ := (canvasH - cardHeight n) / 2 + 20

/-- titleY places the title the fixed gap above the card top. -/
def titleY (n : ℕ) : ℚ := cardY n - titleToQuoteGap

/-- cardX centers the card horizontally. -/
def cardX : ℚ := (canvasW - cardWidth) / 2

/-- quoteStartY is the baseline of the first quote line inside the card. -/
def quoteStartY (n : ℕ) : ℚ := cardY n + cardPaddingVertical + (quoteFontSize : ℚ) * 0.8

/-- authorY is the author baseline below the quote block. -/
def authorY (n : ℕ) : ℚ := quoteStartY n + (n : ℚ) * quoteLineHeight + quoteToAuthorGap

/-! ## Card geometry (C5) -/

/-- C5 amended: the card width equals the maximum text width plus twice
the horizontal card padding, the card height equals the quote block
height plus the author allowance plus the quote-to-author gap plus twice
the vertical card padding, and the vertical center of the card sits 20
pixels below the canvas center. -/
theorem c5_card_geometry (n : ℕ) :
    cardWidth = maxTextWidth + 2 * cardPaddingHorizontal ∧
    cardHeight n = quoteTextHeight n + authorHeight + quoteToAuthorGap
      + 2 * cardPaddingVertical ∧
    cardY n + cardHeight n / 2 = canvasH / 2 + 20 := by
  refine ⟨by rw [cardWidth]; ring, by rw [cardHeight]; ring, ?_⟩
  rw [cardY]
  ring

/-- Counterexample to C5 as stated: already for a one-line quote the
card height is not the body block height plus twice the vertical card
padding, because the source also adds the author allowance and the
quote-to-author gap. -/
theorem c5_counterexample :
    ¬ cardHeight 1 = quoteTextHeight 1 + 2 * cardPaddingVertical := by
  rw [cardHeight, quoteTextHeight, authorHeight, quoteToAuthorGap, cardPaddingVertical,
    quoteLineHeight]
  norm_num [quoteFontSize]

/-! ## Gradient background parsing (applyGradientBackground) -/

/-- trimChars models the trim JSON.parse applies around tokens; the
repository only feeds space-padded values. -/
def trimChars (cs : List Char) : List Char :=
  ((cs.dropWhile (· = ' ')).reverse.dropWhile (· = ' ')).reverse

/-- splitOnCommaC splits a character list at every comma. -/
def splitOnCommaC : List Char → List (List Char)
  | [] => [[]]
  | c :: rest =>
    let r := splitOnCommaC rest
    if c = ',' then [] :: r
    else
      match r with
      | [] => [[c]]
      | t :: ts => (c :: t) :: ts

/-- parseJsonStringLit models JSON parsing of one double-quoted string
literal (without escape sequences, which the color arrays of this
repository never contain). -/
def parseJsonStringLit (cs : List Char) : Option String :=
  match trimChars cs with
  | '"' :: rest =>
    match rest.reverse with
    | '"' :: midrev => some (String.mk midrev.reverse)
    | _ => none
  | _ => none

/-- jsonStringArray models JSON.parse restricted to the shape the
renderer accepts afterwards: an array of plain string literals. Every
input that is not such an array (including the malformed not-json value)
yields none, corresponding to a JSON.parse exception or a non-array
result, both of which leave the default colors in place in the source. -/
def jsonStringArray (s : String) : Option (List String) :=
  match trimChars s.data with
  | '[' :: rest =>
    match rest.reverse with
    | ']' :: midrev =>
      let inner := midrev.reverse
      if trimChars inner = [] then some []
      else (splitOnCommaC inner).mapM parseJsonStringLit
    | _ => none
  | _ => none

/-- defaultGradientColors is the fixed neutral fallback pair of
applyGradientBackground. -/
def defaultGradientColors : List String := ["#ffffff", "#f0f0f0"]

/-- parsedGradientColors mirrors applyGradientBackground lines 183 to
199: start from the neutral default, parse the color value when truthy,
and keep the parse result only when it is a non-empty array. -/
def parsedGradientColors (color : String) : List String :=
  if color = "" then defaultGradientColors
  else
    match jsonStringArray color with
    | some cs => if 0 < cs.length then cs else defaultGradientColors
    | none => defaultGradientColors

/-- hexDigitVal reads one hexadecimal digit as parseInt does, with
value 0 for characters outside the hexadecimal alphabet (the repository
only passes well-formed hex colors here). -/
def hexDigitVal (c : Char) : ℕ :=
  if '0' ≤ c ∧ c ≤ '9' then c.toNat - 48
  else if 'a' ≤ c ∧ c ≤ 'f' then c.toNat - 87
  else if 'A' ≤ c ∧ c ≤ 'F' then c.toNat - 55
  else 0

/-- hexByteAt models parseInt(hex.substring(i, i+2), 16). -/
def hexByteAt (s : String) (i : ℕ) : ℤ :=
  ((hexDigitVal (s.data.getD i '0')) * 16 + hexDigitVal (s.data.getD (i + 1) '0') : ℕ)

/-- clampByte models Math.max(0, Math.min(255, v)). -/
def clampByte (v : ℤ) : ℕ := (max 0 (min 255 v)).toNat

/-- toHexDigitChar renders one hex digit in lower case. -/
def toHexDigitChar (n : ℕ) : Char :=
  if n < 10 then Char.ofNat (48 + n) else Char.ofNat (87 + n)

/-- toHex2 models v.toString(16).padStart(2, zero) for byte values. -/
def toHex2 (n : ℕ) : String :=
  String.mk [toHexDigitChar (n / 16 % 16), toHexDigitChar (n % 16)]

/-- adjustBrightness mirrors QuoteImageService.adjustBrightness: shift
each channel by the given percent, clamp to bytes and re-encode. -/
def adjustBrightness (hex : String) (percent : ℤ) : String :=
  "#" ++ toHex2 (clampByte (hexByteAt hex 1 + percent))
    ++ toHex2 (clampByte (hexByteAt hex 3 + percent))
    ++ toHex2 (clampByte (hexByteAt hex 5 + percent))

/-- gradientStopsFromColors mirrors applyGradientBackground lines 209 to
218: one color becomes a two-stop gradient towards its darkened shade,
several colors are spread evenly over the unit interval. -/
def gradientStopsFromColors (colors : List String) : List (ℚ × String) :=
  match colors with
  | [c] => [(0, c), (1, adjustBrightness c (-10))]
  | _ => colors.enum.map (fun p => (((p.1 : ℚ) / ((colors.length : ℚ) - 1)), p.2))

/-- textureCell is the body of the noise loop of addSubtleTexture: draw
one random value and fill a two-pixel dot when it exceeds one half. -/
def textureCell (i j : ℕ) (s : St) : St :=
  let p := s.rand
  if 1/2 < p.1 then
    (p.2.setFillStyle "rgba(255, 255, 255, 0.5)").fillRect "texture" (i : ℚ) (j : ℚ) 2 2
  else p.2

/-- textureLoop is the four-pixel noise grid of addSubtleTexture. -/
def textureLoop (st : St) : St :=
  (upRangeN 0 1080 4).foldl (fun s1 i =>
    (upRangeN 0 1080 4).foldl (fun s2 j => textureCell i j s2) s1) st

/-- addSubtleTexture mirrors QuoteImageService.addSubtleTexture: at
alpha 0.05, walk a four-pixel grid over the canvas and fill a two-pixel
dot wherever Math.random exceeds one half, then reset alpha to one. -/
def addSubtleTexture (st : St) : St :=
  (textureLoop (st.setAlpha 0.05)).setAlpha 1.0

/-- applyGradientBackground mirrors the gradient branch of the quote
background: resolve the color stops from the JSON-encoded value (falling
back to the neutral pair on parse failure), fill the canvas with the
gradient and overlay the subtle texture. -/
def applyGradientBackground (color : String) (st : St) : St :=
  let stops := gradientStopsFromColors (parsedGradientColors color)
  let st := st.fillGrad "background" stops
  addSubtleTexture st

/-! ## Stylized card (drawStylizedCard) -/

/-- CardStyle collects the style locals of drawStylizedCard. -/
structure CardStyle where
  backgroundColor : String
  borderColor : Option String
  borderWidth : ℚ
  borderRadius : ℚ
  shadowColor : String
  shadowBlur : ℚ
  shadowOffsetX : ℚ
  shadowOffsetY : ℚ
deriving DecidableEq

/-- cardStyleOf mirrors the day-keyed if chain of drawStylizedCard
lines 270 to 331, with the defaults of the opening block. -/
def cardStyleOf (designId : String) : CardStyle :=
  if includesTok designId "monday" then
    ⟨"rgba(255, 255, 255, 0.25)", none, 0, 25, "rgba(0, 0, 40, 0.35)", 20, 5, 5⟩
  else if includesTok designId "tuesday" then
    ⟨"rgba(255, 255, 255, 0.2)", some "rgba(255, 255, 255, 0.4)", 3, 15, "rgba(50, 0, 0, 0.3)", 18, 5, 5⟩
  else if includesTok designId "wednesday" then
    ⟨"rgba(255, 255, 255, 0.15)", none, 0, 30, "rgba(0, 30, 0, 0.25)", 25, 5, 5⟩
  else if includesTok designId "thursday" then
    ⟨"rgba(255, 255, 255, 0.2)", some "rgba(255, 255, 255, 0.5)", 2, 10, "rgba(50, 0, 50, 0.35)", 15, 8, 8⟩
  else if includesTok designId "friday" then
    ⟨"rgba(255, 255, 255, 0.25)", none, 0, 35, "rgba(50, 40, 0, 0.3)", 22, 5, 5⟩
  else if includesTok designId "saturday" then
    ⟨"rgba(255, 255, 255, 0.2)", some "rgba(255, 255, 255, 0.3)", 4, 28, "rgba(0, 40, 40, 0.25)", 15, 5, 5⟩
  else if includesTok designId "sunday" then
    ⟨"rgba(255, 255, 255, 0.15)", some "rgba(255, 255, 255, 0.2)", 3, 20, "rgba(30, 0, 60, 0.3)", 20, 5, 5⟩
  else
    ⟨"rgba(255, 255, 255, 0.2)", none, 0, 20, "rgba(0, 0, 0, 0.3)", 15, 5, 5⟩

/-- cardBody is the card painting between save and restore: themed
shadow, rounded fill, and the bordered stroke with the shadow turned
transparent when the theme has one. -/
def cardBody (designId : String) (s : St) : St :=
  let cs := cardStyleOf designId
  let s := (((s.setShadowColor cs.shadowColor).setShadowBlur
    cs.shadowBlur).setShadowOffsetX cs.shadowOffsetX).setShadowOffsetY cs.shadowOffsetY
  let s := s.setFillStyle cs.backgroundColor
  let s := s.fillPath "card"
  match cs.borderColor with
  | some bc =>
    if cs.borderWidth ≠ 0 then
      (((s.setShadowColor "transparent").setLineWidth
        cs.borderWidth).setStrokeStyle bc).strokePath "cardBorder"
    else s
  | none => s

/-- drawStylizedCard mirrors the card painter: save, apply the themed
shadow, fill the rounded-rectangle path, stroke the border with the
shadow turned transparent when the theme has one, restore. -/
def drawStylizedCard (designId : String) (x y w h : ℚ) (st : St) : St :=
  (cardBody designId st.save).restore

/-! ## Day decorations of the quote renderer (lines 394 to 673) -/

/-- drawStylizedLeaf fills one leaf path. -/
def drawStylizedLeaf (st : St) : St := st.fillPath "drawStylizedLeaf"

/-- drawDiamond fills one diamond path. -/
def drawDiamond (st : St) : St := st.fillPath "drawDiamond"

/-- drawStarQ fills one star path; the quote-service drawStar fills with
the ambient fill style. -/
def drawStarQ (st : St) : St := st.fillPath "drawStar"

/-- mondayBody is the Monday corner waves between save and restore. -/
def mondayBody (s : St) : St :=
  let s := ((s.setAlpha 0.1).setStrokeStyle "#6495ED").setLineWidth 3
  let s := (upRangeN 0 80 20).foldl (fun s2 _ => s2.strokePath "addMondayDecoration") s
  (upRangeN 0 80 20).foldl (fun s2 _ => s2.strokePath "addMondayDecoration") s

/-- addMondayDecoration mirrors the Monday corner waves. -/
def addMondayDecoration (st : St) : St := (mondayBody st.save).restore

/-- tuesdayBody is the Tuesday diagonals between save and restore. -/
def tuesdayBody (s : St) : St :=
  let s := ((s.setAlpha 0.1).setStrokeStyle "#ffffff").setLineWidth 3
  let s := (upRangeN 0 100 20).foldl (fun s2 _ => s2.strokePath "addTuesdayDecoration") s
  (upRangeN 0 100 20).foldl (fun s2 _ => s2.strokePath "addTuesdayDecoration") s

/-- addTuesdayDecoration mirrors the Tuesday diagonal corner lines. -/
def addTuesdayDecoration (st : St) : St := (tuesdayBody st.save).restore

/-- wednesdayBody is the Wednesday leaves between save and restore. -/
def wednesdayBody (s : St) : St :=
  let s := (s.setAlpha 0.1).setFillStyle "#ffffff"
  drawStylizedLeaf (drawStylizedLeaf (drawStylizedLeaf (drawStylizedLeaf s)))

/-- addWednesdayDecoration mirrors the Wednesday corner leaves. -/
def addWednesdayDecoration (st : St) : St := (wednesdayBody st.save).restore

/-- thursdayBody is the Thursday diamond corners between save and restore. -/
def thursdayBody (s : St) : St :=
  let s := (s.setAlpha 0.1).setFillStyle "#ffffff"
  let s := (upRangeN 30 150 30).foldl (fun s1 y =>
    (upRangeN 30 (150 - y) 30).foldl (fun s2 _ => drawDiamond s2) s1) s
  (downRangeZ 1050 930 30).foldl (fun s1 y =>
    (downRangeZ 1050 (y - 150) 30).foldl (fun s2 _ => drawDiamond s2) s1) s

/-- addThursdayDecoration mirrors the Thursday diamond corners, with the
ascending top-left double loop and the descending bottom-right double
loop whose inner bound depends on the outer variable. -/
def addThursdayDecoration (st : St) : St := (thursdayBody st.save).restore

/-- fridayBody is the Friday stars between save and restore. -/
def fridayBody (s : St) : St :=
  let s := (s.setAlpha 0.15).setFillStyle "#ffffff"
  let s := drawStarQ (drawStarQ (drawStarQ (drawStarQ s)))
  drawStarQ (drawStarQ (drawStarQ (drawStarQ s)))

/-- addFridayDecoration mirrors the Friday stars, four large and four
small. -/
def addFridayDecoration (st : St) : St := (fridayBody st.save).restore

/-- saturdayBody is the Saturday curves between save and restore. -/
def saturdayBody (s : St) : St :=
  let s := ((s.setAlpha 0.1).setStrokeStyle "#ffffff").setLineWidth 2
  let s := (upRangeN 0 150 30).foldl (fun s2 _ => s2.strokePath "addSaturdayDecoration") s
  (upRangeN 0 150 30).foldl (fun s2 _ => s2.strokePath "addSaturdayDecoration") s

/-- addSaturdayDecoration mirrors the Saturday corner curves. -/
def addSaturdayDecoration (st : St) : St := (saturdayBody st.save).restore

/-- sundayBody is the Sunday rays between save and restore. -/
def sundayBody (s : St) : St :=
  let s := ((s.setAlpha 0.08).setStrokeStyle "#ffffff").setLineWidth 4
  let s := (upRangeN 0 120 20).foldl (fun s2 _ => s2.strokePath "addSundayDecoration") s
  (upRangeN 0 120 20).foldl (fun s2 _ => s2.strokePath "addSundayDecoration") s

/-- addSundayDecoration mirrors the Sunday corner rays. -/
def addSundayDecoration (st : St) : St := (sundayBody st.save).restore

/-- randomDotCell is the body of the fallback dots loop: three random
values and one dot fill. -/
def randomDotCell (s : St) : St :=
  let s := (s.rand).2
  let s := (s.rand).2
  let s := (s.rand).2
  s.fillPath "addRandomDecoration"

/-- randomBody is the fallback dots between save and restore. -/
def randomBody (s : St) : St :=
  let s := (s.setAlpha 0.07).setFillStyle "#ffffff"
  (upRangeN 40 1080 80).foldl (fun s1 _ =>
    (upRangeN 40 1080 80).foldl (fun s2 _ => randomDotCell s2) s1) s

/-- addRandomDecoration mirrors the fallback soft-dots pattern: an
eighty-pixel grid where each cell draws three random values (size and
the two center jitters) and fills one dot. -/
def addRandomDecoration (st : St) : St := (randomBody st.save).restore

/-- quoteDecorations mirrors the day dispatch of generateQuoteImage
lines 136 to 153. -/
def quoteDecorations (designId : String) (st : St) : St :=
  if includesTok designId "monday" then addMondayDecoration st
  else if includesTok designId "tuesday" then addTuesdayDecoration st
  else if includesTok designId "wednesday" then addWednesdayDecoration st
  else if includesTok designId "thursday" then addThursdayDecoration st
  else if includesTok designId "friday" then addFridayDecoration st
  else if includesTok designId "saturday" then addSaturdayDecoration st
  else if includesTok designId "sunday" then addSundayDecoration st
  else addRandomDecoration st

/-! ## The quote render pipeline (generateQuoteImage) -/

/-- titleFontStr is the title font string of lines 35 and 82. -/
def titleFontStr (d : DesignConfig) : String :=
  "bold " ++ toString titleFontSize ++ "px " ++ d.typography.title.fontFamily.getD "Arial"

/-- quoteFontStrAt is the quote font string of lines 42 and 106 at a
given size. -/
def quoteFontStrAt (d : DesignConfig) (fs : ℕ) : String :=
  d.typography.quote.weight.getD "normal" ++ " " ++ toString fs ++ "px "
    ++ d.typography.quote.fontFamily.getD "Arial"

/-- quoteFontStr is the quote font string at the fixed quote size. -/
def quoteFontStr (d : DesignConfig) : String := quoteFontStrAt d quoteFontSize

/-- authorFontStr is the author font string of line 123. -/
def authorFontStr (d : DesignConfig) : String :=
  "italic " ++ toString authorFontSize ++ "px " ++ d.typography.author.fontFamily.getD "Arial"

/-- wrapQuoteCall is the wrapText call of line 49: wrap the quote within
maxTextWidth at the quote font; the call site passes no maximum block
height, so the wrapper keeps the starting size. -/
def wrapQuoteCall (m : Meas) (d : DesignConfig) (q : String) : Except Unit (List String) :=
  match wrapText (fun fs cs => m (quoteFontStrAt d fs) (String.mk cs)) q maxTextWidth
      quoteFontSize quoteFontSize 1 none (fun fs => (fs : ℚ) * 1.2) with
  | .error e => .error e
  | .ok wb => .ok wb.lines

/-- lineCell paints one wrapped line: measured with the font in force
and painted at the horizontal position centering that very line. -/
def lineCell (m : Meas) (tag : String) (y0 lh : ℚ) (s : St) (p : ℕ × String) : St :=
  s.fillText tag p.2 ((canvasW - m s.gfx.font p.2) / 2) (y0 + (p.1 : ℚ) * lh)

/-- drawLinesCentered mirrors the forEach loops that paint wrapped
lines, one lineCell per indexed line. -/
def drawLinesCentered (m : Meas) (tag : String) (lines : List String) (y0 lh : ℚ) (st : St) : St :=
  lines.enum.foldl (lineCell m tag y0 lh) st

/-- QStage enumerates the stages of one generateQuoteImage call at which
an internal exception can surface; the try block of the source spans all
of them. -/
inductive QStage where
  | background
  | layout
  | titleDraw
  | cardDraw
  | quoteDraw
  | authorDraw
  | decorations
  | saving
deriving DecidableEq

/-- quoteBgFx mirrors lines 26 to 31: gradient or solid background. -/
def quoteBgFx (d : DesignConfig) (st : St) : St :=
  if d.background.btype = "gradient" then applyGradientBackground d.background.color st
  else (st.setFillStyle d.background.color).fillRect "background" 0 0 canvasW canvasH

/-- quoteLayoutFx mirrors lines 34 to 42: set the title style (used to
measure the title) and then the quote font (used by the wrap call). -/
def quoteLayoutFx (d : DesignConfig) (st : St) : St :=
  (((st.setFont (titleFontStr d)).setFillStyle
    (d.typography.title.color.getD "#000000")).setFont (quoteFontStr d))

/-- quoteTitleFx mirrors lines 82 to 97: title style, title shadow, the
centered title text, shadow reset. -/
def quoteTitleFx (m : Meas) (d : DesignConfig) (n : ℕ) (st : St) : St :=
  let tf := titleFontStr d
  let st := (st.setFont tf).setFillStyle (d.typography.title.color.getD "#000000")
  let st := (((st.setShadowColor "rgba(0, 0, 0, 0.3)").setShadowBlur
    8).setShadowOffsetX 2).setShadowOffsetY 2
  let st := st.fillText "title" titleText ((canvasW - m tf titleText) / 2) (titleY n)
  (((st.setShadowColor "transparent").setShadowBlur 0).setShadowOffsetX 0).setShadowOffsetY 0

/-- quoteLinesFx mirrors lines 106 to 119: quote style and the per-line
centered paint loop starting at quoteStartY. -/
def quoteLinesFx (m : Meas) (d : DesignConfig) (wq : List String) (st : St) : St :=
  let st := (st.setFont (quoteFontStr d)).setFillStyle (d.typography.quote.color.getD "#000000")
  drawLinesCentered m "quoteLine" wq (quoteStartY wq.length) quoteLineHeight st

/-- quoteAuthorFx mirrors lines 122 to 133: author style and the
centered author line. -/
def quoteAuthorFx (m : Meas) (d : DesignConfig) (author : String) (n : ℕ) (st : St) : St :=
  let af := authorFontStr d
  let st := (st.setFont af).setFillStyle (d.typography.author.color.getD "#555555")
  let atext := "- " ++ author
  st.fillText "author" atext ((canvasW - m af atext) / 2) (authorY n)

/-- runQuoteSt is the body of the try block of generateQuoteImage: the
paint stages in source order, each of which can be failed from outside
through the fail flag (modelling an exception thrown inside that stage),
ending with the serialization of the canvas. The error value carries the
events painted before the failure. -/
def runQuoteSt (m : Meas) (o : QuoteOptions) (r : Rng)
    (fail : QStage → Bool) : Except (QStage × List Ev) St :=
  let st0 := St.init r
  if fail .background then .error (.background, st0.events) else
  let st1 := quoteBgFx o.design st0
  if fail .layout then .error (.layout, st1.events) else
  let st2 := quoteLayoutFx o.design st1
  match wrapQuoteCall m o.design o.quote with
  | .error _ => .error (.layout, st2.events)
  | .ok wq =>
    let n := wq.length
    if fail .titleDraw then .error (.titleDraw, st2.events) else
    let st3 := quoteTitleFx m o.design n st2
    if fail .cardDraw then .error (.cardDraw, st3.events) else
    let st4 := drawStylizedCard o.design.designId cardX (cardY n) cardWidth (cardHeight n) st3
    if fail .quoteDraw then .error (.quoteDraw, st4.events) else
    let st5 := quoteLinesFx m o.design wq st4
    if fail .authorDraw then .error (.authorDraw, st5.events) else
    let st6 := quoteAuthorFx m o.design o.author n st5
    if fail .decorations then .error (.decorations, st6.events) else
    let st7 := quoteDecorations o.design.designId st6
    if fail .saving then .error (.saving, st7.events) else
    .ok (st7.emit Ev.buffer)

/-- runQuote pairs the stored url of the timestamp with the finished
trace on success. -/
def runQuote (m : Meas) (o : QuoteOptions) (r : Rng) (t : Timestamp)
    (fail : QStage → Bool) : Except (QStage × List Ev) (String × List Ev) :=
  (runQuoteSt m o r fail).map (fun st => (thoughtUrl t, st.events))

/-- generateQuoteImage is the public quote operation: the try/catch
boundary of the source, total in all inputs, returning the stored url on
success and the fixed placeholder path on any internal failure, paired
with the paint trace. -/
def generateQuoteImage (m : Meas) (o : QuoteOptions) (r : Rng) (t : Timestamp)
    (fail : QStage → Bool) : String × List Ev :=
  match runQuote m o r t fail with
  | .ok p => p
  | .error e => (placeholderThought, e.2)

/-- noQFail injects no failure: the run in which every stage succeeds. -/
def noQFail : QStage → Bool := fun _ => false

/-! ## Word image service (WordImageService) -/

/-- daysList is the weekday token list of getDayIndex. -/
def daysList : List String :=
  ["monday", "tuesday", "wednesday", "thursday", "friday", "saturday", "sunday"]

/-- wordFontsTitle mirrors this.fonts.title. -/
def wordFontsTitle : List String := ["Lato", "Nunito", "Lora"]

/-- wordFontsBody mirrors this.fonts.body. -/
def wordFontsBody : List String := ["Lato", "Nunito", "Lora"]

/-- getDayIndexSt mirrors getDayIndex: the index of the first weekday
token contained in the designId, or a pseudo-random index below seven
when none matches; only the fallback consumes randomness. -/
def getDayIndexSt (designId : String) (st : St) : ℕ × St :=
  match daysList.enum.find? (fun p => includesTok designId p.2) with
  | some p => (p.1, st)
  | none =>
    let (x, st2) := st.rand
    ((⌊x * 7⌋).toNat, st2)

/-- hslStr renders the hsl color template of the random gradient. -/
def hslStr (h : ℤ) (s l : ℕ) : String :=
  "hsl(" ++ toString h ++ ", " ++ toString s ++ "%, " ++ toString l ++ "%)"

/-- createDayBackgroundStops mirrors the gradient-stop selection of
createDayBackground lines 408 to 460: seven fixed weekday gradients, and
a random hue-rotated gradient only in the fallback branch, which is the
only branch that consumes the pseudo-random stream. -/
def createDayBackgroundStops (designId : String) (r : Rng) : List (ℚ × String) × Rng :=
  if includesTok designId "monday" then
    ([(0, "#4158D0"), (0.46, "#C850C0"), (1, "#FFCC70")], r)
  else if includesTok designId "tuesday" then
    ([(0, "#0BAB64"), (1, "#3BB2F9")], r)
  else if includesTok designId "wednesday" then
    ([(0, "#FA8BFF"), (0.5, "#2BD2FF"), (1, "#2BFF88")], r)
  else if includesTok designId "thursday" then
    ([(0, "#8E2DE2"), (1, "#FF8235")], r)
  else if includesTok designId "friday" then
    ([(0, "#FF3CAC"), (0.5, "#784BA0"), (1, "#2B86C5")], r)
  else if includesTok designId "saturday" then
    ([(0, "#FF416C"), (1, "#FF4B2B")], r)
  else if includesTok designId "sunday" then
    ([(0, "#3EECAC"), (0.5, "#55D8C1"), (1, "#3D87FF")], r)
  else
    let (x, r2) := r.next
    let hue : ℤ := ⌊x * 360⌋
    ([(0, hslStr hue 100 85), (0.5, hslStr ((hue + 60) % 360) 80 75),
      (1, hslStr ((hue + 120) % 360) 60 70)], r2)

/-- selectedDecoration mirrors the routine dispatch of
addDecorativeElements lines 488 to 512, naming the decoration-drawing
routine each branch invokes; the selection depends on the designId
alone. -/
def selectedDecoration (designId : String) : String :=
  if includesTok designId "monday" then "drawBubbles"
  else if includesTok designId "tuesday" then "drawLeaves"
  else if includesTok designId "wednesday" then "drawSunAndClouds"
  else if includesTok designId "thursday" then "drawStars"
  else if includesTok designId "friday" then "drawConfetti"
  else if includesTok designId "saturday" then "drawGeometricShapes"
  else if includesTok designId "sunday" then "drawBirdsAndTrees"
  else "drawDots"

/-- hasDayToken holds when the designId contains one of the seven fixed
weekday tokens. -/
def hasDayToken (s : String) : Bool := daysList.any (fun d => includesTok s d)

/-- renderSelections packages what one render selects from the theme:
the gradient color stops and the decoration routine, as functions of the
designId and the pseudo-random stream. -/
def renderSelections (designId : String) (r : Rng) : List (ℚ × String) × String :=
  ((createDayBackgroundStops designId r).1, selectedDecoration designId)

/-- bubbleCell is the body of the bubbles loop: position and size random
values and one white disc. -/
def bubbleCell (s : St) : St :=
  let s := (s.rand).2
  let s := (s.rand).2
  let s := (s.rand).2
  (s.setFillStyle "#FFFFFF").fillPath "drawBubbles"

/-- bubblesBody is the bubbles loop at low alpha between save and restore. -/
def bubblesBody (count : ℕ) (s : St) : St :=
  (List.range count).foldl (fun s2 _ => bubbleCell s2) (s.setAlpha 0.1)

/-- drawBubbles mirrors the Monday bubbles: save, low alpha, per bubble
three random values and one white disc, restore. -/
def drawBubbles (count : ℕ) (st : St) : St := (bubblesBody count st.save).restore

/-- leafCell is the body of the leaves loop: four random values, an
inner save for the transform, the white leaf fill, inner restore. -/
def leafCell (s : St) : St :=
  let s := (s.rand).2
  let s := (s.rand).2
  let s := (s.rand).2
  let s := (s.rand).2
  let s := s.save
  let s := (s.setFillStyle "#FFFFFF").fillPath "drawLeaves"
  s.restore

/-- leavesBody is the leaves loop at low alpha between save and restore. -/
def leavesBody (count : ℕ) (s : St) : St :=
  (List.range count).foldl (fun s2 _ => leafCell s2) (s.setAlpha 0.1)

/-- drawLeaves mirrors the Tuesday leaves: four random values per leaf,
an inner save for the translation and rotation, the white leaf fill,
inner restore. -/
def drawLeaves (count : ℕ) (st : St) : St := (leavesBody count st.save).restore

/-- drawCloud fills one white cloud. -/
def drawCloud (st : St) : St := (st.setFillStyle "#FFFFFF").fillPath "drawCloud"

/-- sunCloudsBody is the Wednesday sun, rays and clouds between save
and restore. -/
def sunCloudsBody (s : St) : St :=
  let s := s.setAlpha 0.1
  let s := (s.setFillStyle "#FFFFFF").fillPath "drawSunAndClouds"
  let s := (s.setStrokeStyle "#FFFFFF").setLineWidth 5
  let s := (List.range 8).foldl (fun s2 _ => s2.strokePath "drawSunAndClouds") s
  drawCloud (drawCloud (drawCloud s))

/-- drawSunAndClouds mirrors the Wednesday sun, its eight rays and three
clouds. -/
def drawSunAndClouds (st : St) : St := (sunCloudsBody st.save).restore

/-- drawStarW fills one white star; the word-service drawStar sets the
fill style itself. -/
def drawStarW (st : St) : St := (st.setFillStyle "#FFFFFF").fillPath "drawStar"

/-- starCell is the body of the stars loop: three random values and one
white star. -/
def starCell (s : St) : St :=
  let s := (s.rand).2
  let s := (s.rand).2
  let s := (s.rand).2
  drawStarW s

/-- starsBody is the stars loop at low alpha between save and restore. -/
def starsBody (count : ℕ) (s : St) : St :=
  (List.range count).foldl (fun s2 _ => starCell s2) (s.setAlpha 0.1)

/-- drawStars mirrors the Thursday stars: three random values per star. -/
def drawStars (count : ℕ) (st : St) : St := (starsBody count st.save).restore

/-- confettiCell is the body of the confetti loop: position, size and
rotation random values, inner save, the shape selector random value, and
one white disc, square or triangle. -/
def confettiCell (s : St) : St :=
  let s := (s.rand).2
  let s := (s.rand).2
  let psz := s.rand
  let s := (psz.2.rand).2
  let s := s.save
  let psh := s.rand
  let s := psh.2.setFillStyle "#FFFFFF"
  let size := 5 + psz.1 * 10
  let s :=
    if (⌊psh.1 * 3⌋ : ℤ) = 0 then s.fillPath "drawConfetti"
    else if (⌊psh.1 * 3⌋ : ℤ) = 1 then
      s.fillRect "drawConfetti" (-size) (-size) (size * 2) (size * 2)
    else s.fillPath "drawConfetti"
  s.restore

/-- confettiBody is the confetti loop at low alpha between save and restore. -/
def confettiBody (count : ℕ) (s : St) : St :=
  (List.range count).foldl (fun s2 _ => confettiCell s2) (s.setAlpha 0.1)

/-- drawConfetti mirrors the Friday confetti: position, size and
rotation random values, an inner save, the shape selector random value,
and one of disc, square or triangle in white. -/
def drawConfetti (count : ℕ) (st : St) : St := (confettiBody count st.save).restore

/-- drawPolygon fills one white regular polygon. -/
def drawPolygon (st : St) : St := (st.setFillStyle "#FFFFFF").fillPath "drawPolygon"

/-- polygonCell is the body of the geometric-shapes loop: position, size
and side-count random values and one white polygon. -/
def polygonCell (s : St) : St :=
  let s := (s.rand).2
  let s := (s.rand).2
  let s := (s.rand).2
  let s := (s.rand).2
  drawPolygon s

/-- geometricBody is the polygons loop at low alpha between save and restore. -/
def geometricBody (count : ℕ) (s : St) : St :=
  (List.range count).foldl (fun s2 _ => polygonCell s2) (s.setAlpha 0.1)

/-- drawGeometricShapes mirrors the Saturday polygons: position and size
random values plus the side-count selector. -/
def drawGeometricShapes (count : ℕ) (st : St) : St := (geometricBody count st.save).restore

/-- drawTree mirrors one tree: white trunk rectangle and two triangle
fills. -/
def drawTree (x y size : ℚ) (st : St) : St :=
  let st := st.setFillStyle "#FFFFFF"
  let st := st.fillRect "drawTree" (x - size / 20) (y - size) (size / 10) size
  let st := st.fillPath "drawTree"
  st.fillPath "drawTree"

/-- drawBird strokes one white bird. -/
def drawBird (st : St) : St :=
  ((st.setStrokeStyle "#FFFFFF").setLineWidth 2).strokePath "drawBird"

/-- birdCell is the body of the birds loop: three random values and one
stroked bird. -/
def birdCell (s : St) : St :=
  let s := (s.rand).2
  let s := (s.rand).2
  let s := (s.rand).2
  drawBird s

/-- birdsTreesBody is the Sunday scene between save and restore. -/
def birdsTreesBody (s : St) : St :=
  let s := s.setAlpha 0.1
  let s := drawTree (canvasW * 0.2) (canvasH * 0.8) 100 s
  let s := drawTree (canvasW * 0.8) (canvasH * 0.9) 120 s
  let s := drawTree (canvasW * 0.5) (canvasH * 0.95) 80 s
  (List.range 5).foldl (fun s2 _ => birdCell s2) s

/-- drawBirdsAndTrees mirrors the Sunday scene: three fixed trees and
five random birds. -/
def drawBirdsAndTrees (st : St) : St := (birdsTreesBody st.save).restore

/-- dotCell is the body of the dots loop: three random values and one
white disc. -/
def dotCell (s : St) : St :=
  let s := (s.rand).2
  let s := (s.rand).2
  let s := (s.rand).2
  (s.setFillStyle "#FFFFFF").fillPath "drawDots"

/-- dotsBody is the dots loop at low alpha between save and restore. -/
def dotsBody (count : ℕ) (s : St) : St :=
  (List.range count).foldl (fun s2 _ => dotCell s2) (s.setAlpha 0.1)

/-- drawDots mirrors the fallback dots: three random values per dot and
one white disc. -/
def drawDots (count : ℕ) (st : St) : St := (dotsBody count st.save).restore

/-- addDecorativeElements mirrors the day dispatch onto the decoration
routines with the counts of the source. -/
def addDecorativeElements (designId : String) (st : St) : St :=
  if includesTok designId "monday" then drawBubbles 15 st
  else if includesTok designId "tuesday" then drawLeaves 12 st
  else if includesTok designId "wednesday" then drawSunAndClouds st
  else if includesTok designId "thursday" then drawStars 20 st
  else if includesTok designId "friday" then drawConfetti 30 st
  else if includesTok designId "saturday" then drawGeometricShapes 15 st
  else if includesTok designId "sunday" then drawBirdsAndTrees st
  else drawDots 25 st

/-- wordTextureLoop is the twenty-pixel square grid of the word texture
overlay. -/
def wordTextureLoop (st : St) : St :=
  (upRangeN 0 1080 20).foldl (fun s1 i =>
    (upRangeN 0 1080 20).foldl (fun s2 j =>
      s2.fillRect "texture" (i : ℚ) (j : ℚ) 10 10) s1) st

/-- wordTextureBody sets the white fill and runs the texture grid. -/
def wordTextureBody (s : St) : St := wordTextureLoop (s.setFillStyle "#FFFFFF")

/-- wordTextureFx mirrors the texture overlay of createDayBackground:
alpha 0.05, a twenty-pixel grid of ten-pixel white squares, alpha one. -/
def wordTextureFx (st : St) : St :=
  (wordTextureBody (st.setAlpha 0.05)).setAlpha 1.0

/-- createDayBackground mirrors the word background painter: resolve the
stops, fill the canvas, overlay the texture, add the day decorations. -/
def createDayBackground (designId : String) (st : St) : St :=
  let p := createDayBackgroundStops designId st.rng
  let st := { st with rng := p.2 }
  let st := st.fillGrad "background" p.1
  let st := wordTextureFx st
  addDecorativeElements designId st

/-! ## The word render pipeline (generateWordImage) -/

/-- wordFontSize is the 140 pixel word size. -/
def wordFontSize : ℕ := 140

/-- wordYpos is the fixed word baseline. -/
def wordYpos : ℚ := 300

/-- partOfSpeechFontSize is the 40 pixel part-of-speech size. -/
def partOfSpeechFontSize : ℕ := 40

/-- headingFontSize is the 44 pixel section-heading size. -/
def headingFontSize : ℕ := 44

/-- definitionFontSize is the 40 pixel definition size. -/
def definitionFontSize : ℕ := 40

/-- exampleFontSize is the 40 pixel example size. -/
def exampleFontSize : ℕ := 40

/-- maxTextWidthWord is the word-image text budget, canvas width minus
250. -/
def maxTextWidthWord : ℚ := canvasW - 250

/-- definitionPadding is the 30 pixel definition box padding. -/
def definitionPadding : ℚ := 30

/-- examplePadding is the 30 pixel example box padding. -/
def examplePadding : ℚ := 30

/-- wordFontStr is the display-word font string of line 73. -/
def wordFontStr (d : DesignConfig) (titleFont : String) : String :=
  "bold " ++ toString wordFontSize ++ "px " ++ titleFont ++ ", "
    ++ d.typography.title.fontFamily.getD "Arial"

/-- posFontStr is the part-of-speech font string of line 95. -/
def posFontStr (d : DesignConfig) (bodyFont : String) : String :=
  "italic " ++ toString partOfSpeechFontSize ++ "px " ++ bodyFont ++ ", "
    ++ d.typography.author.fontFamily.getD "Arial"

/-- headingFontStr is the section-heading font string of lines 111 and
217. -/
def headingFontStr (d : DesignConfig) (titleFont : String) : String :=
  "bold " ++ toString headingFontSize ++ "px " ++ titleFont ++ ", "
    ++ d.typography.title.fontFamily.getD "Arial"

/-- defFontStrAt is the definition font string of line 147, faithfully
reproducing the missing space of the source between bold and the size. -/
def defFontStrAt (d : DesignConfig) (bodyFont : String) (fs : ℕ) : String :=
  "bold" ++ toString fs ++ "px " ++ bodyFont ++ ", "
    ++ d.typography.quote.fontFamily.getD "Arial"

/-- exampleFontStrAt is the example font string of line 252. -/
def exampleFontStrAt (d : DesignConfig) (bodyFont : String) (fs : ℕ) : String :=
  "italic " ++ toString fs ++ "px " ++ bodyFont ++ ", "
    ++ d.typography.author.fontFamily.getD "Arial"

/-- wrapDefCall is the wrapText call of line 154 for the definition. -/
def wrapDefCall (m : Meas) (d : DesignConfig) (bodyFont : String) (s : String) :
    Except Unit (List String) :=
  match wrapText (fun fs cs => m (defFontStrAt d bodyFont fs) (String.mk cs)) s
      maxTextWidthWord definitionFontSize definitionFontSize 1 none
      (fun fs => (fs : ℚ) * 1.3) with
  | .error e => .error e
  | .ok wb => .ok wb.lines

/-- wrapExampleCall is the wrapText call of line 254 for the example. -/
def wrapExampleCall (m : Meas) (d : DesignConfig) (bodyFont : String) (s : String) :
    Except Unit (List String) :=
  match wrapText (fun fs cs => m (exampleFontStrAt d bodyFont fs) (String.mk cs)) s
      maxTextWidthWord exampleFontSize exampleFontSize 1 none
      (fun fs => (fs : ℚ) * 1.3) with
  | .error e => .error e
  | .ok wb => .ok wb.lines

/-- wordWordFx mirrors lines 72 to 89: word font, drop shadow, dark fill,
the centered word, shadow reset. -/
def wordWordFx (m : Meas) (d : DesignConfig) (titleFont : String) (w : String) (st : St) : St :=
  let f := wordFontStr d titleFont
  let st := st.setFont f
  let st := (((st.setShadowColor "rgba(0,0,0,0.3)").setShadowBlur
    15).setShadowOffsetX 5).setShadowOffsetY 5
  let st := st.setFillStyle "#222222"
  let st := st.fillText "word" w ((canvasW - m f w) / 2) wordYpos
  (((st.setShadowColor "transparent").setShadowBlur 0).setShadowOffsetX 0).setShadowOffsetY 0

/-- wordPosFx mirrors lines 94 to 104: italic part of speech in
parentheses, centered. -/
def wordPosFx (m : Meas) (d : DesignConfig) (bodyFont : String) (pos : String) (y : ℚ)
    (st : St) : St :=
  let f := posFontStr d bodyFont
  let st := (st.setFont f).setFillStyle "#555555"
  let ptext := "(" ++ pos ++ ")"
  st.fillText "partOfSpeech" ptext ((canvasW - m f ptext) / 2) y

/-- wordHeadingFx mirrors the two section headings (lines 110 to 141 and
217 to 246): heading style, the two decorative rule strokes, the
centered heading text. -/
def wordHeadingFx (m : Meas) (d : DesignConfig) (titleFont tag txt : String) (y : ℚ)
    (st : St) : St :=
  let f := headingFontStr d titleFont
  let st := (st.setFont f).setFillStyle "#333333"
  let st := (st.setStrokeStyle "#333333").setLineWidth 3
  let st := st.strokePath (tag ++ "Line")
  let st := st.strokePath (tag ++ "Line")
  st.fillText tag txt ((canvasW - m f txt) / 2) y

/-- wordDefFx mirrors lines 146 to 210: definition font and fill, box
shadow, the gradient-filled rounded box, shadow reset, and the centered
definition lines. -/
def wordDefFx (m : Meas) (d : DesignConfig) (bodyFont : String) (wd : List String) (y : ℚ)
    (st : St) : St :=
  let f := defFontStrAt d bodyFont definitionFontSize
  let st := (st.setFont f).setFillStyle "#000000"
  let st := (((st.setShadowColor "rgba(0,0,0,0.2)").setShadowBlur
    15).setShadowOffsetX 5).setShadowOffsetY 5
  let st := st.fillGrad "definitionBox"
    [(0, "rgba(255, 255, 255, 0.95)"), (1, "rgba(245, 245, 245, 0.95)")]
  let st := (((st.setShadowColor "transparent").setShadowBlur
    0).setShadowOffsetX 0).setShadowOffsetY 0
  let st := st.setFillStyle "#333333"
  drawLinesCentered m "definitionLine" wd (y + definitionPadding)
    ((definitionFontSize : ℚ) * 1.3) st

/-- wordExampleFx mirrors lines 251 to 309: example font, box shadow,
the gradient-filled box, shadow reset, and the centered example lines. -/
def wordExampleFx (m : Meas) (d : DesignConfig) (bodyFont : String) (we : List String) (y : ℚ)
    (st : St) : St :=
  let f := exampleFontStrAt d bodyFont exampleFontSize
  let st := st.setFont f
  let st := (((st.setShadowColor "rgba(0,0,0,0.2)").setShadowBlur
    15).setShadowOffsetX 5).setShadowOffsetY 5
  let st := st.fillGrad "exampleBox"
    [(0, "rgba(250, 250, 255, 0.95)"), (1, "rgba(240, 240, 250, 0.95)")]
  let st := (((st.setShadowColor "transparent").setShadowBlur
    0).setShadowOffsetX 0).setShadowOffsetY 0
  let st := st.setFillStyle "#444444"
  drawLinesCentered m "exampleLine" we (y + examplePadding)
    ((exampleFontSize : ℚ) * 1.3) st

/-- WStage enumerates the stages of one generateWordImage call. -/
inductive WStage where
  | background
  | wordDraw
  | partOfSpeechDraw
  | meaningDraw
  | definitionDraw
  | exampleDraw
  | saving
deriving DecidableEq

/-- runWordSt is the body of the try block of generateWordImage in
source order: day-indexed fonts, day background with decorations, the
shadowed word, the optional part of speech, the meaning heading, the
definition box, the optional sentence section, the serialization. -/
def runWordSt (m : Meas) (o : WordOptions) (r : Rng)
    (fail : WStage → Bool) : Except (WStage × List Ev) St :=
  let st0 := St.init r
  if fail .background then .error (.background, st0.events) else
  let p := getDayIndexSt o.design.designId st0
  let titleFont := wordFontsTitle.getD (p.1 % wordFontsTitle.length) "Lato"
  let bodyFont := wordFontsBody.getD (p.1 % wordFontsBody.length) "Lato"
  let st1 := createDayBackground o.design.designId p.2
  if fail .wordDraw then .error (.wordDraw, st1.events) else
  let st2 := wordWordFx m o.design titleFont o.word st1
  let y1 := wordYpos + 60
  let posPresent := truthy o.partOfSpeech
  if posPresent && fail .partOfSpeechDraw then .error (.partOfSpeechDraw, st2.events) else
  let st3 := if posPresent then wordPosFx m o.design bodyFont (o.partOfSpeech.getD "") y1 st2
             else st2
  let y2 := if posPresent then y1 + 60 else y1
  if fail .meaningDraw then .error (.meaningDraw, st3.events) else
  let st4 := wordHeadingFx m o.design titleFont "meaningHeading" "MEANING" y2 st3
  let y3 := y2 + 60
  match wrapDefCall m o.design bodyFont o.definition with
  | .error _ => .error (.definitionDraw, st4.events)
  | .ok wd =>
    if fail .definitionDraw then .error (.definitionDraw, st4.events) else
    let st5 := wordDefFx m o.design bodyFont wd y3 st4
    let defBoxHeight := (wd.length : ℚ) * ((definitionFontSize : ℚ) * 1.3)
      + definitionPadding * 2
    let y4 := y3 + defBoxHeight + 60
    let exPresent := truthy o.«example»
    if exPresent && fail .exampleDraw then .error (.exampleDraw, st5.events) else
    let exRes : Except (WStage × List Ev) St :=
      if exPresent then
        let st6 := wordHeadingFx m o.design titleFont "sentenceHeading" "SENTENCE" y4 st5
        match wrapExampleCall m o.design bodyFont (o.«example».getD "") with
        | .error _ => .error (.exampleDraw, st6.events)
        | .ok we => .ok (wordExampleFx m o.design bodyFont we (y4 + 60) st6)
      else .ok st5
    match exRes with
    | .error e => .error e
    | .ok st7 =>
      if fail .saving then .error (.saving, st7.events) else
      .ok (st7.emit Ev.buffer)

/-- runWord pairs the stored url of the timestamp with the finished
trace on success. -/
def runWord (m : Meas) (o : WordOptions) (r : Rng) (t : Timestamp)
    (fail : WStage → Bool) : Except (WStage × List Ev) (String × List Ev) :=
  (runWordSt m o r fail).map (fun st => (wordUrl t, st.events))

/-- generateWordImage is the public word operation: total in all inputs,
returning the stored url on success and the fixed placeholder path on
any internal failure, paired with the paint trace. -/
def generateWordImage (m : Meas) (o : WordOptions) (r : Rng) (t : Timestamp)
    (fail : WStage → Bool) : String × List Ev :=
  match runWord m o r t fail with
  | .ok p => p
  | .error e => (placeholderWord, e.2)

/-- noWFail injects no failure into the word pipeline. -/
def noWFail : WStage → Bool := fun _ => false

/-! ## Determinism of fixed themes (C3) -/

/-- C3: for every designId containing a fixed weekday token, the theme
selections of a render (the gradient color stops and the decoration
routine) are the same function value for any state of the pseudo-random
stream, so two renders in the same process select byte-identical stops
and the same routine; moreover the stop selection does not consume the
stream at all, so only the unrecognized/random fallback draws from it. -/
theorem c3_fixed_theme_deterministic (designId : String)
    (h : hasDayToken designId = true) (r1 r2 : Rng) :
    renderSelections designId r1 = renderSelections designId r2 ∧
    (createDayBackgroundStops designId r1).2 = r1 := by
  by_cases h1 : includesTok designId "monday"
  · simp [renderSelections, createDayBackgroundStops, h1]
  by_cases h2 : includesTok designId "tuesday"
  · simp [renderSelections, createDayBackgroundStops, h1, h2]
  by_cases h3 : includesTok designId "wednesday"
  · simp [renderSelections, createDayBackgroundStops, h1, h2, h3]
  by_cases h4 : includesTok designId "thursday"
  · simp [renderSelections, createDayBackgroundStops, h1, h2, h3, h4]
  by_cases h5 : includesTok designId "friday"
  · simp [renderSelections, createDayBackgroundStops, h1, h2, h3, h4, h5]
  by_cases h6 : includesTok designId "saturday"
  · simp [renderSelections, createDayBackgroundStops, h1, h2, h3, h4, h5, h6]
  by_cases h7 : includesTok designId "sunday"
  · simp [renderSelections, createDayBackgroundStops, h1, h2, h3, h4, h5, h6, h7]
  · exfalso
    simp [hasDayToken, daysList, h1, h2, h3, h4, h5, h6, h7] at h

/-- Witness for C3 at the concrete designId fixed-monday-design and two
different random streams. -/
theorem c3_fixed_theme_deterministic_witness :
    renderSelections "fixed-monday-design" (Rng.mk (fun _ => 0) 0)
        = renderSelections "fixed-monday-design" (Rng.mk (fun k => (k : ℚ) / 7) 3) ∧
    (createDayBackgroundStops "fixed-monday-design" (Rng.mk (fun _ => 0) 0)).2
        = Rng.mk (fun _ => 0) 0 :=
  c3_fixed_theme_deterministic "fixed-monday-design" (by decide)
    (Rng.mk (fun _ => 0) 0) (Rng.mk (fun k => (k : ℚ) / 7) 3)

/-! ## Public failure contract (C1) -/

/-- runQuote_ok_url shows every successful quote run returns exactly the
stored url for its timestamp. -/
theorem runQuote_ok_url (m : Meas) (o : QuoteOptions) (r : Rng) (t : Timestamp)
    (fail : QStage → Bool) (p : String × List Ev)
    (h : runQuote m o r t fail = .ok p) : p.1 = thoughtUrl t := by
  unfold runQuote at h
  cases hst : runQuoteSt m o r fail with
  | ok st =>
    rw [hst] at h
    simp only [Except.map] at h
    injection h with h
    subst h
    rfl
  | error e =>
    rw [hst] at h
    simp only [Except.map] at h
    exact Except.noConfusion h

/-- runWord_ok_url shows every successful word run returns exactly the
stored url for its timestamp. -/
theorem runWord_ok_url (m : Meas) (o : WordOptions) (r : Rng) (t : Timestamp)
    (fail : WStage → Bool) (p : String × List Ev)
    (h : runWord m o r t fail = .ok p) : p.1 = wordUrl t := by
  unfold runWord at h
  cases hst : runWordSt m o r fail with
  | ok st =>
    rw [hst] at h
    simp only [Except.map] at h
    injection h with h
    subst h
    rfl
  | error e =>
    rw [hst] at h
    simp only [Except.map] at h
    exact Except.noConfusion h

/-- thoughtUrl_ne_placeholder separates every successful quote url from
the placeholder sentinel by length. -/
theorem thoughtUrl_ne_placeholder (t : Timestamp) : thoughtUrl t ≠ placeholderThought := by
  intro h
  have hl := congrArg String.length h
  have hsub : saveSubdirOf "thought" = "thoughts" := rfl
  simp only [thoughtUrl, saveImageUrl, hsub, saveFilenameV2, placeholderThought,
    String.length_append] at hl
  have e1 : "generated-images/".length = 17 := rfl
  have e2 : "thoughts".length = 8 := rfl
  have e3 : "/".length = 1 := rfl
  have e4 : "thought".length = 7 := rfl
  have e5 : "-of-the-day-".length = 12 := rfl
  have e6 : ".png".length = 4 := rfl
  have e7 : "generated-images/thoughts/placeholder.png".length = 41 := rfl
  rw [e1, e2, e3, e4, e5, e6, e7] at hl
  omega

/-- wordUrl_ne_placeholder separates every successful word url from the
placeholder sentinel by length. -/
theorem wordUrl_ne_placeholder (t : Timestamp) : wordUrl t ≠ placeholderWord := by
  intro h
  have hl := congrArg String.length h
  have hsub : saveSubdirOf "word" = "words" := rfl
  simp only [wordUrl, saveImageUrl, hsub, saveFilenameV2, placeholderWord,
    String.length_append] at hl
  have e1 : "generated-images/".length = 17 := rfl
  have e2 : "words".length = 5 := rfl
  have e3 : "/".length = 1 := rfl
  have e4 : "word".length = 4 := rfl
  have e5 : "-of-the-day-".length = 12 := rfl
  have e6 : ".png".length = 4 := rfl
  have e7 : "generated-images/words/placeholder.png".length = 38 := rfl
  rw [e1, e2, e3, e4, e5, e6, e7] at hl
  omega

/-- C1: both public image-generation operations are total (they are
functions, never raising across the boundary); each returns either the
fixed placeholder sentinel of its category or the stored url of its
timestamp; the sentinel differs from every successful url; and a
non-placeholder result is only returned when the whole pipeline,
serialization included, ran to completion, so a partially-rendered
canvas is never returned as success. -/
theorem c1_placeholder_failure_contract (m : Meas) (oq : QuoteOptions) (ow : WordOptions)
    (r1 r2 : Rng) (t1 t2 : Timestamp) (f1 : QStage → Bool) (f2 : WStage → Bool) :
    ((generateQuoteImage m oq r1 t1 f1).1 = placeholderThought ∨
      (generateQuoteImage m oq r1 t1 f1).1 = thoughtUrl t1) ∧
    ((generateWordImage m ow r2 t2 f2).1 = placeholderWord ∨
      (generateWordImage m ow r2 t2 f2).1 = wordUrl t2) ∧
    thoughtUrl t1 ≠ placeholderThought ∧
    wordUrl t2 ≠ placeholderWord ∧
    ((generateQuoteImage m oq r1 t1 f1).1 ≠ placeholderThought →
      runQuote m oq r1 t1 f1 = .ok (generateQuoteImage m oq r1 t1 f1)) ∧
    ((generateWordImage m ow r2 t2 f2).1 ≠ placeholderWord →
      runWord m ow r2 t2 f2 = .ok (generateWordImage m ow r2 t2 f2)) := by
  refine ⟨?_, ?_, thoughtUrl_ne_placeholder t1, wordUrl_ne_placeholder t2, ?_, ?_⟩
  · unfold generateQuoteImage
    cases hrq : runQuote m oq r1 t1 f1 with
    | ok p => right; exact runQuote_ok_url m oq r1 t1 f1 p hrq
    | error e => left; rfl
  · unfold generateWordImage
    cases hrw : runWord m ow r2 t2 f2 with
    | ok p => right; exact runWord_ok_url m ow r2 t2 f2 p hrw
    | error e => left; rfl
  · intro hne
    unfold generateQuoteImage at hne ⊢
    cases hrq : runQuote m oq r1 t1 f1 with
    | ok p => simp [hrq]
    | error e => rw [hrq] at hne; exact absurd rfl hne
  · intro hne
    unfold generateWordImage at hne ⊢
    cases hrw : runWord m ow r2 t2 f2 with
    | ok p => simp [hrw]
    | error e => rw [hrw] at hne; exact absurd rfl hne

/-! ## Event predicates for the cross-cutting render properties -/

/-- isTextEv recognizes text paint events. -/
def isTextEv : Ev → Bool
  | .text _ _ _ _ _ => true
  | _ => false

/-- CenteredText states that a text event was painted at the horizontal
position centering its own measured width under the font recorded in its
style state. -/
def CenteredText (m : Meas) (ev : Ev) : Prop :=
  ∀ tag s x y g, ev = Ev.text tag s x y g → x = (canvasW - m g.font s) / 2

/-- TextShadowOK states that a text event either is one of the two
deliberately shadowed headings (the quote title and the display word) or
was painted with the shadow reset to transparent. -/
def TextShadowOK (ev : Ev) : Prop :=
  ∀ tag s x y g, ev = Ev.text tag s x y g →
    tag = "title" ∨ tag = "word" ∨ g.shadowColor = "transparent"

/-- EvOK packages the two per-event render properties. -/
def EvOK (m : Meas) (ev : Ev) : Prop := CenteredText m ev ∧ TextShadowOK ev

/-- centered_of_nonText discharges CenteredText for non-text events. -/
theorem centered_of_nonText (m : Meas) (ev : Ev) (h : isTextEv ev = false) :
    CenteredText m ev := by
  intro tag s x y g heq
  subst heq
  simp [isTextEv] at h

/-- shadowOK_of_nonText discharges TextShadowOK for non-text events. -/
theorem shadowOK_of_nonText (ev : Ev) (h : isTextEv ev = false) :
    TextShadowOK ev := by
  intro tag s x y g heq
  subst heq
  simp [isTextEv] at h

/-- evOK_of_nonText discharges both render properties for non-text
events. -/
theorem evOK_of_nonText (m : Meas) (ev : Ev) (h : isTextEv ev = false) :
    EvOK m ev :=
  ⟨centered_of_nonText m ev h, shadowOK_of_nonText ev h⟩

/-- tagRank orders the paint phases of the quote renderer by the tags
its primitives carry: background and texture first, then the title, the
card, the text blocks, and everything else (the day decorations) last. -/
def tagRank (t : String) : ℕ :=
  if t = "background" ∨ t = "texture" then 0
  else if t = "title" then 1
  else if t = "card" ∨ t = "cardBorder" then 2
  else if t = "quoteLine" ∨ t = "author" then 3
  else 4

/-- evRank ranks an event by its tag, with serialization last of all. -/
def evRank : Ev → ℕ
  | .rect tag _ _ _ _ _ => tagRank tag
  | .grad tag _ _ => tagRank tag
  | .path tag _ => tagRank tag
  | .stroke tag _ => tagRank tag
  | .text tag _ _ _ _ => tagRank tag
  | .buffer => 5

/-- Appends states that a state transformer only appends events, all of
which satisfy the given predicate. -/
def Appends (f : St → St) (p : Ev → Prop) : Prop :=
  ∀ st, ∃ tail, (f st).events = st.events ++ tail ∧ ∀ ev ∈ tail, p ev

/-- appends_of_eventsEq holds for transformers that never paint. -/
theorem appends_of_eventsEq {f : St → St} {p : Ev → Prop}
    (h : ∀ st, (f st).events = st.events) : Appends f p :=
  fun st => ⟨[], by rw [h st, List.append_nil], by simp⟩

/-- appends_foldl lifts Appends through a loop. -/
theorem appends_foldl {α : Type} (body : St → α → St) (p : Ev → Prop) (l : List α)
    (hb : ∀ a, Appends (fun st => body st a) p) :
    Appends (fun st => l.foldl body st) p := by
  induction l with
  | nil => intro st; exact ⟨[], by simp, by simp⟩
  | cons a t ih =>
    intro st
    obtain ⟨t1, h1, hp1⟩ := hb a st
    obtain ⟨t2, h2, hp2⟩ := ih (body st a)
    refine ⟨t1 ++ t2, ?_, ?_⟩
    · show (List.foldl body st (a :: t)).events = st.events ++ (t1 ++ t2)
      rw [List.foldl_cons, h2, h1, List.append_assoc]
    · intro ev hev
      rcases List.mem_append.mp hev with h | h
      exacts [hp1 ev h, hp2 ev h]

/-- foldl_gfx lifts style-state preservation through a loop. -/
theorem foldl_gfx {α : Type} (body : St → α → St) (l : List α)
    (hb : ∀ s a, (body s a).gfx = s.gfx) :
    ∀ st, (l.foldl body st).gfx = st.gfx := by
  induction l with
  | nil => intro st; rfl
  | cons a t ih => intro st; rw [List.foldl_cons, ih, hb]

/-- foldl_stack lifts save-stack preservation through a loop. -/
theorem foldl_stack {α : Type} (body : St → α → St) (l : List α)
    (hb : ∀ s a, (body s a).stack = s.stack) :
    ∀ st, (l.foldl body st).stack = st.stack := by
  induction l with
  | nil => intro st; rfl
  | cons a t ih => intro st; rw [List.foldl_cons, ih, hb]

/-- foldl_shadow lifts shadow-color preservation through a loop. -/
theorem foldl_shadow {α : Type} (body : St → α → St) (l : List α)
    (hb : ∀ s a, (body s a).gfx.shadowColor = s.gfx.shadowColor) :
    ∀ st, (l.foldl body st).gfx.shadowColor = st.gfx.shadowColor := by
  induction l with
  | nil => intro st; rfl
  | cons a t ih => intro st; rw [List.foldl_cons, ih, hb]

/-- foldl_alpha lifts alpha preservation through a loop. -/
theorem foldl_alpha {α : Type} (body : St → α → St) (l : List α)
    (hb : ∀ s a, (body s a).gfx.globalAlpha = s.gfx.globalAlpha) :
    ∀ st, (l.foldl body st).gfx.globalAlpha = st.gfx.globalAlpha := by
  induction l with
  | nil => intro st; rfl
  | cons a t ih => intro st; rw [List.foldl_cons, ih, hb]

/-! ## Trace invariant of the quote renderer -/

/-- TraceOK states the cross-cutting trace properties up to a phase
bound: every event satisfies the per-event render properties, the phase
ranks are nondecreasing along the trace, and no event exceeds the given
bound. -/
def TraceOK (m : Meas) (bound : ℕ) (evs : List Ev) : Prop :=
  (∀ ev ∈ evs, EvOK m ev) ∧
  List.Pairwise (· ≤ ·) (evs.map evRank) ∧
  ∀ ev ∈ evs, evRank ev ≤ bound

/-- traceOK_nil holds for the empty trace. -/
theorem traceOK_nil (m : Meas) (b : ℕ) : TraceOK m b [] := ⟨by simp, by simp, by simp⟩

/-- traceOK_mono weakens the phase bound. -/
theorem traceOK_mono (m : Meas) {b b2 : ℕ} (h : b ≤ b2) {evs : List Ev}
    (ht : TraceOK m b evs) : TraceOK m b2 evs :=
  ⟨ht.1, ht.2.1, fun ev hev => le_trans (ht.2.2 ev hev) h⟩

/-- pairwise_le_of_const shows a constant rank list is sorted. -/
theorem pairwise_le_of_const {l : List ℕ} {k : ℕ} (h : ∀ x ∈ l, x = k) :
    List.Pairwise (· ≤ ·) l := by
  induction l with
  | nil => exact List.Pairwise.nil
  | cons a t ih =>
    refine List.Pairwise.cons ?_ (ih fun x hx => h x (List.mem_cons_of_mem a hx))
    intro b hb
    rw [h a (List.mem_cons_self a t), h b (List.mem_cons_of_mem a hb)]

/-- traceOK_append extends a trace by a phase segment of uniform rank at
or above the current bound. -/
theorem traceOK_append (m : Meas) {b b2 : ℕ} (hb : b ≤ b2) {evs tail : List Ev}
    (h : TraceOK m b evs) (htail : ∀ ev ∈ tail, EvOK m ev ∧ evRank ev = b2) :
    TraceOK m b2 (evs ++ tail) := by
  obtain ⟨hok, hsort, hbound⟩ := h
  refine ⟨?_, ?_, ?_⟩
  · intro ev hev
    rcases List.mem_append.mp hev with h1 | h1
    exacts [hok ev h1, (htail ev h1).1]
  · rw [List.map_append]
    rw [List.pairwise_append]
    refine ⟨hsort, pairwise_le_of_const (k := b2) ?_, ?_⟩
    · intro x hx
      rcases List.mem_map.mp hx with ⟨ev, hev, rfl⟩
      exact (htail ev hev).2
    · intro a ha c hc
      rcases List.mem_map.mp ha with ⟨ev1, hev1, rfl⟩
      rcases List.mem_map.mp hc with ⟨ev2, hev2, rfl⟩
      rw [(htail ev2 hev2).2]
      exact le_trans (hbound ev1 hev1) hb
  · intro ev hev
    rcases List.mem_append.mp hev with h1 | h1
    · exact le_trans (hbound ev h1) hb
    · exact le_of_eq (htail ev h1).2

/-! ## Per-stage lemmas of the quote renderer -/

/-- restore_of_stack computes a restore against a known stack shape. -/
theorem restore_of_stack {st : St} {g : Gfx} {rest : List Gfx} (h : st.stack = g :: rest) :
    st.restore = { st with gfx := g, stack := rest } := by
  unfold St.restore
  rw [h]

/-- drawLines_fx characterizes the line-painting loop over any indexed
line list: style state untouched, and every appended event is a text
event of the given tag, centered under the entry font, painted with the
entry style state. -/
theorem drawLines_fx (m : Meas) (tag : String) (y0 lh : ℚ) (ps : List (ℕ × String)) :
    ∀ st : St,
      (ps.foldl (lineCell m tag y0 lh) st).gfx = st.gfx ∧
      (ps.foldl (lineCell m tag y0 lh) st).stack = st.stack ∧
      (ps.foldl (lineCell m tag y0 lh) st).rng = st.rng ∧
      ∃ tail, (ps.foldl (lineCell m tag y0 lh) st).events = st.events ++ tail ∧
        ∀ ev ∈ tail, ∃ s2 i, ev = Ev.text tag s2 ((canvasW - m st.gfx.font s2) / 2)
          (y0 + (i : ℚ) * lh) st.gfx := by
  induction ps with
  | nil => intro st; exact ⟨rfl, rfl, rfl, [], by simp, by simp⟩
  | cons p t ih =>
    intro st
    obtain ⟨hg, hs, hr, tail, hev, hp⟩ := ih (lineCell m tag y0 lh st p)
    rw [List.foldl_cons]
    refine ⟨hg, hs, hr, Ev.text tag p.2 ((canvasW - m st.gfx.font p.2) / 2)
      (y0 + (p.1 : ℚ) * lh) st.gfx :: tail, ?_, ?_⟩
    · rw [hev]
      show (st.events ++ [_]) ++ tail = _
      rw [List.append_assoc]
      rfl
    · intro ev hevm
      rcases List.mem_cons.mp hevm with h1 | h1
      · exact ⟨p.2, p.1, h1⟩
      · exact hp ev h1

/-- textureCell_fx: one texture cell leaves shadow, font, alpha and
stack unchanged and paints at most one background-rank rectangle. -/
theorem textureCell_fx (i j : ℕ) (s : St) :
    (textureCell i j s).gfx.shadowColor = s.gfx.shadowColor ∧
    (textureCell i j s).gfx.font = s.gfx.font ∧
    (textureCell i j s).gfx.globalAlpha = s.gfx.globalAlpha ∧
    (textureCell i j s).stack = s.stack ∧
    ∃ tail, (textureCell i j s).events = s.events ++ tail ∧
      ∀ ev ∈ tail, isTextEv ev = false ∧ evRank ev = 0 := by
  unfold textureCell
  by_cases hx : (1 : ℚ)/2 < (s.rand).1
  · rw [if_pos hx]
    refine ⟨rfl, rfl, rfl, rfl, [Ev.rect "texture" (i : ℚ) (j : ℚ) 2 2 _], rfl, ?_⟩
    intro ev hev
    rcases List.mem_singleton.mp hev with rfl
    exact ⟨rfl, rfl⟩
  · rw [if_neg hx]
    exact ⟨rfl, rfl, rfl, rfl, [], by simp [St.rand], by simp⟩

/-- foldl_font lifts font preservation through a loop. -/
theorem foldl_font {α : Type} (body : St → α → St) (l : List α)
    (hb : ∀ s a, (body s a).gfx.font = s.gfx.font) :
    ∀ st, (l.foldl body st).gfx.font = st.gfx.font := by
  induction l with
  | nil => intro st; rfl
  | cons a t ih => intro st; rw [List.foldl_cons, ih, hb]

/-- texture_shape_fx characterizes the two texture overlays, which share
the shape of a loop framed by two alpha assignments. -/
theorem texture_shape_fx {p : Ev → Prop} (f : St → St) (a b : ℚ)
    (hsh : ∀ s, (f s).gfx.shadowColor = s.gfx.shadowColor)
    (hfo : ∀ s, (f s).gfx.font = s.gfx.font)
    (hst : ∀ s, (f s).stack = s.stack)
    (happ : Appends f p) (st : St) :
    ((f (st.setAlpha a)).setAlpha b).gfx.shadowColor = st.gfx.shadowColor ∧
    ((f (st.setAlpha a)).setAlpha b).gfx.font = st.gfx.font ∧
    ((f (st.setAlpha a)).setAlpha b).gfx.globalAlpha = b ∧
    ((f (st.setAlpha a)).setAlpha b).stack = st.stack ∧
    ∃ tail, ((f (st.setAlpha a)).setAlpha b).events = st.events ++ tail ∧
      ∀ ev ∈ tail, p ev := by
  obtain ⟨tail, hev, hp⟩ := happ (st.setAlpha a)
  refine ⟨?_, ?_, rfl, ?_, tail, ?_, hp⟩
  · show (f (st.setAlpha a)).gfx.shadowColor = _
    rw [hsh]
    rfl
  · show (f (st.setAlpha a)).gfx.font = _
    rw [hfo]
    rfl
  · show (f (st.setAlpha a)).stack = _
    rw [hst]
    rfl
  · show (f (st.setAlpha a)).events = _
    rw [hev]
    rfl

/-- save_restore_fx characterizes the decoration helpers, which share
the shape of a painting body framed by save and restore: the style state
and the stack come back unchanged and only the body events are added. -/
theorem save_restore_fx {p : Ev → Prop} (f : St → St)
    (hst : ∀ s, (f s).stack = s.stack)
    (happ : Appends f p) (st : St) :
    ((f st.save).restore).gfx = st.gfx ∧
    ((f st.save).restore).stack = st.stack ∧
    ((f st.save).restore).gfx.globalAlpha = st.gfx.globalAlpha ∧
    ∃ tail, ((f st.save).restore).events = st.events ++ tail ∧ ∀ ev ∈ tail, p ev := by
  have hs : (f st.save).stack = st.gfx :: st.stack := by rw [hst]; rfl
  obtain ⟨tail, hev, hp⟩ := happ st.save
  rw [restore_of_stack hs]
  refine ⟨rfl, rfl, rfl, tail, ?_, hp⟩
  show (f st.save).events = _
  rw [hev]
  rfl

/-- strokeLoop_appends: a loop of bare strokes appends stroke events of
its tag. -/
theorem strokeLoop_appends (tag : String) (l : List ℕ) :
    Appends (fun s => l.foldl (fun s2 _ => s2.strokePath tag) s)
      (fun ev => isTextEv ev = false ∧ evRank ev = tagRank tag) :=
  appends_foldl _ _ l (fun _ s =>
    ⟨[Ev.stroke tag s.gfx], rfl, by
      intro ev hev
      rcases List.mem_singleton.mp hev with rfl
      exact ⟨rfl, rfl⟩⟩)

set_option maxRecDepth 8000 in
/-- textureLoop_shadow: the noise grid never touches the shadow color. -/
theorem textureLoop_shadow : forall s, (textureLoop s).gfx.shadowColor = s.gfx.shadowColor :=
  fun s => foldl_shadow _ _
    (fun s1 i => foldl_shadow _ _ (fun s2 j => (textureCell_fx i j s2).1) s1) s

set_option maxRecDepth 8000 in
/-- textureLoop_font: the noise grid never touches the font. -/
theorem textureLoop_font : forall s, (textureLoop s).gfx.font = s.gfx.font :=
  fun s => foldl_font _ _
    (fun s1 i => foldl_font _ _ (fun s2 j => (textureCell_fx i j s2).2.1) s1) s

set_option maxRecDepth 8000 in
/-- textureLoop_stack: the noise grid never touches the save stack. -/
theorem textureLoop_stack : forall s, (textureLoop s).stack = s.stack :=
  fun s => foldl_stack _ _
    (fun s1 i => foldl_stack _ _ (fun s2 j => (textureCell_fx i j s2).2.2.2.1) s1) s

set_option maxRecDepth 8000 in
/-- textureLoop_appends: the noise grid appends only non-text events of
rank zero. -/
theorem textureLoop_appends :
    Appends textureLoop (fun ev => isTextEv ev = false ∧ evRank ev = 0) :=
  appends_foldl _ _ _
    (fun i => appends_foldl _ _ _ (fun j s2 => (textureCell_fx i j s2).2.2.2.2))

/-- addSubtleTexture_fx: the quote texture leaves shadow and font
unchanged, exits with alpha one, keeps the stack, and paints only
background-rank non-text events. -/
theorem addSubtleTexture_fx (st : St) :
    (addSubtleTexture st).gfx.shadowColor = st.gfx.shadowColor ∧
    (addSubtleTexture st).gfx.font = st.gfx.font ∧
    (addSubtleTexture st).gfx.globalAlpha = 1 ∧
    (addSubtleTexture st).stack = st.stack ∧
    ∃ tail, (addSubtleTexture st).events = st.events ++ tail ∧
      ∀ ev ∈ tail, isTextEv ev = false ∧ evRank ev = 0 := by
  obtain ⟨a1, a2, a3, a4, tail, a5, a6⟩ :=
    texture_shape_fx textureLoop 0.05 1.0 textureLoop_shadow textureLoop_font
      textureLoop_stack textureLoop_appends st
  refine ⟨a1, a2, ?_, a4, tail, a5, a6⟩
  show ((textureLoop (st.setAlpha 0.05)).setAlpha 1.0).gfx.globalAlpha = 1
  rw [a3]
  norm_num

/-- appends_comp composes two appending transformers. -/
theorem appends_comp {p : Ev → Prop} {f g : St → St}
    (hf : Appends f p) (hg : Appends g p) : Appends (fun s => g (f s)) p := by
  intro s
  obtain ⟨t1, h1, hp1⟩ := hf s
  obtain ⟨t2, h2, hp2⟩ := hg (f s)
  refine ⟨t1 ++ t2, ?_, ?_⟩
  · show (g (f s)).events = _
    rw [h2, h1, List.append_assoc]
  · intro ev hev
    rcases List.mem_append.mp hev with h | h
    exacts [hp1 ev h, hp2 ev h]

/-- appends_mono weakens the event predicate of Appends. -/
theorem appends_mono {p q : Ev → Prop} {f : St → St}
    (h : ∀ ev, p ev → q ev) (hf : Appends f p) : Appends f q := by
  intro s
  obtain ⟨tail, hev, hp⟩ := hf s
  exact ⟨tail, hev, fun ev hm => h ev (hp ev hm)⟩

/-- fillPath_appends: one bare path fill appends one non-text event of
its tag. -/
theorem fillPath_appends (tag : String) :
    Appends (fun s => s.fillPath tag)
      (fun ev => isTextEv ev = false ∧ evRank ev = tagRank tag) := by
  intro s
  refine ⟨[Ev.path tag s.gfx], rfl, ?_⟩
  intro ev hev
  rcases List.mem_singleton.mp hev with rfl
  exact ⟨rfl, rfl⟩

/-- pathLoop_appends: a loop of bare path fills appends non-text events
of its tag. -/
theorem pathLoop_appends {α : Type} (tag : String) (l : List α) :
    Appends (fun s => l.foldl (fun s2 _ => s2.fillPath tag) s)
      (fun ev => isTextEv ev = false ∧ evRank ev = tagRank tag) :=
  appends_foldl _ _ l (fun _ s =>
    ⟨[Ev.path tag s.gfx], rfl, by
      intro ev hev
      rcases List.mem_singleton.mp hev with rfl
      exact ⟨rfl, rfl⟩⟩)

/-- appends_single_path: a path fill after trace-silent preparation
appends one non-text event of its tag. -/
theorem appends_single_path (tag : String) (pre : St → St)
    (hpre : ∀ s, (pre s).events = s.events) :
    Appends (fun s => St.fillPath tag (pre s))
      (fun ev => isTextEv ev = false ∧ evRank ev = tagRank tag) := by
  intro s
  refine ⟨[Ev.path tag (pre s).gfx], ?_, ?_⟩
  · show (pre s).events ++ _ = _
    rw [hpre s]
  · intro ev hev
    rcases List.mem_singleton.mp hev with rfl
    exact ⟨rfl, rfl⟩

/-- appends_single_stroke: a stroke after trace-silent preparation
appends one non-text event of its tag. -/
theorem appends_single_stroke (tag : String) (pre : St → St)
    (hpre : ∀ s, (pre s).events = s.events) :
    Appends (fun s => St.strokePath tag (pre s))
      (fun ev => isTextEv ev = false ∧ evRank ev = tagRank tag) := by
  intro s
  refine ⟨[Ev.stroke tag (pre s).gfx], ?_, ?_⟩
  · show (pre s).events ++ _ = _
    rw [hpre s]
  · intro ev hev
    rcases List.mem_singleton.mp hev with rfl
    exact ⟨rfl, rfl⟩

/-! ## Per-stage lemmas of the quote pipeline -/

/-- quoteBgFx_fx: the background stage preserves the shadow color, the
font and the stack and appends only non-text events of rank zero. -/
theorem quoteBgFx_fx (d : DesignConfig) (st : St) :
    (quoteBgFx d st).gfx.shadowColor = st.gfx.shadowColor ∧
    (quoteBgFx d st).gfx.font = st.gfx.font ∧
    (quoteBgFx d st).stack = st.stack ∧
    ∃ tail, (quoteBgFx d st).events = st.events ++ tail ∧
      ∀ ev ∈ tail, isTextEv ev = false ∧ evRank ev = 0 := by
  unfold quoteBgFx
  by_cases hb : d.background.btype = "gradient"
  · rw [if_pos hb]
    unfold applyGradientBackground
    obtain ⟨a1, a2, a3, a4, tail, a5, a6⟩ := addSubtleTexture_fx
      (St.fillGrad "background"
        (gradientStopsFromColors (parsedGradientColors d.background.color)) st)
    refine ⟨by rw [a1]; rfl, by rw [a2]; rfl, by rw [a4]; rfl,
      Ev.grad "background" (gradientStopsFromColors (parsedGradientColors d.background.color))
        st.gfx :: tail, ?_, ?_⟩
    · rw [a5]
      show (st.events ++ [_]) ++ tail = _
      rw [List.append_assoc]
      rfl
    · intro ev hev
      rcases List.mem_cons.mp hev with rfl | h
      · exact ⟨rfl, rfl⟩
      · exact a6 ev h
  · rw [if_neg hb]
    refine ⟨rfl, rfl, rfl, [Ev.rect "background" 0 0 canvasW canvasH
      ((st.setFillStyle d.background.color).gfx)], rfl, ?_⟩
    intro ev hev
    rcases List.mem_singleton.mp hev with rfl
    exact ⟨rfl, rfl⟩

/-- quoteLayoutFx_fx: the layout stage only sets fonts and fill, leaving
shadow, stack and the trace untouched. -/
theorem quoteLayoutFx_fx (d : DesignConfig) (st : St) :
    (quoteLayoutFx d st).gfx.shadowColor = st.gfx.shadowColor ∧
    (quoteLayoutFx d st).stack = st.stack ∧
    (quoteLayoutFx d st).events = st.events :=
  ⟨rfl, rfl, rfl⟩

/-- quoteTitleFx_fx: the title stage exits with the shadow reset to
transparent, keeps the stack, and appends exactly the centered title
text event at rank one. -/
theorem quoteTitleFx_fx (m : Meas) (d : DesignConfig) (n : ℕ) (st : St) :
    (quoteTitleFx m d n st).gfx.shadowColor = "transparent" ∧
    (quoteTitleFx m d n st).stack = st.stack ∧
    ∃ tail, (quoteTitleFx m d n st).events = st.events ++ tail ∧
      ∀ ev ∈ tail, EvOK m ev ∧ evRank ev = 1 := by
  refine ⟨rfl, rfl, _, rfl, ?_⟩
  intro ev hev
  rcases List.mem_singleton.mp hev with rfl
  refine ⟨⟨?_, ?_⟩, rfl⟩
  · intro tag s x y g heq
    injection heq with h1 h2 h3 h4 h5
    subst h2
    subst h3
    subst h5
    rfl
  · intro tag s x y g heq
    injection heq with h1 h2 h3 h4 h5
    subst h1
    exact Or.inl rfl

/-- cardBody_stack: the card body never touches the save stack. -/
theorem cardBody_stack (designId : String) : ∀ s, (cardBody designId s).stack = s.stack := by
  intro s
  simp only [cardBody]
  cases hcs : cardStyleOf designId with
  | mk bgc bc bw br sc sb sx sy =>
    cases bc with
    | none => rfl
    | some c =>
      dsimp only
      split <;> rfl

/-- cardBody_appends: the card body appends only non-text events of rank
two (the card fill and the optional border stroke). -/
theorem cardBody_appends (designId : String) :
    Appends (cardBody designId) (fun ev => isTextEv ev = false ∧ evRank ev = 2) := by
  intro s
  simp only [cardBody]
  cases hcs : cardStyleOf designId with
  | mk bgc bc bw br sc sb sx sy =>
    cases bc with
    | none =>
      refine ⟨[Ev.path "card" _], rfl, ?_⟩
      intro ev hev
      rcases List.mem_singleton.mp hev with rfl
      exact ⟨rfl, rfl⟩
    | some c =>
      dsimp only
      split
      · exact appends_comp
          (appends_mono (fun ev hp => ⟨hp.1, hp.2.trans (by decide)⟩)
            (appends_single_path "card" (fun s0 =>
              ((((s0.setShadowColor sc).setShadowBlur sb).setShadowOffsetX
                sx).setShadowOffsetY sy).setFillStyle bgc) (fun s0 => rfl)))
          (appends_mono (fun ev hp => ⟨hp.1, hp.2.trans (by decide)⟩)
            (appends_single_stroke "cardBorder" (fun s0 =>
              ((s0.setShadowColor "transparent").setLineWidth bw).setStrokeStyle c)
              (fun s0 => rfl))) s
      · refine ⟨[Ev.path "card" _], rfl, ?_⟩
        intro ev hev
        rcases List.mem_singleton.mp hev with rfl
        exact ⟨rfl, rfl⟩

/-- drawStylizedCard_fx: the card painter restores the full style state
and the stack and appends only non-text rank-two events. -/
theorem drawStylizedCard_fx (designId : String) (x y w h : ℚ) (st : St) :
    (drawStylizedCard designId x y w h st).gfx = st.gfx ∧
    (drawStylizedCard designId x y w h st).stack = st.stack ∧
    ∃ tail, (drawStylizedCard designId x y w h st).events = st.events ++ tail ∧
      ∀ ev ∈ tail, isTextEv ev = false ∧ evRank ev = 2 := by
  obtain ⟨a1, a2, a3, tail, a4, a5⟩ :=
    save_restore_fx (cardBody designId) (cardBody_stack designId)
      (cardBody_appends designId) st
  exact ⟨a1, a2, tail, a4, a5⟩

/-- quoteLinesFx_fx: the quote-line stage, entered with a transparent
shadow, paints each wrapped line centered under its own measured width
with the transparent shadow recorded, keeps the stack, and exits still
transparent; every appended event is an in-order rank-three text event. -/
theorem quoteLinesFx_fx (m : Meas) (d : DesignConfig) (wq : List String) (st : St)
    (hsh : st.gfx.shadowColor = "transparent") :
    (quoteLinesFx m d wq st).gfx.shadowColor = "transparent" ∧
    (quoteLinesFx m d wq st).stack = st.stack ∧
    ∃ tail, (quoteLinesFx m d wq st).events = st.events ++ tail ∧
      ∀ ev ∈ tail, EvOK m ev ∧ evRank ev = 3 := by
  obtain ⟨hg, hs, hr, tail, hev, hp⟩ := drawLines_fx m "quoteLine"
    (quoteStartY wq.length) quoteLineHeight wq.enum
    ((st.setFont (quoteFontStr d)).setFillStyle (d.typography.quote.color.getD "#000000"))
  have key : quoteLinesFx m d wq st = (wq.enum).foldl
      (lineCell m "quoteLine" (quoteStartY wq.length) quoteLineHeight)
      ((st.setFont (quoteFontStr d)).setFillStyle
        (d.typography.quote.color.getD "#000000")) := rfl
  rw [key]
  refine ⟨?_, ?_, tail, ?_, ?_⟩
  · rw [hg]
    exact hsh
  · rw [hs]
    rfl
  · rw [hev]
    rfl
  · intro ev hmem
    obtain ⟨s2, i, rfl⟩ := hp ev hmem
    refine ⟨⟨?_, ?_⟩, rfl⟩
    · intro tag sx x y g heq
      injection heq with h1 h2 h3 h4 h5
      subst h2
      subst h3
      subst h5
      rfl
    · intro tag sx x y g heq
      injection heq with h1 h2 h3 h4 h5
      subst h5
      exact Or.inr (Or.inr hsh)

/-- quoteAuthorFx_fx: the author stage, entered with a transparent
shadow, paints the one centered author line with the transparent shadow
recorded and keeps the stack. -/
theorem quoteAuthorFx_fx (m : Meas) (d : DesignConfig) (author : String) (n : ℕ) (st : St)
    (hsh : st.gfx.shadowColor = "transparent") :
    (quoteAuthorFx m d author n st).stack = st.stack ∧
    ∃ tail, (quoteAuthorFx m d author n st).events = st.events ++ tail ∧
      ∀ ev ∈ tail, EvOK m ev ∧ evRank ev = 3 := by
  refine ⟨rfl, _, rfl, ?_⟩
  intro ev hev
  rcases List.mem_singleton.mp hev with rfl
  refine ⟨⟨?_, ?_⟩, rfl⟩
  · intro tag sx x y g heq
    injection heq with h1 h2 h3 h4 h5
    subst h2
    subst h3
    subst h5
    rfl
  · intro tag sx x y g heq
    injection heq with h1 h2 h3 h4 h5
    subst h5
    exact Or.inr (Or.inr hsh)

/-! ## Day-decoration lemmas of the quote renderer -/

/-- mondayBody_stack: the addMondayDecoration body keeps the save stack. -/
theorem mondayBody_stack : ∀ s, (mondayBody s).stack = s.stack := by
  intro s
  simp only [mondayBody]
  rw [foldl_stack (fun s2 (a : ℕ) => s2.strokePath "addMondayDecoration") (upRangeN 0 80 20)
      (fun s2 a => rfl),
    foldl_stack (fun s2 (a : ℕ) => s2.strokePath "addMondayDecoration") (upRangeN 0 80 20)
      (fun s2 a => rfl)]
  rfl

/-- mondayBody_appends: the addMondayDecoration body appends only non-text rank-four
stroke events. -/
theorem mondayBody_appends :
    Appends mondayBody (fun ev => isTextEv ev = false ∧ evRank ev = 4) := by
  have h := appends_comp
    (appends_comp
      (appends_of_eventsEq (f := (fun s0 => ((s0.setAlpha 0.1).setStrokeStyle "#6495ED").setLineWidth 3))
        (p := fun ev => isTextEv ev = false ∧ evRank ev = 4) (fun s0 => rfl))
      (appends_mono (fun ev hp => ⟨hp.1, hp.2.trans (by decide)⟩)
        (strokeLoop_appends "addMondayDecoration" (upRangeN 0 80 20))))
    (appends_mono (fun ev hp => ⟨hp.1, hp.2.trans (by decide)⟩)
      (strokeLoop_appends "addMondayDecoration" (upRangeN 0 80 20)))
  intro s
  obtain ⟨tail, hev, hp⟩ := h s
  exact ⟨tail, hev, hp⟩

/-- addMondayDecoration_fx: addMondayDecoration restores the style state and the stack and
appends only non-text rank-four events. -/
theorem addMondayDecoration_fx (st : St) :
    (addMondayDecoration st).gfx = st.gfx ∧
    (addMondayDecoration st).stack = st.stack ∧
    ∃ tail, (addMondayDecoration st).events = st.events ++ tail ∧
      ∀ ev ∈ tail, isTextEv ev = false ∧ evRank ev = 4 := by
  obtain ⟨a1, a2, a3, tail, a4, a5⟩ :=
    save_restore_fx mondayBody mondayBody_stack mondayBody_appends st
  exact ⟨a1, a2, tail, a4, a5⟩

/-- tuesdayBody_stack: the addTuesdayDecoration body keeps the save stack. -/
theorem tuesdayBody_stack : ∀ s, (tuesdayBody s).stack = s.stack := by
  intro s
  simp only [tuesdayBody]
  rw [foldl_stack (fun s2 (a : ℕ) => s2.strokePath "addTuesdayDecoration") (upRangeN 0 100 20)
      (fun s2 a => rfl),
    foldl_stack (fun s2 (a : ℕ) => s2.strokePath "addTuesdayDecoration") (upRangeN 0 100 20)
      (fun s2 a => rfl)]
  rfl

/-- tuesdayBody_appends: the addTuesdayDecoration body appends only non-text rank-four
stroke events. -/
theorem tuesdayBody_appends :
    Appends tuesdayBody (fun ev => isTextEv ev = false ∧ evRank ev = 4) := by
  have h := appends_comp
    (appends_comp
      (appends_of_eventsEq (f := (fun s0 => ((s0.setAlpha 0.1).setStrokeStyle "#ffffff").setLineWidth 3))
        (p := fun ev => isTextEv ev = false ∧ evRank ev = 4) (fun s0 => rfl))
      (appends_mono (fun ev hp => ⟨hp.1, hp.2.trans (by decide)⟩)
        (strokeLoop_appends "addTuesdayDecoration" (upRangeN 0 100 20))))
    (appends_mono (fun ev hp => ⟨hp.1, hp.2.trans (by decide)⟩)
      (strokeLoop_appends "addTuesdayDecoration" (upRangeN 0 100 20)))
  intro s
  obtain ⟨tail, hev, hp⟩ := h s
  exact ⟨tail, hev, hp⟩

/-- addTuesdayDecoration_fx: addTuesdayDecoration restores the style state and the stack and
appends only non-text rank-four events. -/
theorem addTuesdayDecoration_fx (st : St) :
    (addTuesdayDecoration st).gfx = st.gfx ∧
    (addTuesdayDecoration st).stack = st.stack ∧
    ∃ tail, (addTuesdayDecoration st).events = st.events ++ tail ∧
      ∀ ev ∈ tail, isTextEv ev = false ∧ evRank ev = 4 := by
  obtain ⟨a1, a2, a3, tail, a4, a5⟩ :=
    save_restore_fx tuesdayBody tuesdayBody_stack tuesdayBody_appends st
  exact ⟨a1, a2, tail, a4, a5⟩

/-- saturdayBody_stack: the addSaturdayDecoration body keeps the save stack. -/
theorem saturdayBody_stack : ∀ s, (saturdayBody s).stack = s.stack := by
  intro s
  simp only [saturdayBody]
  rw [foldl_stack (fun s2 (a : ℕ) => s2.strokePath "addSaturdayDecoration") (upRangeN 0 150 30)
      (fun s2 a => rfl),
    foldl_stack (fun s2 (a : ℕ) => s2.strokePath "addSaturdayDecoration") (upRangeN 0 150 30)
      (fun s2 a => rfl)]
  rfl

/-- saturdayBody_appends: the addSaturdayDecoration body appends only non-text rank-four
stroke events. -/
theorem saturdayBody_appends :
    Appends saturdayBody (fun ev => isTextEv ev = false ∧ evRank ev = 4) := by
  have h := appends_comp
    (appends_comp
      (appends_of_eventsEq (f := (fun s0 => ((s0.setAlpha 0.1).setStrokeStyle "#ffffff").setLineWidth 2))
        (p := fun ev => isTextEv ev = false ∧ evRank ev = 4) (fun s0 => rfl))
      (appends_mono (fun ev hp => ⟨hp.1, hp.2.trans (by decide)⟩)
        (strokeLoop_appends "addSaturdayDecoration" (upRangeN 0 150 30))))
    (appends_mono (fun ev hp => ⟨hp.1, hp.2.trans (by decide)⟩)
      (strokeLoop_appends "addSaturdayDecoration" (upRangeN 0 150 30)))
  intro s
  obtain ⟨tail, hev, hp⟩ := h s
  exact ⟨tail, hev, hp⟩

/-- addSaturdayDecoration_fx: addSaturdayDecoration restores the style state and the stack and
appends only non-text rank-four events. -/
theorem addSaturdayDecoration_fx (st : St) :
    (addSaturdayDecoration st).gfx = st.gfx ∧
    (addSaturdayDecoration st).stack = st.stack ∧
    ∃ tail, (addSaturdayDecoration st).events = st.events ++ tail ∧
      ∀ ev ∈ tail, isTextEv ev = false ∧ evRank ev = 4 := by
  obtain ⟨a1, a2, a3, tail, a4, a5⟩ :=
    save_restore_fx saturdayBody saturdayBody_stack saturdayBody_appends st
  exact ⟨a1, a2, tail, a4, a5⟩

/-- sundayBody_stack: the addSundayDecoration body keeps the save stack. -/
theorem sundayBody_stack : ∀ s, (sundayBody s).stack = s.stack := by
  intro s
  simp only [sundayBody]
  rw [foldl_stack (fun s2 (a : ℕ) => s2.strokePath "addSundayDecoration") (upRangeN 0 120 20)
      (fun s2 a => rfl),
    foldl_stack (fun s2 (a : ℕ) => s2.strokePath "addSundayDecoration") (upRangeN 0 120 20)
      (fun s2 a => rfl)]
  rfl

/-- sundayBody_appends: the addSundayDecoration body appends only non-text rank-four
stroke events. -/
theorem sundayBody_appends :
    Appends sundayBody (fun ev => isTextEv ev = false ∧ evRank ev = 4) := by
  have h := appends_comp
    (appends_comp
      (appends_of_eventsEq (f := (fun s0 => ((s0.setAlpha 0.08).setStrokeStyle "#ffffff").setLineWidth 4))
        (p := fun ev => isTextEv ev = false ∧ evRank ev = 4) (fun s0 => rfl))
      (appends_mono (fun ev hp => ⟨hp.1, hp.2.trans (by decide)⟩)
        (strokeLoop_appends "addSundayDecoration" (upRangeN 0 120 20))))
    (appends_mono (fun ev hp => ⟨hp.1, hp.2.trans (by decide)⟩)
      (strokeLoop_appends "addSundayDecoration" (upRangeN 0 120 20)))
  intro s
  obtain ⟨tail, hev, hp⟩ := h s
  exact ⟨tail, hev, hp⟩

/-- addSundayDecoration_fx: addSundayDecoration restores the style state and the stack and
appends only non-text rank-four events. -/
theorem addSundayDecoration_fx (st : St) :
    (addSundayDecoration st).gfx = st.gfx ∧
    (addSundayDecoration st).stack = st.stack ∧
    ∃ tail, (addSundayDecoration st).events = st.events ++ tail ∧
      ∀ ev ∈ tail, isTextEv ev = false ∧ evRank ev = 4 := by
  obtain ⟨a1, a2, a3, tail, a4, a5⟩ :=
    save_restore_fx sundayBody sundayBody_stack sundayBody_appends st
  exact ⟨a1, a2, tail, a4, a5⟩

/-- wednesdayBody_stack: the addWednesdayDecoration body keeps the save
stack. -/
theorem wednesdayBody_stack : ∀ s, (wednesdayBody s).stack = s.stack := by
  intro s
  simp only [wednesdayBody, drawStylizedLeaf]
  rfl

/-- leaf_appends: one stylized leaf appends one non-text rank-four
event. -/
theorem leaf_appends :
    Appends drawStylizedLeaf (fun ev => isTextEv ev = false ∧ evRank ev = 4) :=
  appends_mono (fun ev hp => ⟨hp.1, hp.2.trans (by decide)⟩)
    (fillPath_appends "drawStylizedLeaf")

/-- wednesdayBody_appends: the addWednesdayDecoration body appends only
non-text rank-four leaf fills. -/
theorem wednesdayBody_appends :
    Appends wednesdayBody (fun ev => isTextEv ev = false ∧ evRank ev = 4) := by
  have h := appends_comp (appends_comp (appends_comp
    (appends_comp
      (appends_of_eventsEq (f := fun s0 => (s0.setAlpha 0.1).setFillStyle "#ffffff")
        (p := fun ev => isTextEv ev = false ∧ evRank ev = 4) (fun s0 => rfl))
      leaf_appends) leaf_appends) leaf_appends) leaf_appends
  intro s
  obtain ⟨tail, hev, hp⟩ := h s
  exact ⟨tail, hev, hp⟩

/-- addWednesdayDecoration_fx: addWednesdayDecoration restores the style
state and the stack and appends only non-text rank-four events. -/
theorem addWednesdayDecoration_fx (st : St) :
    (addWednesdayDecoration st).gfx = st.gfx ∧
    (addWednesdayDecoration st).stack = st.stack ∧
    ∃ tail, (addWednesdayDecoration st).events = st.events ++ tail ∧
      ∀ ev ∈ tail, isTextEv ev = false ∧ evRank ev = 4 := by
  obtain ⟨a1, a2, a3, tail, a4, a5⟩ :=
    save_restore_fx wednesdayBody wednesdayBody_stack wednesdayBody_appends st
  exact ⟨a1, a2, tail, a4, a5⟩

/-- diamondLoop_appends: a loop of diamond fills appends non-text
rank-four events. -/
theorem diamondLoop_appends {α : Type} (l : List α) :
    Appends (fun s => l.foldl (fun s2 _ => drawDiamond s2) s)
      (fun ev => isTextEv ev = false ∧ evRank ev = 4) :=
  appends_mono (fun ev hp => ⟨hp.1, hp.2.trans (by decide)⟩)
    (pathLoop_appends "drawDiamond" l)

/-- thursdayBody_stack: the addThursdayDecoration body keeps the save
stack. -/
theorem thursdayBody_stack : ∀ s, (thursdayBody s).stack = s.stack := by
  intro s
  simp only [thursdayBody]
  rw [foldl_stack
      (fun s1 (y : ℤ) => (downRangeZ 1050 (y - 150) 30).foldl (fun s2 _ => drawDiamond s2) s1)
      (downRangeZ 1050 930 30)
      (fun s1 y => foldl_stack (fun s2 (a : ℤ) => drawDiamond s2) _ (fun s2 a => rfl) s1),
    foldl_stack
      (fun s1 (y : ℕ) => (upRangeN 30 (150 - y) 30).foldl (fun s2 _ => drawDiamond s2) s1)
      (upRangeN 30 150 30)
      (fun s1 y => foldl_stack (fun s2 (a : ℕ) => drawDiamond s2) _ (fun s2 a => rfl) s1)]
  rfl

/-- thursdayBody_appends: the addThursdayDecoration body appends only
non-text rank-four diamond fills. -/
theorem thursdayBody_appends :
    Appends thursdayBody (fun ev => isTextEv ev = false ∧ evRank ev = 4) := by
  have h := appends_comp
    (appends_comp
      (appends_of_eventsEq (f := fun s0 => (s0.setAlpha 0.1).setFillStyle "#ffffff")
        (p := fun ev => isTextEv ev = false ∧ evRank ev = 4) (fun s0 => rfl))
      (appends_foldl
        (fun s1 (y : ℕ) => (upRangeN 30 (150 - y) 30).foldl (fun s2 _ => drawDiamond s2) s1)
        _ (upRangeN 30 150 30) (fun y => diamondLoop_appends _)))
    (appends_foldl
      (fun s1 (y : ℤ) => (downRangeZ 1050 (y - 150) 30).foldl (fun s2 _ => drawDiamond s2) s1)
      _ (downRangeZ 1050 930 30) (fun y => diamondLoop_appends _))
  intro s
  obtain ⟨tail, hev, hp⟩ := h s
  exact ⟨tail, hev, hp⟩

/-- addThursdayDecoration_fx: addThursdayDecoration restores the style
state and the stack and appends only non-text rank-four events. -/
theorem addThursdayDecoration_fx (st : St) :
    (addThursdayDecoration st).gfx = st.gfx ∧
    (addThursdayDecoration st).stack = st.stack ∧
    ∃ tail, (addThursdayDecoration st).events = st.events ++ tail ∧
      ∀ ev ∈ tail, isTextEv ev = false ∧ evRank ev = 4 := by
  obtain ⟨a1, a2, a3, tail, a4, a5⟩ :=
    save_restore_fx thursdayBody thursdayBody_stack thursdayBody_appends st
  exact ⟨a1, a2, tail, a4, a5⟩

/-- star_appends: one quote-side star appends one non-text rank-four
event. -/
theorem star_appends :
    Appends drawStarQ (fun ev => isTextEv ev = false ∧ evRank ev = 4) :=
  appends_mono (fun ev hp => ⟨hp.1, hp.2.trans (by decide)⟩)
    (fillPath_appends "drawStar")

/-- fridayBody_stack: the addFridayDecoration body keeps the save stack. -/
theorem fridayBody_stack : ∀ s, (fridayBody s).stack = s.stack := by
  intro s
  simp only [fridayBody, drawStarQ]
  rfl

/-- fridayBody_appends: the addFridayDecoration body appends only
non-text rank-four star fills. -/
theorem fridayBody_appends :
    Appends fridayBody (fun ev => isTextEv ev = false ∧ evRank ev = 4) := by
  have h := appends_comp (appends_comp (appends_comp (appends_comp
    (appends_comp (appends_comp (appends_comp (appends_comp
      (appends_of_eventsEq (f := fun s0 => (s0.setAlpha 0.15).setFillStyle "#ffffff")
        (p := fun ev => isTextEv ev = false ∧ evRank ev = 4) (fun s0 => rfl))
      star_appends) star_appends) star_appends) star_appends)
      star_appends) star_appends) star_appends) star_appends
  intro s
  obtain ⟨tail, hev, hp⟩ := h s
  exact ⟨tail, hev, hp⟩

/-- addFridayDecoration_fx: addFridayDecoration restores the style state
and the stack and appends only non-text rank-four events. -/
theorem addFridayDecoration_fx (st : St) :
    (addFridayDecoration st).gfx = st.gfx ∧
    (addFridayDecoration st).stack = st.stack ∧
    ∃ tail, (addFridayDecoration st).events = st.events ++ tail ∧
      ∀ ev ∈ tail, isTextEv ev = false ∧ evRank ev = 4 := by
  obtain ⟨a1, a2, a3, tail, a4, a5⟩ :=
    save_restore_fx fridayBody fridayBody_stack fridayBody_appends st
  exact ⟨a1, a2, tail, a4, a5⟩

/-- randomDot_appends: one fallback dot cell appends one non-text
rank-four event after three silent random draws. -/
theorem randomDot_appends :
    Appends randomDotCell (fun ev => isTextEv ev = false ∧ evRank ev = 4) :=
  appends_mono (fun ev hp => ⟨hp.1, hp.2.trans (by decide)⟩)
    (appends_single_path "addRandomDecoration"
      (fun s => (((s.rand).2.rand).2.rand).2) (fun s => rfl))

/-- randomBody_stack: the addRandomDecoration body keeps the save stack. -/
theorem randomBody_stack : ∀ s, (randomBody s).stack = s.stack := by
  intro s
  simp only [randomBody]
  rw [foldl_stack
      (fun s1 (y : ℕ) => (upRangeN 40 1080 80).foldl (fun s2 _ => randomDotCell s2) s1)
      (upRangeN 40 1080 80)
      (fun s1 y => foldl_stack (fun s2 (a : ℕ) => randomDotCell s2) _ (fun s2 a => rfl) s1)]
  rfl

/-- randomBody_appends: the addRandomDecoration body appends only
non-text rank-four dot fills. -/
theorem randomBody_appends :
    Appends randomBody (fun ev => isTextEv ev = false ∧ evRank ev = 4) := by
  have h := appends_comp
    (appends_of_eventsEq (f := fun s0 => (s0.setAlpha 0.07).setFillStyle "#ffffff")
      (p := fun ev => isTextEv ev = false ∧ evRank ev = 4) (fun s0 => rfl))
    (appends_foldl
      (fun s1 (y : ℕ) => (upRangeN 40 1080 80).foldl (fun s2 _ => randomDotCell s2) s1)
      _ (upRangeN 40 1080 80)
      (fun y => appends_foldl (fun s2 (a : ℕ) => randomDotCell s2) _ (upRangeN 40 1080 80)
        (fun a => randomDot_appends)))
  intro s
  obtain ⟨tail, hev, hp⟩ := h s
  exact ⟨tail, hev, hp⟩

/-- addRandomDecoration_fx: addRandomDecoration restores the style state
and the stack and appends only non-text rank-four events. -/
theorem addRandomDecoration_fx (st : St) :
    (addRandomDecoration st).gfx = st.gfx ∧
    (addRandomDecoration st).stack = st.stack ∧
    ∃ tail, (addRandomDecoration st).events = st.events ++ tail ∧
      ∀ ev ∈ tail, isTextEv ev = false ∧ evRank ev = 4 := by
  obtain ⟨a1, a2, a3, tail, a4, a5⟩ :=
    save_restore_fx randomBody randomBody_stack randomBody_appends st
  exact ⟨a1, a2, tail, a4, a5⟩

/-- quoteDecorations_fx: the decoration dispatch restores the style
state and the stack and appends only non-text rank-four events, in every
branch. -/
theorem quoteDecorations_fx (designId : String) (st : St) :
    (quoteDecorations designId st).gfx = st.gfx ∧
    (quoteDecorations designId st).stack = st.stack ∧
    ∃ tail, (quoteDecorations designId st).events = st.events ++ tail ∧
      ∀ ev ∈ tail, isTextEv ev = false ∧ evRank ev = 4 := by
  unfold quoteDecorations
  split
  · exact addMondayDecoration_fx st
  split
  · exact addTuesdayDecoration_fx st
  split
  · exact addWednesdayDecoration_fx st
  split
  · exact addThursdayDecoration_fx st
  split
  · exact addFridayDecoration_fx st
  split
  · exact addSaturdayDecoration_fx st
  split
  · exact addSundayDecoration_fx st
  exact addRandomDecoration_fx st

/-- runQuoteSt_trace: every quote run, failed or successful, emits an
in-order trace: every event satisfies the per-event render properties,
ranks never decrease (background, title, card, text, decorations), no
painting event exceeds rank four, and a successful run appends exactly
one serialization event after all painting. -/
theorem runQuoteSt_trace (m : Meas) (o : QuoteOptions) (r : Rng) (fail : QStage → Bool) :
    (∀ e, runQuoteSt m o r fail = .error e → TraceOK m 4 e.2) ∧
    (∀ stf, runQuoteSt m o r fail = .ok stf →
      ∃ evs, stf.events = evs ++ [Ev.buffer] ∧ TraceOK m 4 evs) := by
  obtain ⟨b1, b2, b3, t1, e1, p1⟩ := quoteBgFx_fx o.design (St.init r)
  have T1 : TraceOK m 0 (quoteBgFx o.design (St.init r)).events := by
    rw [e1]
    exact traceOK_append m le_rfl (traceOK_nil m 0)
      (fun ev hm => ⟨evOK_of_nonText m ev (p1 ev hm).1, (p1 ev hm).2⟩)
  have Hsh1 : (quoteBgFx o.design (St.init r)).gfx.shadowColor = "transparent" := b1
  obtain ⟨c1, c2, c3⟩ := quoteLayoutFx_fx o.design (quoteBgFx o.design (St.init r))
  have T2 : TraceOK m 0
      (quoteLayoutFx o.design (quoteBgFx o.design (St.init r))).events := by
    rw [c3]
    exact T1
  simp only [runQuoteSt]
  by_cases h1 : fail QStage.background = true
  · rw [if_pos h1]
    refine ⟨?_, ?_⟩
    · intro e he
      injection he with he
      subst he
      exact traceOK_nil m 4
    · intro stf hst
      exact Except.noConfusion hst
  rw [if_neg h1]
  by_cases h2 : fail QStage.layout = true
  · rw [if_pos h2]
    refine ⟨?_, ?_⟩
    · intro e he
      injection he with he
      subst he
      exact traceOK_mono m (by omega) T1
    · intro stf hst
      exact Except.noConfusion hst
  rw [if_neg h2]
  cases hw : wrapQuoteCall m o.design o.quote with
  | error u =>
    refine ⟨?_, ?_⟩
    · intro e he
      injection he with he
      subst he
      exact traceOK_mono m (by omega) T2
    · intro stf hst
      exact Except.noConfusion hst
  | ok wq =>
    dsimp only
    obtain ⟨d1, d2, t3, e3, p3⟩ := quoteTitleFx_fx m o.design wq.length
      (quoteLayoutFx o.design (quoteBgFx o.design (St.init r)))
    have T3 : TraceOK m 1 (quoteTitleFx m o.design wq.length
        (quoteLayoutFx o.design (quoteBgFx o.design (St.init r)))).events := by
      rw [e3]
      exact traceOK_append m (by omega) T2 p3
    by_cases h3 : fail QStage.titleDraw = true
    · rw [if_pos h3]
      refine ⟨?_, ?_⟩
      · intro e he
        injection he with he
        subst he
        exact traceOK_mono m (by omega) T2
      · intro stf hst
        exact Except.noConfusion hst
    rw [if_neg h3]
    obtain ⟨f1, f2, t4, e4, p4⟩ := drawStylizedCard_fx o.design.designId cardX
      (cardY wq.length) cardWidth (cardHeight wq.length)
      (quoteTitleFx m o.design wq.length
        (quoteLayoutFx o.design (quoteBgFx o.design (St.init r))))
    have T4 : TraceOK m 2 (drawStylizedCard o.design.designId cardX
        (cardY wq.length) cardWidth (cardHeight wq.length)
        (quoteTitleFx m o.design wq.length
          (quoteLayoutFx o.design (quoteBgFx o.design (St.init r))))).events := by
      rw [e4]
      exact traceOK_append m (by omega) T3
        (fun ev hm => ⟨evOK_of_nonText m ev (p4 ev hm).1, (p4 ev hm).2⟩)
    have Hsh4 : (drawStylizedCard o.design.designId cardX
        (cardY wq.length) cardWidth (cardHeight wq.length)
        (quoteTitleFx m o.design wq.length
          (quoteLayoutFx o.design (quoteBgFx o.design (St.init r))))).gfx.shadowColor
        = "transparent" := by
      rw [f1]
      exact d1
    by_cases h4 : fail QStage.cardDraw = true
    · rw [if_pos h4]
      refine ⟨?_, ?_⟩
      · intro e he
        injection he with he
        subst he
        exact traceOK_mono m (by omega) T3
      · intro stf hst
        exact Except.noConfusion hst
    rw [if_neg h4]
    obtain ⟨g1, g2, t5, e5, p5⟩ := quoteLinesFx_fx m o.design wq
      (drawStylizedCard o.design.designId cardX
        (cardY wq.length) cardWidth (cardHeight wq.length)
        (quoteTitleFx m o.design wq.length
          (quoteLayoutFx o.design (quoteBgFx o.design (St.init r))))) Hsh4
    have T5 : TraceOK m 3 (quoteLinesFx m o.design wq
        (drawStylizedCard o.design.designId cardX
          (cardY wq.length) cardWidth (cardHeight wq.length)
          (quoteTitleFx m o.design wq.length
            (quoteLayoutFx o.design (quoteBgFx o.design (St.init r)))))).events := by
      rw [e5]
      exact traceOK_append m (by omega) T4 p5
    by_cases h5 : fail QStage.quoteDraw = true
    · rw [if_pos h5]
      refine ⟨?_, ?_⟩
      · intro e he
        injection he with he
        subst he
        exact traceOK_mono m (by omega) T4
      · intro stf hst
        exact Except.noConfusion hst
    rw [if_neg h5]
    obtain ⟨k1, t6, e6, p6⟩ := quoteAuthorFx_fx m o.design o.author wq.length
      (quoteLinesFx m o.design wq
        (drawStylizedCard o.design.designId cardX
          (cardY wq.length) cardWidth (cardHeight wq.length)
          (quoteTitleFx m o.design wq.length
            (quoteLayoutFx o.design (quoteBgFx o.design (St.init r)))))) g1
    have T6 : TraceOK m 3 (quoteAuthorFx m o.design o.author wq.length
        (quoteLinesFx m o.design wq
          (drawStylizedCard o.design.designId cardX
            (cardY wq.length) cardWidth (cardHeight wq.length)
            (quoteTitleFx m o.design wq.length
              (quoteLayoutFx o.design (quoteBgFx o.design (St.init r))))))).events := by
      rw [e6]
      exact traceOK_append m le_rfl T5 p6
    by_cases h6 : fail QStage.authorDraw = true
    · rw [if_pos h6]
      refine ⟨?_, ?_⟩
      · intro e he
        injection he with he
        subst he
        exact traceOK_mono m (by omega) T5
      · intro stf hst
        exact Except.noConfusion hst
    rw [if_neg h6]
    obtain ⟨l1, l2, t7, e7, p7⟩ := quoteDecorations_fx o.design.designId
      (quoteAuthorFx m o.design o.author wq.length
        (quoteLinesFx m o.design wq
          (drawStylizedCard o.design.designId cardX
            (cardY wq.length) cardWidth (cardHeight wq.length)
            (quoteTitleFx m o.design wq.length
              (quoteLayoutFx o.design (quoteBgFx o.design (St.init r)))))))
    have T7 : TraceOK m 4 (quoteDecorations o.design.designId
        (quoteAuthorFx m o.design o.author wq.length
          (quoteLinesFx m o.design wq
            (drawStylizedCard o.design.designId cardX
              (cardY wq.length) cardWidth (cardHeight wq.length)
              (quoteTitleFx m o.design wq.length
                (quoteLayoutFx o.design (quoteBgFx o.design (St.init r)))))))).events := by
      rw [e7]
      exact traceOK_append m (by omega) T6
        (fun ev hm => ⟨evOK_of_nonText m ev (p7 ev hm).1, (p7 ev hm).2⟩)
    by_cases h7 : fail QStage.decorations = true
    · rw [if_pos h7]
      refine ⟨?_, ?_⟩
      · intro e he
        injection he with he
        subst he
        exact traceOK_mono m (by omega) T6
      · intro stf hst
        exact Except.noConfusion hst
    rw [if_neg h7]
    by_cases h8 : fail QStage.saving = true
    · rw [if_pos h8]
      refine ⟨?_, ?_⟩
      · intro e he
        injection he with he
        subst he
        exact T7
      · intro stf hst
        exact Except.noConfusion hst
    rw [if_neg h8]
    refine ⟨?_, ?_⟩
    · intro e he
      exact Except.noConfusion he
    · intro stf hst
      injection hst with hst
      subst hst
      exact ⟨_, rfl, T7⟩

/-! ## Word-side decoration lemmas -/

/-- appends_single_rect: a rectangle fill after trace-silent preparation
appends one non-text event of its tag. -/
theorem appends_single_rect (tag : String) (x y w h : ℚ) (pre : St → St)
    (hpre : ∀ s, (pre s).events = s.events) :
    Appends (fun s => St.fillRect tag x y w h (pre s))
      (fun ev => isTextEv ev = false) := by
  intro s
  refine ⟨[Ev.rect tag x y w h (pre s).gfx], ?_, ?_⟩
  · show (pre s).events ++ _ = _
    rw [hpre s]
  · intro ev hev
    rcases List.mem_singleton.mp hev with rfl
    exact rfl

/-- nt_of_tagged drops the rank information of a tagged-event predicate. -/
theorem nt_of_tagged {f : St → St} {tag : String}
    (h : Appends f (fun ev => isTextEv ev = false ∧ evRank ev = tagRank tag)) :
    Appends f (fun ev => isTextEv ev = false) :=
  appends_mono (fun ev hp => hp.1) h

/-- bubblesBody_stack: the bubbles body keeps the save stack. -/
theorem bubblesBody_stack (count : ℕ) : ∀ s, (bubblesBody count s).stack = s.stack := by
  intro s
  simp only [bubblesBody]
  rw [foldl_stack (fun s2 (a : ℕ) => bubbleCell s2) (List.range count) (fun s2 a => rfl)]
  rfl

/-- bubblesBody_appends: the bubbles body appends only non-text events. -/
theorem bubblesBody_appends (count : ℕ) :
    Appends (bubblesBody count) (fun ev => isTextEv ev = false) := by
  have h := appends_comp
    (appends_of_eventsEq (f := fun s0 => s0.setAlpha 0.1)
      (p := fun ev => isTextEv ev = false) (fun s0 => rfl))
    (appends_foldl (fun s2 (a : ℕ) => bubbleCell s2) _ (List.range count)
      (fun a => nt_of_tagged (appends_single_path "drawBubbles"
        (fun s => ((((s.rand).2.rand).2.rand).2).setFillStyle "#FFFFFF") (fun s => rfl))))
  intro s
  obtain ⟨tail, hev, hp⟩ := h s
  exact ⟨tail, hev, hp⟩

/-- drawBubbles_fx: drawBubbles restores the style state and the stack
and appends only non-text events. -/
theorem drawBubbles_fx (count : ℕ) (st : St) :
    (drawBubbles count st).gfx = st.gfx ∧
    (drawBubbles count st).stack = st.stack ∧
    ∃ tail, (drawBubbles count st).events = st.events ++ tail ∧
      ∀ ev ∈ tail, isTextEv ev = false := by
  obtain ⟨a1, a2, a3, tail, a4, a5⟩ :=
    save_restore_fx (bubblesBody count) (bubblesBody_stack count)
      (bubblesBody_appends count) st
  exact ⟨a1, a2, tail, a4, a5⟩

/-- leafCell_stack: one leaf cell keeps the save stack. -/
theorem leafCell_stack : ∀ s, (leafCell s).stack = s.stack := fun s => rfl

/-- leafCell_appends: one leaf cell appends one non-text leaf fill. -/
theorem leafCell_appends : Appends leafCell (fun ev => isTextEv ev = false) := by
  intro s
  refine ⟨[Ev.path "drawLeaves" _], rfl, ?_⟩
  intro ev hev
  rcases List.mem_singleton.mp hev with rfl
  exact rfl

/-- leavesBody_stack: the leaves body keeps the save stack. -/
theorem leavesBody_stack (count : ℕ) : ∀ s, (leavesBody count s).stack = s.stack := by
  intro s
  simp only [leavesBody]
  rw [foldl_stack (fun s2 (a : ℕ) => leafCell s2) (List.range count)
    (fun s2 a => leafCell_stack s2)]
  rfl

/-- leavesBody_appends: the leaves body appends only non-text events. -/
theorem leavesBody_appends (count : ℕ) :
    Appends (leavesBody count) (fun ev => isTextEv ev = false) := by
  have h := appends_comp
    (appends_of_eventsEq (f := fun s0 => s0.setAlpha 0.1)
      (p := fun ev => isTextEv ev = false) (fun s0 => rfl))
    (appends_foldl (fun s2 (a : ℕ) => leafCell s2) _ (List.range count)
      (fun a => leafCell_appends))
  intro s
  obtain ⟨tail, hev, hp⟩ := h s
  exact ⟨tail, hev, hp⟩

/-- drawLeaves_fx: drawLeaves restores the style state and the stack and
appends only non-text events. -/
theorem drawLeaves_fx (count : ℕ) (st : St) :
    (drawLeaves count st).gfx = st.gfx ∧
    (drawLeaves count st).stack = st.stack ∧
    ∃ tail, (drawLeaves count st).events = st.events ++ tail ∧
      ∀ ev ∈ tail, isTextEv ev = false := by
  obtain ⟨a1, a2, a3, tail, a4, a5⟩ :=
    save_restore_fx (leavesBody count) (leavesBody_stack count)
      (leavesBody_appends count) st
  exact ⟨a1, a2, tail, a4, a5⟩

/-- cloud_appends: one cloud appends one non-text fill. -/
theorem cloud_appends : Appends drawCloud (fun ev => isTextEv ev = false) :=
  nt_of_tagged (appends_single_path "drawCloud"
    (fun s => s.setFillStyle "#FFFFFF") (fun s => rfl))

/-- sunCloudsBody_stack: the sun-and-clouds body keeps the save stack. -/
theorem sunCloudsBody_stack : ∀ s, (sunCloudsBody s).stack = s.stack := fun s =>
  foldl_stack (fun s2 (a : ℕ) => s2.strokePath "drawSunAndClouds") (List.range 8)
    (fun s2 a => rfl)
    (((((s.setAlpha 0.1).setFillStyle "#FFFFFF").fillPath
      "drawSunAndClouds").setStrokeStyle "#FFFFFF").setLineWidth 5)

/-- sunCloudsBody_appends: the sun-and-clouds body appends only non-text
events. -/
theorem sunCloudsBody_appends :
    Appends sunCloudsBody (fun ev => isTextEv ev = false) := by
  have h := appends_comp (appends_comp (appends_comp (appends_comp
    (appends_comp
      (nt_of_tagged (appends_single_path "drawSunAndClouds"
        (fun s0 => (s0.setAlpha 0.1).setFillStyle "#FFFFFF") (fun s0 => rfl)))
      (appends_comp
        (appends_of_eventsEq (f := fun s0 => (s0.setStrokeStyle "#FFFFFF").setLineWidth 5)
          (p := fun ev => isTextEv ev = false) (fun s0 => rfl))
        (nt_of_tagged (strokeLoop_appends "drawSunAndClouds" (List.range 8)))))
    cloud_appends) cloud_appends) cloud_appends)
    (appends_of_eventsEq (f := fun s0 => s0) (p := fun ev => isTextEv ev = false)
      (fun s0 => rfl))
  intro s
  obtain ⟨tail, hev, hp⟩ := h s
  exact ⟨tail, hev, hp⟩

/-- drawSunAndClouds_fx: drawSunAndClouds restores the style state and
the stack and appends only non-text events. -/
theorem drawSunAndClouds_fx (st : St) :
    (drawSunAndClouds st).gfx = st.gfx ∧
    (drawSunAndClouds st).stack = st.stack ∧
    ∃ tail, (drawSunAndClouds st).events = st.events ++ tail ∧
      ∀ ev ∈ tail, isTextEv ev = false := by
  obtain ⟨a1, a2, a3, tail, a4, a5⟩ :=
    save_restore_fx sunCloudsBody sunCloudsBody_stack sunCloudsBody_appends st
  exact ⟨a1, a2, tail, a4, a5⟩

/-- starsBody_stack: the stars body keeps the save stack. -/
theorem starsBody_stack (count : ℕ) : ∀ s, (starsBody count s).stack = s.stack := by
  intro s
  simp only [starsBody]
  rw [foldl_stack (fun s2 (a : ℕ) => starCell s2) (List.range count) (fun s2 a => rfl)]
  rfl

/-- starsBody_appends: the stars body appends only non-text events. -/
theorem starsBody_appends (count : ℕ) :
    Appends (starsBody count) (fun ev => isTextEv ev = false) := by
  have h := appends_comp
    (appends_of_eventsEq (f := fun s0 => s0.setAlpha 0.1)
      (p := fun ev => isTextEv ev = false) (fun s0 => rfl))
    (appends_foldl (fun s2 (a : ℕ) => starCell s2) _ (List.range count)
      (fun a => nt_of_tagged (appends_single_path "drawStar"
        (fun s => ((((s.rand).2.rand).2.rand).2).setFillStyle "#FFFFFF") (fun s => rfl))))
  intro s
  obtain ⟨tail, hev, hp⟩ := h s
  exact ⟨tail, hev, hp⟩

/-- drawStars_fx: drawStars restores the style state and the stack and
appends only non-text events. -/
theorem drawStars_fx (count : ℕ) (st : St) :
    (drawStars count st).gfx = st.gfx ∧
    (drawStars count st).stack = st.stack ∧
    ∃ tail, (drawStars count st).events = st.events ++ tail ∧
      ∀ ev ∈ tail, isTextEv ev = false := by
  obtain ⟨a1, a2, a3, tail, a4, a5⟩ :=
    save_restore_fx (starsBody count) (starsBody_stack count)
      (starsBody_appends count) st
  exact ⟨a1, a2, tail, a4, a5⟩

/-- confettiCell_stack: one confetti cell keeps the save stack. -/
theorem confettiCell_stack : ∀ s, (confettiCell s).stack = s.stack := by
  intro s
  simp only [confettiCell]
  split
  · rfl
  split
  · rfl
  · rfl

/-- confettiCell_appends: one confetti cell appends one non-text shape
fill. -/
theorem confettiCell_appends : Appends confettiCell (fun ev => isTextEv ev = false) := by
  intro s
  simp only [confettiCell]
  split
  · refine ⟨[Ev.path "drawConfetti" _], rfl, ?_⟩
    intro ev hev
    rcases List.mem_singleton.mp hev with rfl
    exact rfl
  split
  · refine ⟨[Ev.rect "drawConfetti" _ _ _ _ _], rfl, ?_⟩
    intro ev hev
    rcases List.mem_singleton.mp hev with rfl
    exact rfl
  · refine ⟨[Ev.path "drawConfetti" _], rfl, ?_⟩
    intro ev hev
    rcases List.mem_singleton.mp hev with rfl
    exact rfl

/-- confettiBody_stack: the confetti body keeps the save stack. -/
theorem confettiBody_stack (count : ℕ) : ∀ s, (confettiBody count s).stack = s.stack := by
  intro s
  simp only [confettiBody]
  rw [foldl_stack (fun s2 (a : ℕ) => confettiCell s2) (List.range count)
    (fun s2 a => confettiCell_stack s2)]
  rfl

/-- confettiBody_appends: the confetti body appends only non-text
events. -/
theorem confettiBody_appends (count : ℕ) :
    Appends (confettiBody count) (fun ev => isTextEv ev = false) := by
  have h := appends_comp
    (appends_of_eventsEq (f := fun s0 => s0.setAlpha 0.1)
      (p := fun ev => isTextEv ev = false) (fun s0 => rfl))
    (appends_foldl (fun s2 (a : ℕ) => confettiCell s2) _ (List.range count)
      (fun a => confettiCell_appends))
  intro s
  obtain ⟨tail, hev, hp⟩ := h s
  exact ⟨tail, hev, hp⟩

/-- drawConfetti_fx: drawConfetti restores the style state and the stack
and appends only non-text events. -/
theorem drawConfetti_fx (count : ℕ) (st : St) :
    (drawConfetti count st).gfx = st.gfx ∧
    (drawConfetti count st).stack = st.stack ∧
    ∃ tail, (drawConfetti count st).events = st.events ++ tail ∧
      ∀ ev ∈ tail, isTextEv ev = false := by
  obtain ⟨a1, a2, a3, tail, a4, a5⟩ :=
    save_restore_fx (confettiBody count) (confettiBody_stack count)
      (confettiBody_appends count) st
  exact ⟨a1, a2, tail, a4, a5⟩

/-- geometricBody_stack: the polygons body keeps the save stack. -/
theorem geometricBody_stack (count : ℕ) : ∀ s, (geometricBody count s).stack = s.stack := by
  intro s
  simp only [geometricBody]
  rw [foldl_stack (fun s2 (a : ℕ) => polygonCell s2) (List.range count) (fun s2 a => rfl)]
  rfl

/-- geometricBody_appends: the polygons body appends only non-text
events. -/
theorem geometricBody_appends (count : ℕ) :
    Appends (geometricBody count) (fun ev => isTextEv ev = false) := by
  have h := appends_comp
    (appends_of_eventsEq (f := fun s0 => s0.setAlpha 0.1)
      (p := fun ev => isTextEv ev = false) (fun s0 => rfl))
    (appends_foldl (fun s2 (a : ℕ) => polygonCell s2) _ (List.range count)
      (fun a => nt_of_tagged (appends_single_path "drawPolygon"
        (fun s => (((((s.rand).2.rand).2.rand).2.rand).2).setFillStyle "#FFFFFF")
        (fun s => rfl))))
  intro s
  obtain ⟨tail, hev, hp⟩ := h s
  exact ⟨tail, hev, hp⟩

/-- drawGeometricShapes_fx: drawGeometricShapes restores the style state
and the stack and appends only non-text events. -/
theorem drawGeometricShapes_fx (count : ℕ) (st : St) :
    (drawGeometricShapes count st).gfx = st.gfx ∧
    (drawGeometricShapes count st).stack = st.stack ∧
    ∃ tail, (drawGeometricShapes count st).events = st.events ++ tail ∧
      ∀ ev ∈ tail, isTextEv ev = false := by
  obtain ⟨a1, a2, a3, tail, a4, a5⟩ :=
    save_restore_fx (geometricBody count) (geometricBody_stack count)
      (geometricBody_appends count) st
  exact ⟨a1, a2, tail, a4, a5⟩

/-- tree_appends: one tree appends three non-text fills. -/
theorem tree_appends (x y size : ℚ) :
    Appends (drawTree x y size) (fun ev => isTextEv ev = false) := by
  have h := appends_comp (appends_comp
    (appends_single_rect "drawTree" (x - size / 20) (y - size) (size / 10) size
      (fun s0 => s0.setFillStyle "#FFFFFF") (fun s0 => rfl))
    (nt_of_tagged (appends_single_path "drawTree" (fun t => t) (fun t => rfl))))
    (nt_of_tagged (appends_single_path "drawTree" (fun t => t) (fun t => rfl)))
  intro s
  obtain ⟨tail, hev, hp⟩ := h s
  exact ⟨tail, hev, hp⟩

/-- bird_appends: one bird appends one non-text stroke. -/
theorem bird_appends : Appends drawBird (fun ev => isTextEv ev = false) :=
  nt_of_tagged (appends_single_stroke "drawBird"
    (fun s => (s.setStrokeStyle "#FFFFFF").setLineWidth 2) (fun s => rfl))

/-- drawTree_stack: one tree keeps the save stack. -/
theorem drawTree_stack (x y size : ℚ) (st : St) : (drawTree x y size st).stack = st.stack := rfl

/-- birdsTreesBody_stack: the birds-and-trees body keeps the save stack. -/
theorem birdsTreesBody_stack : ∀ s, (birdsTreesBody s).stack = s.stack := by
  intro s
  simp only [birdsTreesBody]
  rw [foldl_stack (fun s2 (a : ℕ) => birdCell s2) (List.range 5) (fun s2 a => rfl),
    drawTree_stack, drawTree_stack, drawTree_stack]
  rfl

/-- birdsTreesBody_appends: the birds-and-trees body appends only
non-text events. -/
theorem birdsTreesBody_appends :
    Appends birdsTreesBody (fun ev => isTextEv ev = false) := by
  have h := appends_comp (appends_comp (appends_comp (appends_comp
    (appends_of_eventsEq (f := fun s0 => s0.setAlpha 0.1)
      (p := fun ev => isTextEv ev = false) (fun s0 => rfl))
    (tree_appends (canvasW * 0.2) (canvasH * 0.8) 100))
    (tree_appends (canvasW * 0.8) (canvasH * 0.9) 120))
    (tree_appends (canvasW * 0.5) (canvasH * 0.95) 80))
    (appends_foldl (fun s2 (a : ℕ) => birdCell s2) _ (List.range 5)
      (fun a => by
        intro s
        obtain ⟨tail, hev, hp⟩ := bird_appends (((s.rand).2.rand).2.rand).2
        exact ⟨tail, hev, hp⟩))
  intro s
  obtain ⟨tail, hev, hp⟩ := h s
  exact ⟨tail, hev, hp⟩

/-- drawBirdsAndTrees_fx: drawBirdsAndTrees restores the style state and
the stack and appends only non-text events. -/
theorem drawBirdsAndTrees_fx (st : St) :
    (drawBirdsAndTrees st).gfx = st.gfx ∧
    (drawBirdsAndTrees st).stack = st.stack ∧
    ∃ tail, (drawBirdsAndTrees st).events = st.events ++ tail ∧
      ∀ ev ∈ tail, isTextEv ev = false := by
  obtain ⟨a1, a2, a3, tail, a4, a5⟩ :=
    save_restore_fx birdsTreesBody birdsTreesBody_stack birdsTreesBody_appends st
  exact ⟨a1, a2, tail, a4, a5⟩

/-- dotsBody_stack: the dots body keeps the save stack. -/
theorem dotsBody_stack (count : ℕ) : ∀ s, (dotsBody count s).stack = s.stack := by
  intro s
  simp only [dotsBody]
  rw [foldl_stack (fun s2 (a : ℕ) => dotCell s2) (List.range count) (fun s2 a => rfl)]
  rfl

/-- dotsBody_appends: the dots body appends only non-text events. -/
theorem dotsBody_appends (count : ℕ) :
    Appends (dotsBody count) (fun ev => isTextEv ev = false) := by
  have h := appends_comp
    (appends_of_eventsEq (f := fun s0 => s0.setAlpha 0.1)
      (p := fun ev => isTextEv ev = false) (fun s0 => rfl))
    (appends_foldl (fun s2 (a : ℕ) => dotCell s2) _ (List.range count)
      (fun a => nt_of_tagged (appends_single_path "drawDots"
        (fun s => ((((s.rand).2.rand).2.rand).2).setFillStyle "#FFFFFF") (fun s => rfl))))
  intro s
  obtain ⟨tail, hev, hp⟩ := h s
  exact ⟨tail, hev, hp⟩

/-- drawDots_fx: drawDots restores the style state and the stack and
appends only non-text events. -/
theorem drawDots_fx (count : ℕ) (st : St) :
    (drawDots count st).gfx = st.gfx ∧
    (drawDots count st).stack = st.stack ∧
    ∃ tail, (drawDots count st).events = st.events ++ tail ∧
      ∀ ev ∈ tail, isTextEv ev = false := by
  obtain ⟨a1, a2, a3, tail, a4, a5⟩ :=
    save_restore_fx (dotsBody count) (dotsBody_stack count)
      (dotsBody_appends count) st
  exact ⟨a1, a2, tail, a4, a5⟩

/-- addDecorativeElements_fx: the word-side decoration dispatch restores
the style state and the stack and appends only non-text events, in every
branch. -/
theorem addDecorativeElements_fx (designId : String) (st : St) :
    (addDecorativeElements designId st).gfx = st.gfx ∧
    (addDecorativeElements designId st).stack = st.stack ∧
    ∃ tail, (addDecorativeElements designId st).events = st.events ++ tail ∧
      ∀ ev ∈ tail, isTextEv ev = false := by
  unfold addDecorativeElements
  split
  · exact drawBubbles_fx 15 st
  split
  · exact drawLeaves_fx 12 st
  split
  · exact drawSunAndClouds_fx st
  split
  · exact drawStars_fx 20 st
  split
  · exact drawConfetti_fx 30 st
  split
  · exact drawGeometricShapes_fx 15 st
  split
  · exact drawBirdsAndTrees_fx st
  exact drawDots_fx 25 st

/-! ## Word background and text-stage lemmas -/

set_option maxRecDepth 8000 in
/-- wordTextureLoop_shadow: the word texture grid never touches the
shadow color. -/
theorem wordTextureLoop_shadow :
    forall t, (wordTextureLoop t).gfx.shadowColor = t.gfx.shadowColor :=
  fun t => foldl_shadow (fun s1 (i : ℕ) =>
      (upRangeN 0 1080 20).foldl (fun s2 j =>
        s2.fillRect "texture" (i : ℚ) (j : ℚ) 10 10) s1) (upRangeN 0 1080 20)
    (fun s1 i => foldl_shadow (fun s2 (j : ℕ) =>
        s2.fillRect "texture" (i : ℚ) (j : ℚ) 10 10) (upRangeN 0 1080 20)
      (fun s2 j => rfl) s1) t

set_option maxRecDepth 8000 in
/-- wordTextureLoop_font: the word texture grid never touches the font. -/
theorem wordTextureLoop_font :
    forall t, (wordTextureLoop t).gfx.font = t.gfx.font :=
  fun t => foldl_font (fun s1 (i : ℕ) =>
      (upRangeN 0 1080 20).foldl (fun s2 j =>
        s2.fillRect "texture" (i : ℚ) (j : ℚ) 10 10) s1) (upRangeN 0 1080 20)
    (fun s1 i => foldl_font (fun s2 (j : ℕ) =>
        s2.fillRect "texture" (i : ℚ) (j : ℚ) 10 10) (upRangeN 0 1080 20)
      (fun s2 j => rfl) s1) t

set_option maxRecDepth 8000 in
/-- wordTextureLoop_stack: the word texture grid never touches the save
stack. -/
theorem wordTextureLoop_stack :
    forall t, (wordTextureLoop t).stack = t.stack :=
  fun t => foldl_stack (fun s1 (i : ℕ) =>
      (upRangeN 0 1080 20).foldl (fun s2 j =>
        s2.fillRect "texture" (i : ℚ) (j : ℚ) 10 10) s1) (upRangeN 0 1080 20)
    (fun s1 i => foldl_stack (fun s2 (j : ℕ) =>
        s2.fillRect "texture" (i : ℚ) (j : ℚ) 10 10) (upRangeN 0 1080 20)
      (fun s2 j => rfl) s1) t

set_option maxRecDepth 8000 in
/-- wordTextureLoop_appends: the word texture grid appends only non-text
events. -/
theorem wordTextureLoop_appends :
    Appends wordTextureLoop (fun ev => isTextEv ev = false) :=
  appends_foldl (fun s1 (i : ℕ) =>
      (upRangeN 0 1080 20).foldl (fun s2 j =>
        s2.fillRect "texture" (i : ℚ) (j : ℚ) 10 10) s1)
    (fun ev => isTextEv ev = false) (upRangeN 0 1080 20)
    (fun i => appends_foldl (fun s2 (j : ℕ) =>
        s2.fillRect "texture" (i : ℚ) (j : ℚ) 10 10)
      (fun ev => isTextEv ev = false) (upRangeN 0 1080 20)
      (fun j s2 => ⟨[Ev.rect "texture" (i : ℚ) (j : ℚ) 10 10 s2.gfx], rfl, by
        intro ev hev
        rcases List.mem_singleton.mp hev with rfl
        exact rfl⟩))

/-- wordTextureBody_shadow: the texture body keeps the shadow color. -/
theorem wordTextureBody_shadow :
    forall s, (wordTextureBody s).gfx.shadowColor = s.gfx.shadowColor :=
  fun s => (wordTextureLoop_shadow (s.setFillStyle "#FFFFFF")).trans rfl

/-- wordTextureBody_font: the texture body keeps the font. -/
theorem wordTextureBody_font :
    forall s, (wordTextureBody s).gfx.font = s.gfx.font :=
  fun s => (wordTextureLoop_font (s.setFillStyle "#FFFFFF")).trans rfl

/-- wordTextureBody_stack: the texture body keeps the save stack. -/
theorem wordTextureBody_stack :
    forall s, (wordTextureBody s).stack = s.stack :=
  fun s => (wordTextureLoop_stack (s.setFillStyle "#FFFFFF")).trans rfl

/-- wordTextureBody_appends: the texture body appends only non-text
events. -/
theorem wordTextureBody_appends :
    Appends wordTextureBody (fun ev => isTextEv ev = false) := by
  intro s
  obtain ⟨tail, hev, hp⟩ := wordTextureLoop_appends (s.setFillStyle "#FFFFFF")
  exact ⟨tail, hev, hp⟩

/-- wordTextureFx_fx: the word texture overlay preserves shadow and
stack and appends only non-text rectangles. -/
theorem wordTextureFx_fx (st : St) :
    (wordTextureFx st).gfx.shadowColor = st.gfx.shadowColor ∧
    (wordTextureFx st).stack = st.stack ∧
    ∃ tail, (wordTextureFx st).events = st.events ++ tail ∧
      ∀ ev ∈ tail, isTextEv ev = false := by
  obtain ⟨a1, a2, a3, a4, tail, a5, a6⟩ :=
    texture_shape_fx (p := fun ev => isTextEv ev = false)
      wordTextureBody 0.05 1.0 wordTextureBody_shadow wordTextureBody_font
      wordTextureBody_stack wordTextureBody_appends st
  exact ⟨a1, a4, tail, a5, a6⟩

/-- createDayBackground_fx: the word background stage preserves the
shadow color and the stack and appends only non-text events. -/
theorem createDayBackground_fx (designId : String) (st : St) :
    (createDayBackground designId st).gfx.shadowColor = st.gfx.shadowColor ∧
    (createDayBackground designId st).stack = st.stack ∧
    ∃ tail, (createDayBackground designId st).events = st.events ++ tail ∧
      ∀ ev ∈ tail, isTextEv ev = false := by
  obtain ⟨w1, w2, t1, e1, p1⟩ := wordTextureFx_fx
    (St.fillGrad "background" (createDayBackgroundStops designId st.rng).1
      { st with rng := (createDayBackgroundStops designId st.rng).2 })
  obtain ⟨d1, d2, t2, e2, p2⟩ := addDecorativeElements_fx designId
    (wordTextureFx
      (St.fillGrad "background" (createDayBackgroundStops designId st.rng).1
        { st with rng := (createDayBackgroundStops designId st.rng).2 }))
  refine ⟨?_, ?_, Ev.grad "background" (createDayBackgroundStops designId st.rng).1 st.gfx
    :: (t1 ++ t2), ?_, ?_⟩
  · show (addDecorativeElements designId _).gfx.shadowColor = _
    rw [d1, w1]
    rfl
  · show (addDecorativeElements designId _).stack = _
    rw [d2, w2]
    rfl
  · show (addDecorativeElements designId _).events = _
    rw [e2, e1]
    show ((st.events ++ [_]) ++ t1) ++ t2 = _
    rw [List.append_assoc, List.append_assoc]
    rfl
  · intro ev hev
    rcases List.mem_cons.mp hev with rfl | hev
    · exact rfl
    rcases List.mem_append.mp hev with h | h
    exacts [p1 ev h, p2 ev h]

/-- wordWordFx_fx: the display-word stage exits with the shadow reset to
transparent, keeps the stack, and appends exactly the centered shadowed
word text, which is exempt as the deliberately shadowed heading. -/
theorem wordWordFx_fx (m : Meas) (d : DesignConfig) (titleFont w : String) (st : St) :
    (wordWordFx m d titleFont w st).gfx.shadowColor = "transparent" ∧
    (wordWordFx m d titleFont w st).stack = st.stack ∧
    ∃ tail, (wordWordFx m d titleFont w st).events = st.events ++ tail ∧
      ∀ ev ∈ tail, EvOK m ev := by
  refine ⟨rfl, rfl, _, rfl, ?_⟩
  intro ev hev
  rcases List.mem_singleton.mp hev with rfl
  refine ⟨?_, ?_⟩
  · intro tag sx x y g heq
    injection heq with h1 h2 h3 h4 h5
    subst h2
    subst h3
    subst h5
    rfl
  · intro tag sx x y g heq
    injection heq with h1 h2 h3 h4 h5
    subst h1
    exact Or.inr (Or.inl rfl)

/-- wordPosFx_fx: the part-of-speech stage keeps the shadow color and
the stack and appends the one centered text line, painted with the
entry shadow. -/
theorem wordPosFx_fx (m : Meas) (d : DesignConfig) (bodyFont pos : String) (y : ℚ) (st : St)
    (hsh : st.gfx.shadowColor = "transparent") :
    (wordPosFx m d bodyFont pos y st).gfx.shadowColor = "transparent" ∧
    (wordPosFx m d bodyFont pos y st).stack = st.stack ∧
    ∃ tail, (wordPosFx m d bodyFont pos y st).events = st.events ++ tail ∧
      ∀ ev ∈ tail, EvOK m ev := by
  refine ⟨hsh, rfl, _, rfl, ?_⟩
  intro ev hev
  rcases List.mem_singleton.mp hev with rfl
  refine ⟨?_, ?_⟩
  · intro tag sx x y2 g heq
    injection heq with h1 h2 h3 h4 h5
    subst h2
    subst h3
    subst h5
    rfl
  · intro tag sx x y2 g heq
    injection heq with h1 h2 h3 h4 h5
    subst h5
    exact Or.inr (Or.inr hsh)

/-- wordHeadingFx_fx: a section-heading stage keeps the shadow color and
the stack and appends the two rule strokes and the centered heading
text, painted with the entry shadow. -/
theorem wordHeadingFx_fx (m : Meas) (d : DesignConfig) (titleFont tag txt : String) (y : ℚ)
    (st : St) (hsh : st.gfx.shadowColor = "transparent") :
    (wordHeadingFx m d titleFont tag txt y st).gfx.shadowColor = "transparent" ∧
    (wordHeadingFx m d titleFont tag txt y st).stack = st.stack ∧
    ∃ tail, (wordHeadingFx m d titleFont tag txt y st).events = st.events ++ tail ∧
      ∀ ev ∈ tail, EvOK m ev := by
  refine ⟨hsh, rfl,
    [Ev.stroke (tag ++ "Line")
      ((((st.setFont (headingFontStr d titleFont)).setFillStyle
        "#333333").setStrokeStyle "#333333").setLineWidth 3).gfx,
    Ev.stroke (tag ++ "Line")
      ((((st.setFont (headingFontStr d titleFont)).setFillStyle
        "#333333").setStrokeStyle "#333333").setLineWidth 3).gfx,
    Ev.text tag txt ((canvasW - m (headingFontStr d titleFont) txt) / 2) y
      ((((st.setFont (headingFontStr d titleFont)).setFillStyle
        "#333333").setStrokeStyle "#333333").setLineWidth 3).gfx], ?_, ?_⟩
  · show ((st.events ++ [_]) ++ [_]) ++ [_] = _
    rw [List.append_assoc, List.append_assoc]
    rfl
  intro ev hev
  rcases List.mem_cons.mp hev with rfl | hev
  · exact evOK_of_nonText m _ rfl
  rcases List.mem_cons.mp hev with rfl | hev
  · exact evOK_of_nonText m _ rfl
  rcases List.mem_singleton.mp hev with rfl
  refine ⟨?_, ?_⟩
  · intro tg sx x y2 g heq
    injection heq with h1 h2 h3 h4 h5
    subst h2
    subst h3
    subst h5
    rfl
  · intro tg sx x y2 g heq
    injection heq with h1 h2 h3 h4 h5
    subst h5
    exact Or.inr (Or.inr hsh)

/-- wordDefFx_fx: the definition stage paints the shadowed box, resets
the shadow before any text, paints each line centered with the
transparent shadow recorded, and exits transparent. -/
theorem wordDefFx_fx (m : Meas) (d : DesignConfig) (bodyFont : String) (wd : List String)
    (y : ℚ) (st : St) :
    (wordDefFx m d bodyFont wd y st).gfx.shadowColor = "transparent" ∧
    (wordDefFx m d bodyFont wd y st).stack = st.stack ∧
    ∃ tail, (wordDefFx m d bodyFont wd y st).events = st.events ++ tail ∧
      ∀ ev ∈ tail, EvOK m ev := by
  obtain ⟨hg, hs, hr, tail, hev, hp⟩ := drawLines_fx m "definitionLine"
    (y + definitionPadding) ((definitionFontSize : ℚ) * 1.3) wd.enum
    ((((((((((st.setFont (defFontStrAt d bodyFont definitionFontSize)).setFillStyle
      "#000000").setShadowColor "rgba(0,0,0,0.2)").setShadowBlur
      15).setShadowOffsetX 5).setShadowOffsetY 5).fillGrad "definitionBox"
      [(0, "rgba(255, 255, 255, 0.95)"), (1, "rgba(245, 245, 245, 0.95)")]).setShadowColor
      "transparent").setShadowBlur 0).setShadowOffsetX 0 |>.setShadowOffsetY 0
      |>.setFillStyle "#333333")
  have key : wordDefFx m d bodyFont wd y st = wd.enum.foldl
      (lineCell m "definitionLine" (y + definitionPadding) ((definitionFontSize : ℚ) * 1.3))
      ((((((((((st.setFont (defFontStrAt d bodyFont definitionFontSize)).setFillStyle
      "#000000").setShadowColor "rgba(0,0,0,0.2)").setShadowBlur
      15).setShadowOffsetX 5).setShadowOffsetY 5).fillGrad "definitionBox"
      [(0, "rgba(255, 255, 255, 0.95)"), (1, "rgba(245, 245, 245, 0.95)")]).setShadowColor
      "transparent").setShadowBlur 0).setShadowOffsetX 0 |>.setShadowOffsetY 0
      |>.setFillStyle "#333333") := rfl
  rw [key]
  refine ⟨?_, ?_, (Ev.grad "definitionBox"
      [(0, "rgba(255, 255, 255, 0.95)"), (1, "rgba(245, 245, 245, 0.95)")]
      ((((((st.setFont (defFontStrAt d bodyFont definitionFontSize)).setFillStyle
        "#000000").setShadowColor "rgba(0,0,0,0.2)").setShadowBlur
        15).setShadowOffsetX 5).setShadowOffsetY 5).gfx) :: tail, ?_, ?_⟩
  · rw [hg]
    rfl
  · rw [hs]
    rfl
  · rw [hev]
    show (st.events ++ [_]) ++ tail = _
    rw [List.append_assoc]
    rfl
  · intro ev hmem
    rcases List.mem_cons.mp hmem with rfl | hmem
    · exact evOK_of_nonText m _ rfl
    obtain ⟨s2, i, rfl⟩ := hp ev hmem
    refine ⟨?_, ?_⟩
    · intro tg sx x y2 g heq
      injection heq with h1 h2 h3 h4 h5
      subst h2
      subst h3
      subst h5
      rfl
    · intro tg sx x y2 g heq
      injection heq with h1 h2 h3 h4 h5
      subst h5
      exact Or.inr (Or.inr rfl)

/-- wordExampleFx_fx: the example stage paints the shadowed box, resets
the shadow before any text, paints each line centered with the
transparent shadow recorded, and exits transparent. -/
theorem wordExampleFx_fx (m : Meas) (d : DesignConfig) (bodyFont : String) (wd : List String)
    (y : ℚ) (st : St) :
    (wordExampleFx m d bodyFont wd y st).gfx.shadowColor = "transparent" ∧
    (wordExampleFx m d bodyFont wd y st).stack = st.stack ∧
    ∃ tail, (wordExampleFx m d bodyFont wd y st).events = st.events ++ tail ∧
      ∀ ev ∈ tail, EvOK m ev := by
  obtain ⟨hg, hs, hr, tail, hev, hp⟩ := drawLines_fx m "exampleLine"
    (y + examplePadding) ((exampleFontSize : ℚ) * 1.3) wd.enum
    (((((((((st.setFont (exampleFontStrAt d bodyFont exampleFontSize)).setShadowColor
      "rgba(0,0,0,0.2)").setShadowBlur 15).setShadowOffsetX 5).setShadowOffsetY
      5).fillGrad "exampleBox"
      [(0, "rgba(250, 250, 255, 0.95)"), (1, "rgba(240, 240, 250, 0.95)")]).setShadowColor
      "transparent").setShadowBlur 0).setShadowOffsetX 0 |>.setShadowOffsetY 0
      |>.setFillStyle "#444444")
  have key : wordExampleFx m d bodyFont wd y st = wd.enum.foldl
      (lineCell m "exampleLine" (y + examplePadding) ((exampleFontSize : ℚ) * 1.3))
      (((((((((st.setFont (exampleFontStrAt d bodyFont exampleFontSize)).setShadowColor
      "rgba(0,0,0,0.2)").setShadowBlur 15).setShadowOffsetX 5).setShadowOffsetY
      5).fillGrad "exampleBox"
      [(0, "rgba(250, 250, 255, 0.95)"), (1, "rgba(240, 240, 250, 0.95)")]).setShadowColor
      "transparent").setShadowBlur 0).setShadowOffsetX 0 |>.setShadowOffsetY 0
      |>.setFillStyle "#444444") := rfl
  rw [key]
  refine ⟨?_, ?_, (Ev.grad "exampleBox"
      [(0, "rgba(250, 250, 255, 0.95)"), (1, "rgba(240, 240, 250, 0.95)")]
      (((((st.setFont (exampleFontStrAt d bodyFont exampleFontSize)).setShadowColor
        "rgba(0,0,0,0.2)").setShadowBlur 15).setShadowOffsetX
        5).setShadowOffsetY 5).gfx) :: tail, ?_, ?_⟩
  · rw [hg]
    rfl
  · rw [hs]
    rfl
  · rw [hev]
    show (st.events ++ [_]) ++ tail = _
    rw [List.append_assoc]
    rfl
  · intro ev hmem
    rcases List.mem_cons.mp hmem with rfl | hmem
    · exact evOK_of_nonText m _ rfl
    obtain ⟨s2, i, rfl⟩ := hp ev hmem
    refine ⟨?_, ?_⟩
    · intro tg sx x y2 g heq
      injection heq with h1 h2 h3 h4 h5
      subst h2
      subst h3
      subst h5
      rfl
    · intro tg sx x y2 g heq
      injection heq with h1 h2 h3 h4 h5
      subst h5
      exact Or.inr (Or.inr rfl)


/-- getDayIndexSt_st: resolving the day index leaves the canvas state
untouched apart from the random stream. -/
theorem getDayIndexSt_st (designId : String) (st : St) :
    (getDayIndexSt designId st).2.gfx = st.gfx ∧
    (getDayIndexSt designId st).2.stack = st.stack ∧
    (getDayIndexSt designId st).2.events = st.events := by
  unfold getDayIndexSt
  cases daysList.enum.find? (fun p => includesTok designId p.2) with
  | none => exact ⟨rfl, rfl, rfl⟩
  | some p => exact ⟨rfl, rfl, rfl⟩

/-- allOK_append joins two all-events facts across an append. -/
theorem allOK_append {m : Meas} {evs tail : List Ev}
    (h : ∀ ev ∈ evs, EvOK m ev) (ht : ∀ ev ∈ tail, EvOK m ev) :
    ∀ ev ∈ evs ++ tail, EvOK m ev := by
  intro ev hev
  rcases List.mem_append.mp hev with h1 | h1
  exacts [h ev h1, ht ev h1]

/-- runWordSt_trace: every word run, failed or successful, emits a trace
in which every text event is centered under its own measured width and
either is the deliberately shadowed display word or carries a
transparent shadow. -/
theorem runWordSt_trace (m : Meas) (o : WordOptions) (r : Rng) (fail : WStage → Bool) :
    (∀ e, runWordSt m o r fail = .error e → ∀ ev ∈ e.2, EvOK m ev) ∧
    (∀ stf, runWordSt m o r fail = .ok stf → ∀ ev ∈ stf.events, EvOK m ev) := by
  simp only [runWordSt]
  by_cases h1 : fail WStage.background = true
  · rw [if_pos h1]
    refine ⟨?_, ?_⟩
    · intro e he
      injection he with he
      subst he
      intro ev hev
      exact absurd hev (List.not_mem_nil ev)
    · intro stf hst
      exact Except.noConfusion hst
  rw [if_neg h1]
  obtain ⟨g1, g2, g3⟩ := getDayIndexSt_st o.design.designId (St.init r)
  set p1 := getDayIndexSt o.design.designId (St.init r) with hp1
  set tf := wordFontsTitle.getD (p1.1 % wordFontsTitle.length) "Lato" with htf
  set bf := wordFontsBody.getD (p1.1 % wordFontsBody.length) "Lato" with hbf
  obtain ⟨c1, c2, t1, e1, q1⟩ := createDayBackground_fx o.design.designId p1.2
  set st1 := createDayBackground o.design.designId p1.2 with hst1
  have A1 : ∀ ev ∈ st1.events, EvOK m ev := by
    rw [e1, g3]
    intro ev hev
    rcases List.mem_append.mp hev with h | h
    · exact absurd h (List.not_mem_nil ev)
    · exact evOK_of_nonText m ev (q1 ev h)
  have sh1 : st1.gfx.shadowColor = "transparent" := by
    rw [c1, g1]
    rfl
  by_cases h2 : fail WStage.wordDraw = true
  · rw [if_pos h2]
    refine ⟨?_, ?_⟩
    · intro e he
      injection he with he
      subst he
      exact A1
    · intro stf hst
      exact Except.noConfusion hst
  rw [if_neg h2]
  obtain ⟨w1, w2, t2, e2, q2⟩ := wordWordFx_fx m o.design tf o.word st1
  set st2 := wordWordFx m o.design tf o.word st1 with hst2
  have A2 : ∀ ev ∈ st2.events, EvOK m ev := by
    rw [e2]
    exact allOK_append A1 q2
  by_cases h3 : (truthy o.partOfSpeech && fail WStage.partOfSpeechDraw) = true
  · rw [if_pos h3]
    refine ⟨?_, ?_⟩
    · intro e he
      injection he with he
      subst he
      exact A2
    · intro stf hst
      exact Except.noConfusion hst
  rw [if_neg h3]
  set st3 := (if truthy o.partOfSpeech = true then
    wordPosFx m o.design bf (o.partOfSpeech.getD "") (wordYpos + 60) st2 else st2) with hst3
  have A3 : ∀ ev ∈ st3.events, EvOK m ev := by
    rw [hst3]
    split
    · obtain ⟨x1, x2, t3, e3, q3⟩ :=
        wordPosFx_fx m o.design bf (o.partOfSpeech.getD "") (wordYpos + 60) st2 w1
      rw [e3]
      exact allOK_append A2 q3
    · exact A2
  have sh3 : st3.gfx.shadowColor = "transparent" := by
    rw [hst3]
    split
    · exact (wordPosFx_fx m o.design bf (o.partOfSpeech.getD "") (wordYpos + 60) st2 w1).1
    · exact w1
  by_cases h4 : fail WStage.meaningDraw = true
  · rw [if_pos h4]
    refine ⟨?_, ?_⟩
    · intro e he
      injection he with he
      subst he
      exact A3
    · intro stf hst
      exact Except.noConfusion hst
  rw [if_neg h4]
  set yq := (if truthy o.partOfSpeech = true then wordYpos + 60 + 60 else wordYpos + 60)
    with hyq
  obtain ⟨k1, k2, t4, e4, q4⟩ :=
    wordHeadingFx_fx m o.design tf "meaningHeading" "MEANING" yq st3 sh3
  set st4 := wordHeadingFx m o.design tf "meaningHeading" "MEANING" yq st3 with hst4
  have A4 : ∀ ev ∈ st4.events, EvOK m ev := by
    rw [e4]
    exact allOK_append A3 q4
  cases hwd : wrapDefCall m o.design bf o.definition with
  | error u =>
    refine ⟨?_, ?_⟩
    · intro e he
      injection he with he
      subst he
      exact A4
    · intro stf hst
      exact Except.noConfusion hst
  | ok wd =>
    dsimp only
    by_cases h5 : fail WStage.definitionDraw = true
    · rw [if_pos h5]
      refine ⟨?_, ?_⟩
      · intro e he
        injection he with he
        subst he
        exact A4
      · intro stf hst
        exact Except.noConfusion hst
    rw [if_neg h5]
    obtain ⟨d1, d2, t5, e5, q5⟩ := wordDefFx_fx m o.design bf wd (yq + 60) st4
    set st5 := wordDefFx m o.design bf wd (yq + 60) st4 with hst5
    have A5 : ∀ ev ∈ st5.events, EvOK m ev := by
      rw [e5]
      exact allOK_append A4 q5
    by_cases h6 : (truthy o.«example» && fail WStage.exampleDraw) = true
    · rw [if_pos h6]
      refine ⟨?_, ?_⟩
      · intro e he
        injection he with he
        subst he
        exact A5
      · intro stf hst
        exact Except.noConfusion hst
    rw [if_neg h6]
    by_cases hex : truthy o.«example» = true
    · rw [if_pos hex]
      obtain ⟨n1, n2, t6, e6, q6⟩ := wordHeadingFx_fx m o.design tf "sentenceHeading"
        "SENTENCE" (yq + 60 + ((wd.length : ℚ) * ((definitionFontSize : ℚ) * 1.3)
          + definitionPadding * 2) + 60) st5 d1
      set st6 := wordHeadingFx m o.design tf "sentenceHeading" "SENTENCE"
        (yq + 60 + ((wd.length : ℚ) * ((definitionFontSize : ℚ) * 1.3)
          + definitionPadding * 2) + 60) st5 with hst6
      have A6 : ∀ ev ∈ st6.events, EvOK m ev := by
        rw [e6]
        exact allOK_append A5 q6
      cases hwe : wrapExampleCall m o.design bf (o.«example».getD "") with
      | error u =>
        dsimp only
        refine ⟨?_, ?_⟩
        · intro e he
          injection he with he
          subst he
          exact A6
        · intro stf hst
          exact Except.noConfusion hst
      | ok we =>
        dsimp only
        obtain ⟨y1f, y2f, t7, e7, q7⟩ := wordExampleFx_fx m o.design bf we
          (yq + 60 + ((wd.length : ℚ) * ((definitionFontSize : ℚ) * 1.3)
            + definitionPadding * 2) + 60 + 60) st6
        set st7 := wordExampleFx m o.design bf we
          (yq + 60 + ((wd.length : ℚ) * ((definitionFontSize : ℚ) * 1.3)
            + definitionPadding * 2) + 60 + 60) st6 with hst7
        have A7 : ∀ ev ∈ st7.events, EvOK m ev := by
          rw [e7]
          exact allOK_append A6 q7
        by_cases h8 : fail WStage.saving = true
        · rw [if_pos h8]
          refine ⟨?_, ?_⟩
          · intro e he
            injection he with he
            subst he
            exact A7
          · intro stf hst
            exact Except.noConfusion hst
        rw [if_neg h8]
        refine ⟨?_, ?_⟩
        · intro e he
          exact Except.noConfusion he
        · intro stf hst
          injection hst with hst
          subst hst
          show ∀ ev ∈ st7.events ++ [Ev.buffer], EvOK m ev
          exact allOK_append A7 (by
            intro ev hev
            rcases List.mem_singleton.mp hev with rfl
            exact evOK_of_nonText m _ rfl)
    · rw [if_neg hex]
      dsimp only
      by_cases h8 : fail WStage.saving = true
      · rw [if_pos h8]
        refine ⟨?_, ?_⟩
        · intro e he
          injection he with he
          subst he
          exact A5
        · intro stf hst
          exact Except.noConfusion hst
      rw [if_neg h8]
      refine ⟨?_, ?_⟩
      · intro e he
        exact Except.noConfusion he
      · intro stf hst
        injection hst with hst
        subst hst
        show ∀ ev ∈ st5.events ++ [Ev.buffer], EvOK m ev
        exact allOK_append A5 (by
          intro ev hev
          rcases List.mem_singleton.mp hev with rfl
          exact evOK_of_nonText m _ rfl)

/-! ## Whole-trace consequences for the public operations -/

/-- buffer_last_of_shape: a painting trace followed by one serialization
event admits no decomposition with anything after the serialization. -/
theorem buffer_last_of_shape (evs : List Ev) (hno : ∀ ev ∈ evs, evRank ev ≤ 4) :
    ∀ pre post, evs ++ [Ev.buffer] = pre ++ Ev.buffer :: post → post = [] := by
  induction evs with
  | nil =>
    intro pre post h
    cases pre with
    | nil =>
      injection h with h1 h2
      exact h2.symm
    | cons b pre2 =>
      injection h with h1 h2
      have hl := congrArg List.length h2
      simp [List.length_append] at hl
      omega
  | cons a evs2 ih =>
    intro pre post h
    cases pre with
    | nil =>
      injection h with h1 h2
      have h5 := hno a (List.mem_cons_self a evs2)
      rw [h1] at h5
      exact absurd h5 (by decide)
    | cons b pre2 =>
      injection h with h1 h2
      exact ih (fun ev hm => hno ev (List.mem_cons_of_mem a hm)) pre2 post h2

/-- no_buffer_split: a trace of painting events only contains no
serialization event to decompose at. -/
theorem no_buffer_split (evs : List Ev) (hno : ∀ ev ∈ evs, evRank ev ≤ 4) :
    ∀ pre post, evs ≠ pre ++ Ev.buffer :: post := by
  intro pre post h
  have hb : Ev.buffer ∈ evs := by
    rw [h]
    exact List.mem_append.mpr (Or.inr (List.mem_cons_self _ _))
  exact absurd (hno _ hb) (by decide)

/-- generateQuote_trace: the trace of the public quote operation always
satisfies the per-event render properties, its ranks never decrease, and
anything after a serialization event is empty. -/
theorem generateQuote_trace (m : Meas) (o : QuoteOptions) (r : Rng) (t : Timestamp)
    (fail : QStage → Bool) :
    (∀ ev ∈ (generateQuoteImage m o r t fail).2, EvOK m ev) ∧
    List.Pairwise (· ≤ ·) ((generateQuoteImage m o r t fail).2.map evRank) ∧
    (∀ pre post, (generateQuoteImage m o r t fail).2 = pre ++ Ev.buffer :: post →
      post = []) := by
  cases hq : runQuoteSt m o r fail with
  | ok st =>
    obtain ⟨evs, heq, T⟩ := (runQuoteSt_trace m o r fail).2 st hq
    have htr : (generateQuoteImage m o r t fail).2 = st.events := by
      simp only [generateQuoteImage, runQuote, hq, Except.map]
    rw [htr, heq]
    have T5 : TraceOK m 5 (evs ++ [Ev.buffer]) :=
      traceOK_append m (by omega) T (by
        intro ev hev
        rcases List.mem_singleton.mp hev with rfl
        exact ⟨evOK_of_nonText m _ rfl, rfl⟩)
    exact ⟨T5.1, T5.2.1, buffer_last_of_shape evs T.2.2⟩
  | error e =>
    have T := (runQuoteSt_trace m o r fail).1 e hq
    have htr : (generateQuoteImage m o r t fail).2 = e.2 := by
      simp only [generateQuoteImage, runQuote, hq, Except.map]
    rw [htr]
    exact ⟨T.1, T.2.1, fun pre post h => absurd h (no_buffer_split e.2 T.2.2 pre post)⟩

/-- generateWord_trace: the trace of the public word operation always
satisfies the per-event render properties. -/
theorem generateWord_trace (m : Meas) (o : WordOptions) (r : Rng) (t : Timestamp)
    (fail : WStage → Bool) :
    ∀ ev ∈ (generateWordImage m o r t fail).2, EvOK m ev := by
  cases hq : runWordSt m o r fail with
  | ok st =>
    have A := (runWordSt_trace m o r fail).2 st hq
    have htr : (generateWordImage m o r t fail).2 = st.events := by
      simp only [generateWordImage, runWord, hq, Except.map]
    rw [htr]
    exact A
  | error e =>
    have A := (runWordSt_trace m o r fail).1 e hq
    have htr : (generateWordImage m o r t fail).2 = e.2 := by
      simp only [generateWordImage, runWord, hq, Except.map]
    rw [htr]
    exact A

/-! ## Per-line centering (C7) -/

/-- C7: in every render of either image service, failed or successful,
every text line is painted at the horizontal position
(canvasWidth - lineWidth) / 2 computed from that very line under the
font in force when it was painted, so each line is centered
independently of the other lines of its block. -/
theorem c7_per_line_centering (m : Meas) (oq : QuoteOptions) (ow : WordOptions)
    (r1 r2 : Rng) (t1 t2 : Timestamp) (failq : QStage → Bool) (failw : WStage → Bool) :
    (∀ ev ∈ (generateQuoteImage m oq r1 t1 failq).2, CenteredText m ev) ∧
    (∀ ev ∈ (generateWordImage m ow r2 t2 failw).2, CenteredText m ev) :=
  ⟨fun ev hev => ((generateQuote_trace m oq r1 t1 failq).1 ev hev).1,
   fun ev hev => (generateWord_trace m ow r2 t2 failw ev hev).1⟩

/-! ## Shadow reset before subsequent text (C9) -/

/-- C9: in every render of either image service, every painted text
event either is one of the two deliberately shadowed headings (the quote
title and the display word) or was painted with the shadow reset to
transparent, so the drop shadows applied around the card, the boxes and
the headings never bleed onto later text. -/
theorem c9_shadow_reset_before_text (m : Meas) (oq : QuoteOptions) (ow : WordOptions)
    (r1 r2 : Rng) (t1 t2 : Timestamp) (failq : QStage → Bool) (failw : WStage → Bool) :
    (∀ ev ∈ (generateQuoteImage m oq r1 t1 failq).2, TextShadowOK ev) ∧
    (∀ ev ∈ (generateWordImage m ow r2 t2 failw).2, TextShadowOK ev) :=
  ⟨fun ev hev => ((generateQuote_trace m oq r1 t1 failq).1 ev hev).2,
   fun ev hev => (generateWord_trace m ow r2 t2 failw ev hev).2⟩

/-! ## Paint order of the quote renderer (C4) -/

/-- evTag extracts the routine tag an event carries. -/
def evTag : Ev → String
  | .rect tag _ _ _ _ _ => tag
  | .grad tag _ _ => tag
  | .path tag _ => tag
  | .stroke tag _ => tag
  | .text tag _ _ _ _ => tag
  | .buffer => "buffer"

/-- quoteDecoTags lists the tags painted by the day-decoration routines
of the quote renderer. -/
def quoteDecoTags : List String :=
  ["addMondayDecoration", "addTuesdayDecoration", "addWednesdayDecoration",
   "addThursdayDecoration", "addFridayDecoration", "addSaturdayDecoration",
   "addSundayDecoration", "addRandomDecoration", "drawStylizedLeaf",
   "drawDiamond", "drawStar"]

/-- isDecoEv recognizes an event painted by a decoration routine. -/
def isDecoEv (ev : Ev) : Bool := quoteDecoTags.contains (evTag ev)

/-- NoDecoAfterText is the ordering the specification asserts: once any
text event has been painted, no decoration event follows. -/
def NoDecoAfterText (evs : List Ev) : Prop :=
  ∀ i j, i < j → isTextEv (evs.getD i Ev.buffer) = true →
    isDecoEv (evs.getD j Ev.buffer) = false

/-- typNone is a typography role with every field absent. -/
def typNone : TypoRole := ⟨none, none, none⟩

/-- designMondaySolid is a Monday design with a solid white background. -/
def designMondaySolid : DesignConfig :=
  ⟨"monday", ⟨"solid", "#ffffff"⟩, ⟨typNone, typNone, typNone⟩⟩

/-- measCount measures ten pixels per character in any font. -/
def measCount : Meas := fun _ s => ((s.length * 10 : ℕ) : ℚ)

/-- quoteOptsC is a concrete quote request on the Monday solid design. -/
def quoteOptsC : QuoteOptions := ⟨"hi", "me", designMondaySolid⟩

/-- rngZero is the constant-zero pseudo-random stream. -/
def rngZero : Rng := ⟨fun _ => 0, 0⟩

/-- tsC is one concrete wall-clock instant. -/
def tsC : Timestamp := ⟨2025, 4, 22, 11, 33, 28, 0⟩

/-- maxTextWidth_val evaluates the quote text budget. -/
theorem maxTextWidth_val : maxTextWidth = 700 := by
  norm_num [maxTextWidth, canvasW, marginsHorizontal]

/-- wrapEvalC: the concrete quote wraps to its own single line. -/
theorem wrapEvalC : wrapQuoteCall measCount designMondaySolid "hi" = .ok ["hi"] := by
  simp only [wrapQuoteCall, wrapText, maxTextWidth_val]
  decide

/-- hUp80 evaluates the Monday wave loop range. -/
theorem hUp80 : upRangeN 0 80 20 = [0, 20, 40, 60] := by decide

/-- hEnumF evaluates the line enumeration of the concrete wrap. -/
theorem hEnumF : List.enumFrom 0 ["hi"] = [(0, "hi")] := by decide

/-- hMon: the designId of the concrete design contains monday. -/
theorem hMon : includesTok "monday" "monday" = true := by decide

/-- hQD: the decoration dispatch of the concrete design selects the
Monday decoration. -/
theorem hQD : ∀ st, quoteDecorations "monday" st = addMondayDecoration st := by
  intro st
  simp [quoteDecorations, hMon]

/-- hCS evaluates the card style of the concrete design. -/
theorem hCS : cardStyleOf "monday" =
    ⟨"rgba(255, 255, 255, 0.25)", none, 0, 25, "rgba(0, 0, 40, 0.35)", 20, 5, 5⟩ := by
  simp [cardStyleOf, hMon]

/-- hdes projects the design of the concrete quote request. -/
theorem hdes : quoteOptsC.design = designMondaySolid := rfl

/-- hquoteC projects the quote text of the concrete request. -/
theorem hquoteC : quoteOptsC.quote = "hi" := rfl

/-- hauthorC projects the author of the concrete request. -/
theorem hauthorC : quoteOptsC.author = "me" := rfl

/-- hbtype projects the background type of the concrete design. -/
theorem hbtype : designMondaySolid.background.btype = "solid" := rfl

/-- hbcolor projects the background color of the concrete design. -/
theorem hbcolor : designMondaySolid.background.color = "#ffffff" := rfl

/-- hdid projects the designId of the concrete design. -/
theorem hdid : designMondaySolid.designId = "monday" := rfl

/-- hSG: the solid background type is not the gradient tag. -/
theorem hSG : (("solid" : String) = "gradient") = False := by decide

/-- htyT projects the absent title color of the concrete design. -/
theorem htyT : designMondaySolid.typography.title.color = none := rfl

/-- htyQ projects the absent quote color of the concrete design. -/
theorem htyQ : designMondaySolid.typography.quote.color = none := rfl

/-- htyA projects the absent author color of the concrete design. -/
theorem htyA : designMondaySolid.typography.author.color = none := rfl

/-- cTrace_text: in the concrete successful run, the event at index four
is a text event (the author line). -/
theorem cTrace_text :
    isTextEv ((generateQuoteImage measCount quoteOptsC rngZero tsC noQFail).2.getD 4
      Ev.buffer) = true := by
  simp only [generateQuoteImage, runQuote, runQuoteSt, noQFail, Except.map,
    hdes, hquoteC, hauthorC, hbtype, hbcolor, hdid, hSG, wrapEvalC, hQD, hCS,
    quoteBgFx, quoteLayoutFx, quoteTitleFx, drawStylizedCard, cardBody,
    quoteLinesFx, drawLinesCentered, lineCell, quoteAuthorFx,
    addMondayDecoration, mondayBody, hUp80,
    St.save, St.restore, St.emit, St.fillRect, St.fillText, St.fillPath, St.strokePath,
    St.fillGrad, St.setAlpha, St.setShadowColor, St.setShadowBlur, St.setShadowOffsetX,
    St.setShadowOffsetY, St.setFillStyle, St.setStrokeStyle, St.setLineWidth, St.setFont,
    St.init, List.foldl_cons, List.foldl_nil, List.enum, List.append_nil, List.nil_append,
    List.cons_append, List.append_assoc, if_false, if_true, List.length_cons,
    List.length_nil, List.getD, Option.getD, htyT, htyQ, htyA, hEnumF,
    Bool.false_eq_true, ite_false, ite_true]
  rfl

/-- cTrace_deco: in the concrete successful run, the event at index five
is a decoration event (the first Monday wave stroke), painted after the
author text. -/
theorem cTrace_deco :
    isDecoEv ((generateQuoteImage measCount quoteOptsC rngZero tsC noQFail).2.getD 5
      Ev.buffer) = true := by
  simp only [generateQuoteImage, runQuote, runQuoteSt, noQFail, Except.map,
    hdes, hquoteC, hauthorC, hbtype, hbcolor, hdid, hSG, wrapEvalC, hQD, hCS,
    quoteBgFx, quoteLayoutFx, quoteTitleFx, drawStylizedCard, cardBody,
    quoteLinesFx, drawLinesCentered, lineCell, quoteAuthorFx,
    addMondayDecoration, mondayBody, hUp80,
    St.save, St.restore, St.emit, St.fillRect, St.fillText, St.fillPath, St.strokePath,
    St.fillGrad, St.setAlpha, St.setShadowColor, St.setShadowBlur, St.setShadowOffsetX,
    St.setShadowOffsetY, St.setFillStyle, St.setStrokeStyle, St.setLineWidth, St.setFont,
    St.init, List.foldl_cons, List.foldl_nil, List.enum, List.append_nil, List.nil_append,
    List.cons_append, List.append_assoc, if_false, if_true, List.length_cons,
    List.length_nil, List.getD, Option.getD, htyT, htyQ, htyA, hEnumF,
    Bool.false_eq_true, ite_false, ite_true]
  rfl

/-- C4 counterexample: the specification claims no decoration is painted
after any text block, but in the concrete successful Monday render the
author text at index four is followed by the Monday decoration strokes
at index five: generateQuoteImage paints the day decorations after all
text, so the claimed z-order (decorations before card and text) is
false. -/
theorem c4_counterexample :
    ¬ NoDecoAfterText ((generateQuoteImage measCount quoteOptsC rngZero tsC noQFail).2) := by
  intro h
  have h2 := h 4 5 (by omega) cTrace_text
  have h3 := cTrace_deco
  rw [h2] at h3
  exact Bool.noConfusion h3

/-- C4 (amended): the quote renderer paints in the fixed z-order
background and texture first, then the title, then the card, then the
text blocks, then the day decorations, and serialization happens only
after all painting: along every trace, failed or successful, the phase
rank of the events never decreases and nothing follows the serialization
event. The amendment relative to the specification is that the
decorations are painted last, after the text, not between background and
card. -/
theorem c4_paint_order (m : Meas) (o : QuoteOptions) (r : Rng) (t : Timestamp)
    (fail : QStage → Bool) :
    List.Pairwise (· ≤ ·) ((generateQuoteImage m o r t fail).2.map evRank) ∧
    ∀ pre post, (generateQuoteImage m o r t fail).2 = pre ++ Ev.buffer :: post →
      post = [] :=
  ⟨(generateQuote_trace m o r t fail).2.1, (generateQuote_trace m o r t fail).2.2⟩

/-! ## Gradient fallback on malformed color values (C6) -/

/-- runQuoteSt_noFail_ok: with no injected failure, a run whose quote
wraps successfully completes the whole pipeline. -/
theorem runQuoteSt_noFail_ok (m : Meas) (o : QuoteOptions) (r : Rng) (wq : List String)
    (hw : wrapQuoteCall m o.design o.quote = .ok wq) :
    ∃ stf, runQuoteSt m o r noQFail = .ok stf := by
  simp only [runQuoteSt, noQFail, Bool.false_eq_true, if_false, hw]
  exact ⟨_, rfl⟩

/-- generateQuote_noFail_url: with no injected failure and a successful
wrap, the public quote operation returns the stored url. -/
theorem generateQuote_noFail_url (m : Meas) (o : QuoteOptions) (r : Rng) (t : Timestamp)
    (wq : List String) (hw : wrapQuoteCall m o.design o.quote = .ok wq) :
    (generateQuoteImage m o r t noQFail).1 = thoughtUrl t := by
  obtain ⟨stf, hok⟩ := runQuoteSt_noFail_ok m o r wq hw
  simp only [generateQuoteImage, runQuote, hok, Except.map]

/-- neutralStops is the fixed neutral two-stop fallback gradient. -/
def neutralStops : List (ℚ × String) := [(0, "#ffffff"), (1, "#f0f0f0")]

/-- parsed_notJson_default: the malformed value parses to the default
colors. -/
theorem parsed_notJson_default :
    parsedGradientColors "not-json" = defaultGradientColors := by decide

/-- stops_notJson_neutral: the malformed value yields the neutral
two-stop gradient. -/
theorem stops_notJson_neutral :
    gradientStopsFromColors (parsedGradientColors "not-json") = neutralStops := by
  rw [parsed_notJson_default]
  simp only [defaultGradientColors, gradientStopsFromColors, neutralStops]
  norm_num [List.enum, List.enumFrom]

/-- C6: for a gradient background whose color value is the malformed
string not-json, the renderer substitutes the fixed neutral fallback
(parsing falls back to the default pair, whose stops are white to light
gray), the background stage paints exactly that fallback gradient first,
and, provided the quote wraps, the render completes and stores a
non-placeholder url. -/
theorem c6_gradient_fallback (m : Meas) (o : QuoteOptions) (r : Rng) (t : Timestamp)
    (wq : List String)
    (hbg : o.design.background = ⟨"gradient", "not-json"⟩)
    (hw : wrapQuoteCall m o.design o.quote = .ok wq) :
    parsedGradientColors "not-json" = defaultGradientColors ∧
    gradientStopsFromColors (parsedGradientColors "not-json") = neutralStops ∧
    (∃ tail, (quoteBgFx o.design (St.init r)).events =
      Ev.grad "background" neutralStops Gfx.init :: tail) ∧
    (generateQuoteImage m o r t noQFail).1 = thoughtUrl t ∧
    (generateQuoteImage m o r t noQFail).1 ≠ placeholderThought := by
  have hb1 : o.design.background.btype = "gradient" := by rw [hbg]
  have hb2 : o.design.background.color = "not-json" := by rw [hbg]
  have hurl := generateQuote_noFail_url m o r t wq hw
  refine ⟨parsed_notJson_default, stops_notJson_neutral, ?_, hurl, ?_⟩
  · unfold quoteBgFx
    rw [if_pos hb1, hb2]
    unfold applyGradientBackground
    obtain ⟨a1, a2, a3, a4, tail, a5, a6⟩ := addSubtleTexture_fx
      (St.fillGrad "background"
        (gradientStopsFromColors (parsedGradientColors "not-json")) (St.init r))
    refine ⟨tail, ?_⟩
    rw [a5, stops_notJson_neutral]
    rfl
  · rw [hurl]
    exact thoughtUrl_ne_placeholder t

/-- designMondayNotJson is a Monday design with a malformed gradient
color value. -/
def designMondayNotJson : DesignConfig :=
  ⟨"monday", ⟨"gradient", "not-json"⟩, ⟨typNone, typNone, typNone⟩⟩

/-- quoteOptsC6 is a concrete quote request on the malformed-gradient
design. -/
def quoteOptsC6 : QuoteOptions := ⟨"hi", "me", designMondayNotJson⟩

/-- wrapEvalC6: the concrete quote wraps on the malformed-gradient
design too. -/
theorem wrapEvalC6 : wrapQuoteCall measCount designMondayNotJson "hi" = .ok ["hi"] := by
  simp only [wrapQuoteCall, wrapText, maxTextWidth_val]
  decide

/-- Witness for C6 at a concrete malformed-gradient request. -/
theorem c6_gradient_fallback_witness :
    parsedGradientColors "not-json" = defaultGradientColors ∧
    gradientStopsFromColors (parsedGradientColors "not-json") = neutralStops ∧
    (∃ tail, (quoteBgFx quoteOptsC6.design (St.init rngZero)).events =
      Ev.grad "background" neutralStops Gfx.init :: tail) ∧
    (generateQuoteImage measCount quoteOptsC6 rngZero tsC noQFail).1 = thoughtUrl tsC ∧
    (generateQuoteImage measCount quoteOptsC6 rngZero tsC noQFail).1
      ≠ placeholderThought :=
  c6_gradient_fallback measCount quoteOptsC6 rngZero tsC ["hi"] rfl wrapEvalC6

/-! ## Decoration helpers leave full opacity (C10) -/

/-- C10: every decoration- and texture-drawing helper of the two image
services (bubbles, leaves, stars, confetti, geometric shapes, birds and
trees, dots, the subtle texture and the fallback random dots) leaves the
global alpha at one when entered at one: the word-service helpers
restore the saved state, while the two texture and dot overlays of the
quote service reset or restore the alpha explicitly after drawing at low
opacity, so subsequently drawn text is painted fully opaque. -/
theorem c10_decoration_alpha_restore (count : ℕ) (st : St)
    (h : st.gfx.globalAlpha = 1) :
    (drawBubbles count st).gfx.globalAlpha = 1 ∧
    (drawLeaves count st).gfx.globalAlpha = 1 ∧
    (drawStars count st).gfx.globalAlpha = 1 ∧
    (drawConfetti count st).gfx.globalAlpha = 1 ∧
    (drawGeometricShapes count st).gfx.globalAlpha = 1 ∧
    (drawBirdsAndTrees st).gfx.globalAlpha = 1 ∧
    (drawDots count st).gfx.globalAlpha = 1 ∧
    (addSubtleTexture st).gfx.globalAlpha = 1 ∧
    (addRandomDecoration st).gfx.globalAlpha = 1 := by
  refine ⟨?_, ?_, ?_, ?_, ?_, ?_, ?_, ?_, ?_⟩
  · rw [(drawBubbles_fx count st).1]
    exact h
  · rw [(drawLeaves_fx count st).1]
    exact h
  · rw [(drawStars_fx count st).1]
    exact h
  · rw [(drawConfetti_fx count st).1]
    exact h
  · rw [(drawGeometricShapes_fx count st).1]
    exact h
  · rw [(drawBirdsAndTrees_fx st).1]
    exact h
  · rw [(drawDots_fx count st).1]
    exact h
  · exact (addSubtleTexture_fx st).2.2.1
  · rw [(addRandomDecoration_fx st).1]
    exact h

/-- Witness for C10 on a fresh canvas, whose alpha starts at one. -/
theorem c10_decoration_alpha_restore_witness :
    (drawBubbles 15 (St.init rngZero)).gfx.globalAlpha = 1 ∧
    (drawLeaves 15 (St.init rngZero)).gfx.globalAlpha = 1 ∧
    (drawStars 15 (St.init rngZero)).gfx.globalAlpha = 1 ∧
    (drawConfetti 15 (St.init rngZero)).gfx.globalAlpha = 1 ∧
    (drawGeometricShapes 15 (St.init rngZero)).gfx.globalAlpha = 1 ∧
    (drawBirdsAndTrees (St.init rngZero)).gfx.globalAlpha = 1 ∧
    (drawDots 15 (St.init rngZero)).gfx.globalAlpha = 1 ∧
    (addSubtleTexture (St.init rngZero)).gfx.globalAlpha = 1 ∧
    (addRandomDecoration (St.init rngZero)).gfx.globalAlpha = 1 :=
  c10_decoration_alpha_restore 15 (St.init rngZero) rfl
